import Mathlib

/-!
Verification of the ShiftSchedule backend against its specification.

This file contains a shallow embedding of the parts of the backend that the
specification's claims are about:

* `backend/state.py` — the state normaliser `_normalize_state` together with
  its helpers (`_normalize_sub_shifts`, `_ensure_locations`, the assignment,
  min-slot, override, solver-settings and solver-rule rewriting);
* `backend/solver.py` — the model builders of the two CP-SAT entry points
  `solve_day` (`/v1/solve`) and `solve_week` (`/v1/solve/week`), reified as
  explicit lists of boolean/integer variables, linear constraints and
  objective terms, plus the result extraction and note synthesis.

Python dicts are embedded as association lists with Python's insertion-order
semantics (`aset` updates in place, inserts at the end); ISO date strings are
parsed with a civil-calendar library equivalent to `datetime.date`; string
comparison is code-point lexicographic, as in Python.

A CP-SAT solution is a valuation `Var → Int`; the engine contract is that a
returned solution satisfies all constraints and variable domains (status
OPTIMAL or FEASIBLE), so properties guaranteed by the code are proved for
every feasible valuation, and refutations exhibit feasible (indeed optimal)
valuations violating the property in question.
-/

namespace ShiftSched

/-! ### Association lists with Python dict semantics -/

section Assoc

variable {κ : Type} {α : Type} [DecidableEq κ]

/-- Lookup, `d.get(k)`: first (= unique, for genuine dicts) binding wins. -/
def aget : List (κ × α) → κ → Option α
  | [], _ => none
  | (k', v) :: rest, k => if k' = k then some v else aget rest k

/-- Update `d[k] = v`: replaces in place, appends a fresh key at the end. -/
def aset : List (κ × α) → κ → α → List (κ × α)
  | [], k, v => [(k, v)]
  | (k', v') :: rest, k, v =>
      if k' = k then (k', v) :: rest else (k', v') :: aset rest k v

/-- Deletion `del d[k]` / `d.pop(k)`'s removal part. -/
def adel (l : List (κ × α)) (k : κ) : List (κ × α) :=
  l.filter (fun p => !(p.1 = k))

/-- Membership `k in d`. -/
def amem (l : List (κ × α)) (k : κ) : Bool :=
  (aget l k).isSome

/-- Keys in insertion order. -/
def akeys (l : List (κ × α)) : List κ := l.map (·.1)

/-- Python's `d.setdefault(k, []).append(x)` for list-valued dicts. -/
def aappend : List (κ × List β) → κ → β → List (κ × List β)
  | [], k, x => [(k, [x])]
  | (k', xs) :: rest, k, x =>
      if k' = k then (k', xs ++ [x]) :: rest else (k', xs) :: aappend rest k x

/-- Unordered dict equality (Python `==` on dicts). -/
def adictEq [DecidableEq α] (l₁ l₂ : List (κ × α)) : Bool :=
  l₁.all (fun p => aget l₂ p.1 = some p.2) && l₂.all (fun p => aget l₁ p.1 = some p.2)

end Assoc

/-! ### Strings, times, dates -/

/-- Numeric value of a decimal digit character. -/
def dval (c : Char) : Nat := c.toNat - 48

/-- Decimal digit test. -/
def isDig (c : Char) : Bool := 48 ≤ c.toNat && c.toNat ≤ 57

/-- Character of a decimal digit. -/
def digChar (n : Nat) : Char := Char.ofNat (48 + n % 10)

/-- Two-digit zero-padded rendering (used for `HH`, `MM`, month and day). -/
def pad2 (n : Nat) : String := String.mk [digChar (n / 10), digChar n]

/-- Four-digit zero-padded rendering (used for years). -/
def pad4 (n : Nat) : String :=
  String.mk [digChar (n / 1000), digChar (n / 100), digChar (n / 10), digChar n]

/-- Split a character list at the first occurrence of a separator,
Python's `s.split(sep, 1)` when `sep in s`. -/
def splitOnceChars (sep : List Char) : List Char → Option (List Char × List Char)
  | [] => none
  | c :: rest =>
      if sep.isPrefixOf (c :: rest) then some ([], (c :: rest).drop sep.length)
      else match splitOnceChars sep rest with
        | some (l, r) => some (c :: l, r)
        | none => none

/-- Split a string at the first occurrence of a separator; `none` when the
separator does not occur (Python `sep in s` is false). -/
def splitOnce (sep s : String) : Option (String × String) :=
  (splitOnceChars sep.toList s.toList).map (fun p => (String.mk p.1, String.mk p.2))

/-- Python string comparison: code-point lexicographic. -/
def strLtChars : List Char → List Char → Bool
  | [], [] => false
  | [], _ :: _ => true
  | _ :: _, [] => false
  | c :: cs, d :: ds =>
      if c.toNat < d.toNat then true
      else if d.toNat < c.toNat then false
      else strLtChars cs ds

/-- Python `s1 <= s2` on strings. -/
def strLe (s₁ s₂ : String) : Bool := !(strLtChars s₂.toList s₁.toList)

/-- Python `s.startswith(pre)`. -/
def strStartsWith (s pre : String) : Bool := pre.toList.isPrefixOf s.toList

/-- Python `s.strip()` on the ASCII whitespace occurring here. -/
def strTrim (s : String) : String :=
  let ws := fun c : Char => c == ' ' || c == '\t' || c == '\n' || c == '\r'
  String.mk ((s.toList.dropWhile ws).reverse.dropWhile ws).reverse

/-! ### Civil calendar (`datetime.date`) -/

/-- Gregorian leap-year test. -/
def isLeap (y : Nat) : Bool := y % 4 = 0 && (y % 100 ≠ 0 || y % 400 = 0)

/-- Days in a month of the proleptic Gregorian calendar. -/
def daysInMonth (y m : Nat) : Nat :=
  if m = 2 then (if isLeap y then 29 else 28)
  else if m = 4 || m = 6 || m = 9 || m = 11 then 30
  else 31

/-- Days since 0000-03-01 of a civil date (Hinnant's `days_from_civil`,
shifted to stay in `Nat`; valid for years ≥ 1). -/
def ordinalOfYMD (y m d : Nat) : Nat :=
  let y' := if m ≤ 2 then y - 1 else y
  let era := y' / 400
  let yoe := y' % 400
  let mp := if 2 < m then m - 3 else m + 9
  let doy := (153 * mp + 2) / 5 + (d - 1)
  let doe := yoe * 365 + yoe / 4 - yoe / 100 + doy
  era * 146097 + doe

/-- Inverse of `ordinalOfYMD` (Hinnant's `civil_from_days`). -/
def ymdOfOrdinal (z : Nat) : Nat × Nat × Nat :=
  let era := z / 146097
  let doe := z % 146097
  let yoe := (doe - doe / 1460 + doe / 36524 - doe / 146096) / 365
  let doy := doe - (365 * yoe + yoe / 4 - yoe / 100)
  let mp := (5 * doy + 2) / 153
  let d := doy - (153 * mp + 2) / 5 + 1
  let m := if mp < 10 then mp + 3 else mp - 9
  let y := yoe + era * 400
  (if m ≤ 2 then y + 1 else y, m, d)

/-- Parse a strict `YYYY-MM-DD` date (as `datetime.date.fromisoformat` on the
strings the backend appends `T00:00:00+00:00` to) into its day ordinal. -/
def parseDateISO (s : String) : Option Nat :=
  match s.toList with
  | [y₁, y₂, y₃, y₄, h₁, m₁, m₂, h₂, d₁, d₂] =>
      if isDig y₁ && isDig y₂ && isDig y₃ && isDig y₄ && h₁ = '-' &&
         isDig m₁ && isDig m₂ && h₂ = '-' && isDig d₁ && isDig d₂ then
        let y := dval y₁ * 1000 + dval y₂ * 100 + dval y₃ * 10 + dval y₄
        let m := dval m₁ * 10 + dval m₂
        let d := dval d₁ * 10 + dval d₂
        if 1 ≤ y && 1 ≤ m && m ≤ 12 && 1 ≤ d && d ≤ daysInMonth y m then
          some (ordinalOfYMD y m d)
        else none
      else none
  | _ => none

/-- Render a day ordinal as `YYYY-MM-DD`. -/
def toISO (z : Nat) : String :=
  let (y, m, d) := ymdOfOrdinal z
  pad4 y ++ "-" ++ pad2 m ++ "-" ++ pad2 d

/-- Weekday with Monday = 0 (Python `date.weekday()`). -/
def weekdayOfOrdinal (z : Nat) : Nat := (z + 2) % 7

/-- Python `int(s)` on the strings fed to `_clamp_days`: optional sign and
decimal digits (surrounding whitespace stripped); `none` mirrors the raised
`ValueError`. -/
def parseIntStr (s : String) : Option Int :=
  let go : List Char → Option Nat := fun cs =>
    if cs = [] || !cs.all isDig then none
    else some (cs.foldl (fun acc c => acc * 10 + dval c) 0)
  match (strTrim s).toList with
  | '-' :: rest => (go rest).map (fun n => -(n : Int))
  | '+' :: rest => (go rest).map (fun n => (n : Int))
  | rest => (go rest).map (fun n => (n : Int))

/-! ### Data model (`backend/models.py`)

The pydantic models, with the fields the embedded code reads.  Dict-valued
fields are association lists; `solverSettings : Dict[str, Any]` carries
`SettingVal` values (the value shapes occurring in solver settings), and
`solverRules : List[Dict[str, Any]]` entries are either a well-typed
`SolverRule` (`RawRule.ok`) or a blob failing `SolverRule.model_validate`
(`RawRule.bad`). -/

structure Location where
  id : String
  name : String
deriving DecidableEq, Repr

structure SubShift where
  id : String
  name : String
  order : Int
  startTime : Option String := none
  endTime : Option String := none
  endDayOffset : Option Int := none
  hours : Option Int := none
deriving DecidableEq, Repr

structure WorkplaceRow where
  id : String
  name : String
  kind : String
  locationId : Option String := none
  subShifts : List SubShift := []
deriving DecidableEq, Repr

structure VacationRange where
  id : String
  startISO : String
  endISO : String
deriving DecidableEq, Repr

structure Holiday where
  dateISO : String
  name : String
deriving DecidableEq, Repr

structure Clinician where
  id : String
  name : String
  qualifiedClassIds : List String
  preferredClassIds : List String := []
  vacations : List VacationRange
deriving DecidableEq, Repr

structure Assignment where
  id : String
  rowId : String
  dateISO : String
  clinicianId : String
deriving DecidableEq, Repr

structure MinSlots where
  weekday : Int
  weekend : Int
deriving DecidableEq, Repr

/-- A JSON-ish value as stored in the untyped `solverSettings` dict. -/
inductive SettingVal where
  | b (v : Bool)
  | i (v : Int)
  | str (v : String)
  | null
deriving DecidableEq, Repr

structure SolverRule where
  id : String
  name : String
  enabled : Bool
  ifShiftRowId : String
  dayDelta : Int
  thenType : String
  thenShiftRowId : Option String
deriving DecidableEq, Repr

/-- An entry of the untyped `solverRules` list: either it validates as a
`SolverRule` or it does not. -/
inductive RawRule where
  | ok (r : SolverRule)
  | bad
deriving DecidableEq, Repr

structure AppState where
  locations : List Location
  locationsEnabled : Bool
  rows : List WorkplaceRow
  clinicians : List Clinician
  assignments : List Assignment
  minSlotsByRowId : List (String × MinSlots)
  slotOverridesByKey : List (String × Int)
  holidays : List Holiday
  solverSettings : List (String × SettingVal)
  solverRules : List RawRule
deriving DecidableEq, Repr

structure SolveDayRequest where
  dateISO : String
  only_fill_required : Bool
deriving DecidableEq, Repr

structure SolveWeekRequest where
  startISO : String
  endISO : Option String
  only_fill_required : Bool
deriving DecidableEq, Repr

/-- Modelled from the spec: `backend/constants.py` is not under `src/`.  The
spec fixes the slot-id separator as the literal `"::"` (§6.3, also hard-coded
in `solver.py`); the default location and the default sub-shift start/duration
are configuration values, fixed here at representative values (no claim
depends on them). -/
def SHIFT_ROW_SEPARATOR : String := "::"

/-- Modelled from the spec: default location id (see `SHIFT_ROW_SEPARATOR`). -/
def DEFAULT_LOCATION_ID : String := "loc-default"

/-- Modelled from the spec: default location name. -/
def DEFAULT_LOCATION_NAME : String := "Default"

/-- Modelled from the spec: default sub-shift start, minutes of day. -/
def DEFAULT_SUB_SHIFT_START_MINUTES : Nat := 480

/-- Modelled from the spec: default sub-shift duration in minutes. -/
def DEFAULT_SUB_SHIFT_MINUTES : Nat := 480

/-! ### State normaliser (`backend/state.py`) -/

/-- `_build_shift_row_id`. -/
def build_shift_row_id (classId subShiftId : String) : String :=
  classId ++ SHIFT_ROW_SEPARATOR ++ subShiftId

/-- `_parse_shift_row_id`. -/
def parse_shift_row_id (rowId : String) : String × Option String :=
  match splitOnce SHIFT_ROW_SEPARATOR rowId with
  | none => (rowId, none)
  | some (classId, subShiftId) =>
      (classId, if subShiftId = "" then none else some subShiftId)

/-- `state.py`'s `_parse_time_to_minutes`: regex `^(\d{1,2}):(\d{2})$` on the
stripped string, hours 0–23 and minutes 0–59. -/
def state_parse_time : Option String → Option Nat
  | none => none
  | some s =>
      if s = "" then none
      else match (strTrim s).toList with
        | [h₁, ':', m₁, m₂] =>
            if isDig h₁ && isDig m₁ && isDig m₂ then
              let h := dval h₁
              let m := dval m₁ * 10 + dval m₂
              if h ≤ 23 && m ≤ 59 then some (h * 60 + m) else none
            else none
        | [h₁, h₂, ':', m₁, m₂] =>
            if isDig h₁ && isDig h₂ && isDig m₁ && isDig m₂ then
              let h := dval h₁ * 10 + dval h₂
              let m := dval m₁ * 10 + dval m₂
              if h ≤ 23 && m ≤ 59 then some (h * 60 + m) else none
            else none
        | _ => none

/-- `_format_minutes`. -/
def format_minutes (total : Nat) : String :=
  let clamped := total % (24 * 60)
  pad2 (clamped / 60) ++ ":" ++ pad2 (clamped % 60)

/-- The synthetic default sub-shift of the empty-input branch of
`_normalize_sub_shifts` (constructed without an `endDayOffset` argument). -/
def defaultSubShiftA : SubShift :=
  { id := "s1", name := "Shift 1", order := 1
    startTime := some (format_minutes DEFAULT_SUB_SHIFT_START_MINUTES)
    endTime := some (format_minutes
      (DEFAULT_SUB_SHIFT_START_MINUTES + DEFAULT_SUB_SHIFT_MINUTES)) }

/-- The synthetic default sub-shift of the nothing-survived branch of
`_normalize_sub_shifts` (constructed with `endDayOffset=0`). -/
def defaultSubShiftB : SubShift :=
  { defaultSubShiftA with endDayOffset := some 0 }

/-- Loop body of `_normalize_sub_shifts`: fold state is the set of used
orders and the accumulated output. -/
def normalizeSubShiftStep (acc : List Int × List SubShift) (shift : SubShift) :
    List Int × List SubShift :=
  let (used, out) := acc
  -- `order = shift.order if shift.order in (1, 2, 3) else None`, then the
  -- first free candidate from (1, 2, 3) when missing or already used; if no
  -- candidate is free the shift is skipped.
  let order₁ : Option Int :=
    if shift.order = 1 ∨ shift.order = 2 ∨ shift.order = 3 then some shift.order else none
  let order₂ : Option Int :=
    match order₁ with
    | some o => if o ∈ used then ([1, 2, 3] : List Int).find? (fun c => !(c ∈ used)) else some o
    | none => ([1, 2, 3] : List Int).find? (fun c => !(c ∈ used))
  match order₂ with
  | none => (used, out)
  | some o =>
      let shiftId := if shift.id = "" then "s" ++ toString o else shift.id
      let shiftName := if shift.name = "" then "Shift " ++ toString o else shift.name
      let startParsed := state_parse_time shift.startTime
      let rawOffset : Int := match shift.endDayOffset with | some v => v | none => 0
      let endDayOffset : Int := max 0 (min 3 rawOffset)
      let startMinutes : Nat :=
        match startParsed with
        | some v => v
        | none => DEFAULT_SUB_SHIFT_START_MINUTES + DEFAULT_SUB_SHIFT_MINUTES * (o.toNat - 1)
      let duration : Nat :=
        match shift.hours with
        | some h => (max 0 h * 60).toNat
        | none => DEFAULT_SUB_SHIFT_MINUTES
      let endMinutes : Nat :=
        match state_parse_time shift.endTime with
        | some v => v
        | none => startMinutes + duration
      (used ++ [o],
       out ++ [{ id := shiftId, name := shiftName, order := o
                 startTime := some (format_minutes startMinutes)
                 endTime := some (format_minutes endMinutes)
                 endDayOffset := some endDayOffset, hours := none }])

/-- Stable insertion sort by sub-shift order (Python `list.sort(key=order)`;
orders are pairwise distinct here, so any stable sort agrees). -/
def sortByOrder (l : List SubShift) : List SubShift :=
  let rec ins (s : SubShift) : List SubShift → List SubShift
    | [] => [s]
    | t :: ts => if s.order < t.order then s :: t :: ts else t :: ins s ts
  l.foldl (fun acc s => ins s acc) []

/-- `_normalize_sub_shifts`. -/
def normalize_sub_shifts (subShifts : List SubShift) : List SubShift :=
  if subShifts = [] then [defaultSubShiftA]
  else
    let (_, normalized) := subShifts.foldl normalizeSubShiftStep ([], [])
    let normalized := if normalized = [] then [defaultSubShiftB] else normalized
    (sortByOrder normalized).take 3

/-- `_ensure_locations`. -/
def ensure_locations (locations : List Location) : List Location :=
  let byId := locations.foldl
    (fun acc loc => if loc.id = "" then acc else aset acc loc.id loc) []
  let byId :=
    if amem byId DEFAULT_LOCATION_ID then byId
    else aset byId DEFAULT_LOCATION_ID
      { id := DEFAULT_LOCATION_ID, name := DEFAULT_LOCATION_NAME }
  byId.map (·.2)

/-- Row normalisation step of `_normalize_state` (the `for row in state.rows`
loop): returns the updated row and whether it was changed. -/
def normalizeRow (locationIds : List String) (locationsEnabled : Bool)
    (row : WorkplaceRow) : WorkplaceRow × Bool :=
  if row.kind = "class" then
    let ns := normalize_sub_shifts row.subShifts
    let c₁ : Bool := !(row.subShifts == ns)
    -- `if not row.locationId or row.locationId not in location_ids`
    let bad₁ : Bool := match row.locationId with
      | none => true
      | some l => l == "" || !(locationIds.contains l)
    let lid₁ : Option String := if bad₁ then some DEFAULT_LOCATION_ID else row.locationId
    let bad₂ : Bool := !locationsEnabled && !(lid₁ == some DEFAULT_LOCATION_ID)
    let lid₂ := if bad₂ then some DEFAULT_LOCATION_ID else lid₁
    ({ row with subShifts := ns, locationId := lid₂ }, c₁ || bad₁ || bad₂)
  else (row, false)

/-- Assignment rewriting step of `_normalize_state` (the
`for assignment in state.assignments` loop): `none` when dropped; the flag
records whether `changed` was set. -/
def normalizeAssignment (classRowIds rowIds : List String)
    (subShiftIdsByClass : List (String × List String))
    (fallbackShiftIdByClass : List (String × String))
    (a : Assignment) : Option Assignment × Bool :=
  -- bare class id → `classId::firstSubShiftId`
  let (a, changed₁) :=
    if a.rowId ∈ classRowIds ∧ splitOnce SHIFT_ROW_SEPARATOR a.rowId = none then
      let fallback := (aget fallbackShiftIdByClass a.rowId).getD "s1"
      ({ a with rowId := build_shift_row_id a.rowId fallback }, true)
    else (a, false)
  if (splitOnce SHIFT_ROW_SEPARATOR a.rowId).isSome then
    let (classId, subShiftId) := parse_shift_row_id a.rowId
    if classId ∈ classRowIds then
      let classShiftIds := (aget subShiftIdsByClass classId).getD []
      match subShiftId with
      | some sid =>
          if sid ∈ classShiftIds then (some a, changed₁)
          else
            match aget fallbackShiftIdByClass classId with
            | none => (none, true)
            | some f => (some { a with rowId := build_shift_row_id classId f }, true)
      | none =>
          match aget fallbackShiftIdByClass classId with
          | none => (none, true)
          | some f => (some { a with rowId := build_shift_row_id classId f }, true)
    else (none, true)
  else
    if a.rowId ∈ classRowIds ∨ strStartsWith a.rowId "pool-" ∨ a.rowId ∈ rowIds then
      (some a, changed₁)
    else (none, true)

/-- Override key remap of `_normalize_state`'s `slotOverridesByKey` loop:
`none` when the entry is dropped; the flag records whether `changed` was set
inside the loop body. -/
def remapOverrideKey (classRowIds : List String)
    (subShiftIdsByClass : List (String × List String)) (key : String) :
    Option String × Bool :=
  let (rowId, dateIso) :=
    match splitOnce "__" key with
    | some (r, d) => (r, d)
    | none => (key, "")
  if rowId = "" ∨ dateIso = "" then (none, false)
  else
    let next :=
      if rowId ∈ classRowIds ∧ splitOnce SHIFT_ROW_SEPARATOR rowId = none then
        (some (build_shift_row_id rowId "s1"), true)
      else if (splitOnce SHIFT_ROW_SEPARATOR rowId).isSome then
        let (classId, subShiftId) := parse_shift_row_id rowId
        let classShiftIds := aget subShiftIdsByClass classId
        match subShiftId, classShiftIds with
        | none, _ => (none, true)
        | _, none => (none, true)
        | some sid, some ids =>
            if ids = [] then (none, true)
            else if sid ∈ ids then (some rowId, false)
            else
              -- `fallback = next(iter(class_shift_ids), None)`
              match ids.head? with
              | none => (none, true)
              | some f =>
                  if f = "" then (none, true)
                  else (some (build_shift_row_id classId f), true)
      else (some rowId, false)
    match next with
    | (none, c) => (none, c)
    | (some nextRowId, c) => (some (nextRowId ++ "__" ++ dateIso), c)

/-- Rebuild of `slotOverridesByKey` (`next_overrides`): remapped keys are
accumulated with `next_overrides.get(next_key, 0) + int(value)`. -/
def normalizeOverrides (classRowIds : List String)
    (subShiftIdsByClass : List (String × List String))
    (overrides : List (String × Int)) : List (String × Int) × Bool :=
  overrides.foldl
    (fun (acc : List (String × Int) × Bool) entry =>
      match remapOverrideKey classRowIds subShiftIdsByClass entry.1 with
      | (none, c) => (acc.1, acc.2 || c)
      | (some nextKey, c) =>
          (aset acc.1 nextKey ((aget acc.1 nextKey).getD 0 + entry.2), acc.2 || c))
    ([], false)

/-- `SolverSettings().model_dump()`: the defaults of `models.py`. -/
def defaultSolverSettings : List (String × SettingVal) :=
  [("allowMultipleShiftsPerDay", .b false),
   ("enforceSameLocationPerDay", .b false),
   ("onCallRestEnabled", .b false),
   ("onCallRestClassId", .null),
   ("onCallRestDaysBefore", .i 1),
   ("onCallRestDaysAfter", .i 1)]

/-- Python truthiness of a settings value (`bool(...)`). -/
def truthy : SettingVal → Bool
  | .b v => v
  | .i v => v ≠ 0
  | .str v => v ≠ ""
  | .null => false

/-- `_clamp_days`: `int(value)` clamped to `[0, 7]`, `1` when `int()` raises. -/
def clamp_days (v : SettingVal) : Int :=
  match v with
  | .i n => max 0 (min 7 n)
  | .b b => max 0 (min 7 (if b then (1 : Int) else 0))
  | .str s =>
      match parseIntStr s with
      | some n => max 0 (min 7 n)
      | none => 1
  | .null => 1

/-- Solver-settings section of `_normalize_state`: merge over defaults,
coerce booleans, re-validate the rest class, clamp the rest-day counts. -/
def normalizeSolverSettings (classRows : List WorkplaceRow)
    (settings : List (String × SettingVal)) : List (String × SettingVal) :=
  let classRowIds := classRows.map (·.id)
  let merged := settings.foldl (fun acc p => aset acc p.1 p.2) defaultSolverSettings
  let coerceBool := fun (m : List (String × SettingVal)) (key : String) =>
    aset m key (.b (truthy ((aget m key).getD (.b false))))
  let merged := coerceBool merged "allowMultipleShiftsPerDay"
  let merged := coerceBool merged "enforceSameLocationPerDay"
  let merged := coerceBool merged "onCallRestEnabled"
  let onCallOk : Bool :=
    match aget merged "onCallRestClassId" with
    | some (.str s) => classRowIds.contains s
    | _ => false
  let merged :=
    if onCallOk then merged
    else aset merged "onCallRestClassId"
      (match classRows.head? with | some r => .str r.id | none => .null)
  let merged := aset merged "onCallRestDaysBefore"
    (.i (clamp_days ((aget merged "onCallRestDaysBefore").getD (.i 1))))
  let merged := aset merged "onCallRestDaysAfter"
    (.i (clamp_days ((aget merged "onCallRestDaysAfter").getD (.i 1))))
  merged

/-- Solver-rules section of `_normalize_state`. -/
def normalizeSolverRules (validShiftRowIds : List String)
    (rules : List RawRule) : List RawRule × Bool :=
  rules.foldl
    (fun (acc : List RawRule × Bool) raw =>
      match raw with
      | .bad => (acc.1, true)
      | .ok rule =>
          let enabled₁ := if !(validShiftRowIds.contains rule.ifShiftRowId) then false else rule.enabled
          let enabled₂ :=
            if rule.thenType == "shiftRow" &&
                !(match rule.thenShiftRowId with
                  | some t => validShiftRowIds.contains t
                  | none => false) then false
            else enabled₁
          (acc.1 ++ [.ok { rule with enabled := enabled₂ }],
           acc.2 || (enabled₂ != rule.enabled)))
    ([], false)

/-- Min-slots section of `_normalize_state`: pop bare class entries, seed the
per-sub-shift entries, prune keys whose sub-shift no longer exists. -/
def normalizeMinSlots (classRows : List WorkplaceRow)
    (subShiftIdsByClass : List (String × List String))
    (minSlots : List (String × MinSlots)) : List (String × MinSlots) × Bool :=
  let step :=
    classRows.foldl
      (fun (acc : List (String × MinSlots) × Bool) row =>
        let base := aget acc.1 row.id
        let ms := adel acc.1 row.id
        let changed := acc.2 || base.isSome
        row.subShifts.foldl
          (fun (acc' : List (String × MinSlots) × Bool) shift =>
            let sid := build_shift_row_id row.id shift.id
            if amem acc'.1 sid then acc'
            else
              (aset acc'.1 sid
                 (match base with
                  | some b => if shift.id = "s1" then b else ⟨0, 0⟩
                  | none => ⟨0, 0⟩),
               true))
          (ms, changed))
      (minSlots, false)
  -- `for key in list(min_slots.keys())`: prune over a snapshot of the keys
  (akeys step.1).foldl
    (fun (acc : List (String × MinSlots) × Bool) key =>
      if splitOnce SHIFT_ROW_SEPARATOR key = none then acc
      else
        let (classId, subShiftId) := parse_shift_row_id key
        match subShiftId with
        | none => (adel acc.1 key, true)
        | some sid =>
            match aget subShiftIdsByClass classId with
            | none => (adel acc.1 key, true)
            | some ids =>
                if ids = [] ∨ ¬ sid ∈ ids then (adel acc.1 key, true) else acc)
    step

/-- `_normalize_state`: the full normaliser, returning the canonical state
and the `changed` flag. -/
def normalize_state (state : AppState) : AppState × Bool :=
  -- `locations_enabled = state.locationsEnabled is not False` is the identity
  -- on a typed bool and never flips `changed`.
  let locationsEnabled := state.locationsEnabled
  let locations := ensure_locations state.locations
  let changedLoc : Bool := !(state.locations == locations)
  let locationIds := locations.map (·.id)
  let rowIds := state.rows.map (·.id)
  let rowsStep := state.rows.map (normalizeRow locationIds locationsEnabled)
  let rows := rowsStep.map (·.1)
  let changedRows := rowsStep.any (·.2)
  let classRows := rows.filter (fun r => r.kind = "class")
  let subShiftIdsByClass :=
    classRows.foldl (fun acc r => aset acc r.id (r.subShifts.map (·.id))) []
  let classRowIds := classRows.map (·.id)
  let fallbackShiftIdByClass :=
    classRows.foldl
      (fun acc r =>
        aset acc r.id (match r.subShifts.head? with | some s => s.id | none => "s1"))
      []
  let asgStep := state.assignments.map
    (normalizeAssignment classRowIds rowIds subShiftIdsByClass fallbackShiftIdByClass)
  let assignments := asgStep.filterMap (·.1)
  let changedAsg := asgStep.any (·.2)
  let (minSlots, changedMin) :=
    normalizeMinSlots classRows subShiftIdsByClass state.minSlotsByRowId
  let (nextOverrides, changedOvLoop) :=
    normalizeOverrides classRowIds subShiftIdsByClass state.slotOverridesByKey
  let changedOv := !adictEq state.slotOverridesByKey nextOverrides
  let overrides := if changedOv then nextOverrides else state.slotOverridesByKey
  let merged := normalizeSolverSettings classRows state.solverSettings
  let changedSet := !adictEq merged state.solverSettings
  let settings := if changedSet then merged else state.solverSettings
  let validShiftRowIds :=
    classRows.flatMap (fun r => r.subShifts.map (fun s => build_shift_row_id r.id s.id))
  let (normalizedRules, changedRulesLoop) :=
    normalizeSolverRules validShiftRowIds state.solverRules
  let changedRules : Bool := !(normalizedRules == state.solverRules)
  let rules := if changedRules then normalizedRules else state.solverRules
  ({ state with
      locations := locations
      locationsEnabled := locationsEnabled
      rows := rows
      assignments := assignments
      minSlotsByRowId := minSlots
      slotOverridesByKey := overrides
      solverSettings := settings
      solverRules := rules },
   changedLoc || changedRows || changedAsg || changedMin || changedOvLoop || changedOv ||
     changedSet || changedRulesLoop || changedRules)

/-! ### CP-SAT models, reified (`backend/solver.py`)

The builders below reify the `cp_model.CpModel` constructed by `solve_week`
and `solve_day` as explicit lists of variables, linear constraints and
objective terms.  A solution is a valuation `Var → Int`; the engine returns
(status OPTIMAL or FEASIBLE) only valuations satisfying every constraint and
every variable domain. -/

/-- The decision and auxiliary variables of the two solvers. -/
inductive Var where
  | x (cid dIso sid : String)
  | covered (sid dIso : String)
  | slack (sid dIso : String)
  | onCall (cid dIso : String)
  | dx (cid sid : String)
  | dcovered (sid : String)
  | dslack (sid : String)
deriving DecidableEq, Repr

/-- Comparison relation of a linear constraint. -/
inductive Rel where
  | le
  | ge
  | eq
deriving DecidableEq, Repr

/-- A linear constraint `Σ cᵢ·vᵢ rel bound` (`model.Add(...)`). -/
structure LinCon where
  terms : List (Int × Var)
  rel : Rel
  bound : Int
deriving DecidableEq, Repr

/-- A reified CP-SAT model: boolean variables (domain `{0,1}`), bounded
integer variables (`model.NewIntVar(0, ub, ...)`), constraints, and the
minimised objective. -/
structure CpModel where
  boolVars : List Var
  intVars : List (Var × Int)
  cons : List LinCon
  objective : List (Int × Var)
deriving Repr

/-- Value of a linear term list under a valuation. -/
def evalTerms (sol : Var → Int) (terms : List (Int × Var)) : Int :=
  (terms.map (fun t => t.1 * sol t.2)).sum

/-- Whether one constraint holds under a valuation. -/
def conHolds (sol : Var → Int) (c : LinCon) : Bool :=
  match c.rel with
  | .le => decide (evalTerms sol c.terms ≤ c.bound)
  | .ge => decide (c.bound ≤ evalTerms sol c.terms)
  | .eq => decide (evalTerms sol c.terms = c.bound)

/-- Whether a valuation respects all variable domains. -/
def domHolds (M : CpModel) (sol : Var → Int) : Bool :=
  M.boolVars.all (fun v => sol v = 0 || sol v = 1) &&
  M.intVars.all (fun p => decide (0 ≤ sol p.1) && decide (sol p.1 ≤ p.2))

/-- A valuation the engine may return: domains and constraints all hold. -/
def Feasible (M : CpModel) (sol : Var → Int) : Prop :=
  domHolds M sol = true ∧ M.cons.all (conHolds sol) = true

/-- Objective value (the solvers call `model.Minimize`). -/
def objVal (M : CpModel) (sol : Var → Int) : Int :=
  evalTerms sol M.objective

/-- An optimal valuation: feasible with minimal objective. -/
def Optimal (M : CpModel) (sol : Var → Int) : Prop :=
  Feasible M sol ∧ ∀ sol', Feasible M sol' → objVal M sol ≤ objVal M sol'

/-- Typed view of `SolverSettings` (`models.py`). -/
structure SolverSettingsRec where
  allowMultipleShiftsPerDay : Bool
  enforceSameLocationPerDay : Bool
  onCallRestEnabled : Bool
  onCallRestClassId : Option String
  onCallRestDaysBefore : Int
  onCallRestDaysAfter : Int
deriving DecidableEq, Repr

/-- `SolverSettings.model_validate(state.solverSettings or {})`: missing keys
take the field default, unknown keys are ignored, and a value of the wrong
shape fails validation (`none`; pydantic's lax coercions of exotic values are
not replayed — every state in this development stores exact-typed values). -/
def parseSolverSettings (l : List (String × SettingVal)) : Option SolverSettingsRec :=
  let getB := fun (key : String) (dflt : Bool) =>
    match aget l key with
    | Option.none => some dflt
    | some (.b v) => some v
    | some _ => Option.none
  let getI := fun (key : String) (dflt : Int) =>
    match aget l key with
    | Option.none => some dflt
    | some (.i v) => some v
    | some _ => Option.none
  let getOS := fun (key : String) =>
    match aget l key with
    | Option.none => some Option.none
    | some .null => some Option.none
    | some (.str s) => some (some s)
    | some _ => Option.none
  match getB "allowMultipleShiftsPerDay" false, getB "enforceSameLocationPerDay" false,
        getB "onCallRestEnabled" false, getOS "onCallRestClassId",
        getI "onCallRestDaysBefore" 1, getI "onCallRestDaysAfter" 1 with
  | some a, some b, some c, some d, some e, some f =>
      some ⟨a, b, c, d, e, f⟩
  | _, _, _, _, _, _ => Option.none

/-- `solver.py`'s `_parse_time_to_minutes`: `value.split(":")` must give two
`int()`-parseable parts with hours 0–23 and minutes 0–59. -/
def solver_parse_time : Option String → Option Nat
  | Option.none => Option.none
  | some s =>
      if s = "" then Option.none
      else match splitOnce ":" s with
        | Option.none => Option.none
        | some (a, b) =>
            if (splitOnce ":" b).isSome then Option.none
            else match parseIntStr a, parseIntStr b with
              | some h, some m =>
                  if 0 ≤ h ∧ h ≤ 23 ∧ 0 ≤ m ∧ m ≤ 59 then
                    some (h.toNat * 60 + m.toNat)
                  else Option.none
              | _, _ => Option.none

/-- `_build_shift_intervals`: per slot id the start minute, end minute
(offset days folded in, degenerate intervals clamped to zero length) and the
row's location tag. -/
def build_shift_intervals (classRows : List WorkplaceRow) :
    List (String × (Nat × Nat × String)) :=
  classRows.foldl
    (fun acc row =>
      row.subShifts.foldl
        (fun acc' shift =>
          -- `_parse_time_to_minutes(...) or 0` / `or start`: Python `or`
          -- falls through on both `None` and `0`.
          let startRaw := solver_parse_time shift.startTime
          let start := match startRaw with
            | some v => if v = 0 then 0 else v
            | Option.none => 0
          let endRaw := solver_parse_time shift.endTime
          let endM := match endRaw with
            | some v => if v = 0 then start else v
            | Option.none => start
          let offset : Int := match shift.endDayOffset with | some v => v | Option.none => 0
          let totalEnd := endM + (max 0 (min 3 offset)).toNat * 24 * 60
          let totalEnd := if totalEnd ≤ start then start else totalEnd
          aset acc' (row.id ++ "::" ++ shift.id) (start, totalEnd, (row.locationId).getD ""))
        acc)
    []

/-- The tuple collected into `vars_for_clinician` of the overlap section. -/
structure CVar where
  dateIso : String
  sid : String
  v : Var
  absStart : Nat
  absEnd : Nat
  loc : String
deriving DecidableEq, Repr

/-- The tuple collected into `manual_entries` of the overlap section. -/
structure MEntry where
  dateIso : String
  absStart : Nat
  absEnd : Nat
  loc : String
deriving DecidableEq, Repr

/-- Strict interval overlap as tested by the solver:
`not (end_i <= start_j or end_j <= start_i)`. -/
def overlapB (s₁ e₁ s₂ e₂ : Nat) : Bool := !(e₁ ≤ s₂ || e₂ ≤ s₁)

/-- Ordered pairs `(i, j)` with `i < j` of a list, as enumerated by the
nested `for i ... for j in range(i+1, ...)` loops. -/
def pairsUpper : List α → List (α × α)
  | [] => []
  | a :: rest => rest.map (fun b => (a, b)) ++ pairsUpper rest

/-- A decision-variable key `(clinicianId, dateISO, shiftRowId)`. -/
abbrev VarKey := String × String × String

/-- The decision variable of a key. -/
def xvar (k : VarKey) : Var := Var.x k.1 k.2.1 k.2.2

/-- Unit term of a decision variable. -/
def xterm (k : VarKey) : Int × Var := (1, xvar k)

/-- `vac_by_clinician` of `solve_week` (a dict: the last record wins on
duplicate clinician ids). -/
def vacByClinician (clinicians : List Clinician) : List (String × List (String × String)) :=
  clinicians.foldl
    (fun acc c => aset acc c.id (c.vacations.map (fun v => (v.startISO, v.endISO)))) []

/-- `is_on_vac`: ISO-string comparison `start <= date_iso <= end`. -/
def is_on_vac (vacBy : List (String × List (String × String)))
    (clinicianId dateIso : String) : Bool :=
  match aget vacBy clinicianId with
  | some l => l.any (fun p => strLe p.1 dateIso && strLe dateIso p.2)
  | Option.none => false

/-- An entry of the `shift_rows` list: parent class row, sub-shift, composite
slot id, class-row index. -/
structure ShiftRowEntry where
  row : WorkplaceRow
  shift : SubShift
  sid : String
  index : Nat
deriving DecidableEq, Repr

/-- The `shift_rows` enumeration over `enumerate(class_rows)`. -/
def weekShiftRows (classRows : List WorkplaceRow) : List ShiftRowEntry :=
  classRows.enum.flatMap
    (fun p => p.2.subShifts.map (fun s => ⟨p.2, s, p.2.id ++ "::" ++ s.id, p.1⟩))

/-- `manual_assignments`: live-slot assignments in the context range whose
clinician is not on vacation on the assignment's date, grouped by
`(clinicianId, dateISO)` with `setdefault(...).append(...)`. -/
def weekManualAssignments (assignments : List Assignment) (dayIsos : List String)
    (shiftRowIds : List String) (vacBy : List (String × List (String × String))) :
    List ((String × String) × List String) :=
  assignments.foldl
    (fun acc a =>
      if !shiftRowIds.contains a.rowId then acc
      else if !dayIsos.contains a.dateISO then acc
      else if is_on_vac vacBy a.clinicianId a.dateISO then acc
      else aappend acc (a.clinicianId, a.dateISO) a.rowId)
    []

/-- Dict-style key insertion: a repeated `var_map[key] = model.NewBoolVar(...)`
keeps the key's first position. -/
def addKey [DecidableEq α] (l : List α) (k : α) : List α :=
  if k ∈ l then l else l ++ [k]

/-- The `var_map` keys of `solve_week`, in insertion order: one per
(clinician record, target date not on vacation, qualified slot). -/
def weekVarKeys (clinicians : List Clinician) (targetDayIsos : List String)
    (shiftRows : List ShiftRowEntry)
    (vacBy : List (String × List (String × String))) : List VarKey :=
  clinicians.foldl
    (fun acc c =>
      targetDayIsos.foldl
        (fun acc' d =>
          if is_on_vac vacBy c.id d then acc'
          else
            shiftRows.foldl
              (fun acc'' t =>
                if c.qualifiedClassIds.contains t.row.id then
                  addKey acc'' (c.id, d, t.sid)
                else acc'')
              acc')
        acc)
    []

/-- Per-day cap section (`# At most once per day if disabled`). -/
def weekCapCons (clinicians : List Clinician) (targetDayIsos : List String)
    (varKeys : List VarKey)
    (manual : List ((String × String) × List String)) : List LinCon :=
  clinicians.flatMap (fun c =>
    targetDayIsos.flatMap (fun d =>
      let varsForDay := varKeys.filter (fun k => k.1 == c.id && k.2.1 == d)
      let manualCnt := ((aget manual (c.id, d)).getD []).length
      if 1 ≤ manualCnt then
        if !varsForDay.isEmpty then [⟨varsForDay.map xterm, .eq, 0⟩] else []
      else
        if !varsForDay.isEmpty then [⟨varsForDay.map xterm, .le, 1⟩] else []))

/-- `vars_for_clinician` of the overlap section: each variable of the
clinician whose interval and day index resolve, with absolute minutes. -/
def weekCVars (varKeys : List VarKey)
    (shiftIntervals : List (String × (Nat × Nat × String)))
    (dayIndexByIso : List (String × Nat)) (cid : String) : List CVar :=
  varKeys.filterMap (fun k =>
    if k.1 == cid then
      match aget shiftIntervals k.2.2, aget dayIndexByIso k.2.1 with
      | some iv, some di =>
          some ⟨k.2.1, k.2.2, xvar k, iv.1 + di * (24 * 60), iv.2.1 + di * (24 * 60), iv.2.2⟩
      | _, _ => Option.none
    else Option.none)

/-- `manual_entries` of the overlap section. -/
def weekMEntries (manual : List ((String × String) × List String))
    (dayIndexByIso : List (String × Nat))
    (shiftIntervals : List (String × (Nat × Nat × String))) (cid : String) :
    List MEntry :=
  manual.flatMap (fun e =>
    if e.1.1 == cid then
      match aget dayIndexByIso e.1.2 with
      | Option.none => []
      | some di =>
          e.2.filterMap (fun rid =>
            (aget shiftIntervals rid).map
              (fun iv => ⟨e.1.2, iv.1 + di * (24 * 60), iv.2.1 + di * (24 * 60), iv.2.2⟩))
    else [])

/-- Overlap and same-day-different-location constraints for one clinician:
`v₁ + v₂ ≤ 1` over variable pairs, `v ≤ 0` against manual entries. -/
def weekOverlapCons (enforceLoc : Bool) (cvars : List CVar)
    (mentries : List MEntry) : List LinCon :=
  (pairsUpper cvars).flatMap (fun pq =>
    (if overlapB pq.1.absStart pq.1.absEnd pq.2.absStart pq.2.absEnd then
        [⟨[(1, pq.1.v), (1, pq.2.v)], .le, 1⟩] else [])
    ++ (if enforceLoc && pq.1.dateIso == pq.2.dateIso && pq.1.loc != "" &&
          pq.2.loc != "" && pq.1.loc != pq.2.loc then
        [⟨[(1, pq.1.v), (1, pq.2.v)], .le, 1⟩] else []))
  ++ cvars.flatMap (fun p => mentries.flatMap (fun m =>
    (if overlapB p.absStart p.absEnd m.absStart m.absEnd then
        [⟨[(1, p.v)], .le, 0⟩] else [])
    ++ (if enforceLoc && p.dateIso == m.dateIso && p.loc != "" && m.loc != "" &&
          p.loc != m.loc then
        [⟨[(1, p.v)], .le, 0⟩] else [])))

/-- Weekend-or-holiday test of `solve_week` (`dt.weekday() >= 5 or
diso in weekend_holidays`); the date strings reaching it always parse. -/
def is_weekend_or_holiday (holidayIsos : List String) (d : String) : Bool :=
  (match parseDateISO d with
   | some z => decide (5 ≤ weekdayOfOrdinal z)
   | Option.none => false) || holidayIsos.contains d

/-- `get_manual_count`: manual assignments of any clinician on the date for
the slot. -/
def manualCount (manual : List ((String × String) × List String))
    (dateIso sid : String) : Nat :=
  manual.foldl
    (fun n e => if e.1.2 == dateIso then n + e.2.countP (fun rid => rid == sid) else n) 0

/-- Accumulator of the coverage section. -/
structure CoverageOut where
  cons : List LinCon := []
  covTerms : List (Int × Var) := []
  slackTerms : List (Int × Var) := []
  coveredVars : List Var := []
  slackVars : List (Var × Int) := []
  orderWeightBySid : List (String × Int) := []
deriving Repr

/-- One (slot, date) iteration of the `solve_week` coverage loop. -/
def weekCovStep (minSlotsByRowId : List (String × MinSlots))
    (slotOverridesByKey : List (String × Int)) (holidayIsos : List String)
    (varKeys : List VarKey) (manual : List ((String × String) × List String))
    (onlyFill : Bool) (totalClasses : Nat) (t : ShiftRowEntry)
    (acc' : CoverageOut) (d : String) : CoverageOut :=
  let required := (aget minSlotsByRowId t.sid).getD ⟨0, 0⟩
  let orderWeight : Int := max 1 ((totalClasses : Int) - t.index) * 10 + (4 - t.shift.order)
  let isWeekend := is_weekend_or_holiday holidayIsos d
  let base := if isWeekend then required.weekend else required.weekday
  let override := (aget slotOverridesByKey (t.sid ++ "__" ++ d)).getD 0
  let target := max 0 (base + override)
  let already := manualCount manual d t.sid
  let missing := max 0 (target - (already : Int))
  let varsHere := varKeys.filter (fun k => k.2.1 == d && k.2.2 == t.sid)
  if missing = 0 then
    if onlyFill && !varsHere.isEmpty then
      { acc' with cons := acc'.cons ++ [⟨varsHere.map xterm, .eq, 0⟩] }
    else acc'
  else
    let acc₁ :=
      if !varsHere.isEmpty then
        { acc' with
          cons := acc'.cons ++
            [⟨varsHere.map xterm ++ [(-1, Var.covered t.sid d)], .ge, -(already : Int)⟩] ++
            (if onlyFill then [⟨varsHere.map xterm, .le, missing⟩] else [])
          covTerms := acc'.covTerms ++ [(orderWeight, Var.covered t.sid d)]
          coveredVars := acc'.coveredVars ++ [Var.covered t.sid d] }
      else acc'
    { acc₁ with
      slackVars := acc₁.slackVars ++ [(Var.slack t.sid d, missing)]
      cons := acc₁.cons ++
        [if !varsHere.isEmpty then
           ⟨varsHere.map xterm ++ [(1, Var.slack t.sid d)], .ge, missing - (already : Int)⟩
         else ⟨[(1, Var.slack t.sid d)], .ge, missing - (already : Int)⟩]
      slackTerms := acc₁.slackTerms ++ [(orderWeight, Var.slack t.sid d)] }

/-- Coverage/slack section of `solve_week` (`# Coverage + rules`). -/
def weekCoverage (minSlotsByRowId : List (String × MinSlots))
    (slotOverridesByKey : List (String × Int)) (holidayIsos : List String)
    (shiftRows : List ShiftRowEntry) (targetDayIsos : List String)
    (varKeys : List VarKey) (manual : List ((String × String) × List String))
    (onlyFill : Bool) (totalClasses : Nat) : CoverageOut :=
  shiftRows.foldl
    (fun acc t =>
      let orderWeight : Int := max 1 ((totalClasses : Int) - t.index) * 10 + (4 - t.shift.order)
      targetDayIsos.foldl
        (weekCovStep minSlotsByRowId slotOverridesByKey holidayIsos varKeys manual
          onlyFill totalClasses t)
        { acc with orderWeightBySid := aset acc.orderWeightBySid t.sid orderWeight })
    {}

/-- The `BIG` constant of the on-call rest section. -/
def BIG : Int := 20

/-- `apply_rest` of the on-call rest section: the constraints added for one
window index. -/
def weekApplyRest (dayIsos targetDayIsos : List String) (varKeys : List VarKey)
    (manual : List ((String × String) × List String)) (c : Clinician) (d : String)
    (manualOnCall : Bool) (tIdx : Int) : List LinCon :=
  if tIdx < 0 ∨ (dayIsos.length : Int) ≤ tIdx then []
  else
    let targetDate := dayIsos.getD tIdx.toNat ""
    if !targetDayIsos.contains targetDate then []
    else
      let varsTarget := varKeys.filter
        (fun k => k.1 == c.id && k.2.1 == targetDate)
      let manualTarget := ((aget manual (c.id, targetDate)).getD []).length
      if manualOnCall then
        if 0 < manualTarget then []
        else if !varsTarget.isEmpty then [⟨varsTarget.map xterm, .eq, 0⟩]
        else []
      else
        if 0 < manualTarget then [⟨[(1, Var.onCall c.id d)], .eq, 0⟩]
        else if !varsTarget.isEmpty then
          [⟨varsTarget.map xterm ++ [(BIG, Var.onCall c.id d)], .le, BIG⟩]
        else []

/-- One (clinician, context day) iteration of the on-call rest section. -/
def weekRestStep (dayIsos targetDayIsos : List String) (varKeys : List VarKey)
    (manual : List ((String × String) × List String)) (restIds : List String)
    (restBefore restAfter : Int) (c : Clinician)
    (acc' : List LinCon × List Var) (p : Nat × String) : List LinCon × List Var :=
  let i := p.1
  let d := p.2
  let manualRows := (aget manual (c.id, d)).getD []
  let manualOnCall := manualRows.any (fun rid => restIds.contains rid)
  let onCallVars := varKeys.filter
    (fun k => k.1 == c.id && k.2.1 == d && restIds.contains k.2.2)
  if !manualOnCall && onCallVars.isEmpty then acc'
  else
    let aggCons : List LinCon :=
      if manualOnCall then []
      else
        [⟨onCallVars.map xterm ++ [(-1, Var.onCall c.id d)], .ge, 0⟩] ++
        onCallVars.map (fun k => ⟨[(1, xvar k), (-1, Var.onCall c.id d)], .le, 0⟩)
    let aggVars : List Var := if manualOnCall then [] else [Var.onCall c.id d]
    let beforeCons := ((List.range restBefore.toNat).map (fun n => (n : Int) + 1)).flatMap
      (fun off => weekApplyRest dayIsos targetDayIsos varKeys manual c d manualOnCall
        ((i : Int) - off))
    let afterCons := ((List.range restAfter.toNat).map (fun n => (n : Int) + 1)).flatMap
      (fun off => weekApplyRest dayIsos targetDayIsos varKeys manual c d manualOnCall
        ((i : Int) + off))
    (acc'.1 ++ aggCons ++ beforeCons ++ afterCons, acc'.2 ++ aggVars)

/-- On-call rest section of `solve_week` (`# On-call rest days`): returns the
constraints and the fresh `on_call` aggregation variables. -/
def weekRestCons (clinicians : List Clinician) (dayIsos targetDayIsos : List String)
    (varKeys : List VarKey) (manual : List ((String × String) × List String))
    (restIds : List String) (restBefore restAfter : Int) :
    List LinCon × List Var :=
  clinicians.foldl
    (fun acc c =>
      dayIsos.enum.foldl
        (weekRestStep dayIsos targetDayIsos varKeys manual restIds restBefore restAfter c)
        acc)
    ([], [])

/-- `pref_weight`: per clinician, `max(1, len(preferred) - idx)` by preferred
class id. -/
def prefWeightOf (clinicians : List Clinician) : List (String × List (String × Int)) :=
  clinicians.foldl
    (fun acc c =>
      let weights := c.preferredClassIds.enum.foldl
        (fun w p => aset w p.2 (max 1 ((c.preferredClassIds.length : Int) - p.1))) []
      aset acc c.id weights)
    []

/-- Everything `solve_week` computes before invoking the engine. -/
structure WeekBuilt where
  rangeStart : Nat
  rangeEnd : Nat
  dayIsos : List String
  targetDayIsos : List String
  dayIndexByIso : List (String × Nat)
  shiftIntervals : List (String × (Nat × Nat × String))
  shiftRows : List ShiftRowEntry
  manual : List ((String × String) × List String)
  settings : SolverSettingsRec
  onlyFill : Bool
  varKeys : List VarKey
  model : CpModel
  slackTerms : List (Int × Var)
  restIds : List String
  restBefore : Int
  restAfter : Int
  restActive : Bool
deriving Repr

/-- `class_rows` of the solvers. -/
def classRowsOf (state : AppState) : List WorkplaceRow :=
  state.rows.filter (fun r => r.kind == "class")

/-- `day_isos`: the context range `[start-1, end+1]` as ISO strings. -/
def weekDayIsosOf (rangeStart rangeEnd : Nat) : List String :=
  ((List.range (rangeEnd - rangeStart + 3)).map ((rangeStart - 1) + ·)).map toISO

/-- `target_day_isos`: the target range `[start, end]` as ISO strings. -/
def weekTargetIsosOf (rangeStart rangeEnd : Nat) : List String :=
  ((List.range (rangeEnd - rangeStart + 1)).map (rangeStart + ·)).map toISO

/-- `day_index_by_iso`. -/
def weekDayIndexOf (rangeStart rangeEnd : Nat) : List (String × Nat) :=
  (weekDayIsosOf rangeStart rangeEnd).enum.foldl (fun acc p => aset acc p.2 p.1) []

/-- `manual_assignments` of a week solve. -/
def weekManualOf (state : AppState) (rangeStart rangeEnd : Nat) :
    List ((String × String) × List String) :=
  weekManualAssignments state.assignments (weekDayIsosOf rangeStart rangeEnd)
    ((weekShiftRows (classRowsOf state)).map (·.sid)) (vacByClinician state.clinicians)

/-- `var_map` keys of a week solve. -/
def weekVarKeysOf (state : AppState) (rangeStart rangeEnd : Nat) : List VarKey :=
  weekVarKeys state.clinicians (weekTargetIsosOf rangeStart rangeEnd)
    (weekShiftRows (classRowsOf state)) (vacByClinician state.clinicians)

/-- The coverage section of a week solve. -/
def weekCovOf (state : AppState) (onlyFill : Bool) (rangeStart rangeEnd : Nat) :
    CoverageOut :=
  weekCoverage state.minSlotsByRowId state.slotOverridesByKey
    (state.holidays.map (·.dateISO)) (weekShiftRows (classRowsOf state))
    (weekTargetIsosOf rangeStart rangeEnd) (weekVarKeysOf state rangeStart rangeEnd)
    (weekManualOf state rangeStart rangeEnd) onlyFill (classRowsOf state).length

/-- The per-day cap section of a week solve (absent when multiple shifts per
day are allowed). -/
def weekCapConsOf (state : AppState) (settings : SolverSettingsRec)
    (rangeStart rangeEnd : Nat) : List LinCon :=
  if settings.allowMultipleShiftsPerDay then []
  else
    weekCapCons state.clinicians (weekTargetIsosOf rangeStart rangeEnd)
      (weekVarKeysOf state rangeStart rangeEnd) (weekManualOf state rangeStart rangeEnd)

/-- The overlap/location section of a week solve. -/
def weekOverlapConsOf (state : AppState) (settings : SolverSettingsRec)
    (rangeStart rangeEnd : Nat) : List LinCon :=
  state.clinicians.flatMap (fun c =>
    weekOverlapCons settings.enforceSameLocationPerDay
      (weekCVars (weekVarKeysOf state rangeStart rangeEnd)
        (build_shift_intervals (classRowsOf state)) (weekDayIndexOf rangeStart rangeEnd) c.id)
      (weekMEntries (weekManualOf state rangeStart rangeEnd)
        (weekDayIndexOf rangeStart rangeEnd) (build_shift_intervals (classRowsOf state)) c.id))

/-- `rest_shift_row_ids` of a week solve. -/
def weekRestIdsOf (state : AppState) (settings : SolverSettingsRec) : List String :=
  (weekShiftRows (classRowsOf state)).filterMap
    (fun t => if some t.row.id = settings.onCallRestClassId then some t.sid else Option.none)

/-- Whether the on-call rest section is active. -/
def weekRestActiveOf (state : AppState) (settings : SolverSettingsRec) : Bool :=
  settings.onCallRestEnabled && !(weekRestIdsOf state settings).isEmpty &&
    (decide (0 < max 0 settings.onCallRestDaysBefore) ||
     decide (0 < max 0 settings.onCallRestDaysAfter))

/-- The on-call rest section of a week solve. -/
def weekRestSectionOf (state : AppState) (settings : SolverSettingsRec)
    (rangeStart rangeEnd : Nat) : List LinCon × List Var :=
  if weekRestActiveOf state settings then
    weekRestCons state.clinicians (weekDayIsosOf rangeStart rangeEnd)
      (weekTargetIsosOf rangeStart rangeEnd) (weekVarKeysOf state rangeStart rangeEnd)
      (weekManualOf state rangeStart rangeEnd) (weekRestIdsOf state settings)
      (max 0 settings.onCallRestDaysBefore) (max 0 settings.onCallRestDaysAfter)
  else ([], [])

/-- The model construction of `solve_week` after input validation, as a
total function of the parsed range and validated settings. -/
def solve_week_core (state : AppState) (onlyFill : Bool)
    (settings : SolverSettingsRec) (rangeStart rangeEnd : Nat) : WeekBuilt :=
  let shiftRows := weekShiftRows (classRowsOf state)
  let varKeys := weekVarKeysOf state rangeStart rangeEnd
  let cov := weekCovOf state onlyFill rangeStart rangeEnd
  let parentBySid := shiftRows.foldl (fun acc t => aset acc t.sid t.row.id) []
  let prefWeight := prefWeightOf state.clinicians
  let prioTerms := varKeys.map
    (fun k => ((aget cov.orderWeightBySid k.2.2).getD 0, xvar k))
  let prefTerms := varKeys.map
    (fun k =>
      ((aget ((aget prefWeight k.1).getD []) ((aget parentBySid k.2.2).getD "")).getD 0,
       xvar k))
  let objective :=
    cov.covTerms.map (fun t => (-10000 * t.1, t.2)) ++
    cov.slackTerms.map (fun t => (100 * t.1, t.2)) ++
    (if onlyFill then [] else prioTerms.map (fun t => (-10 * t.1, t.2))) ++
    prefTerms.map (fun t => (-t.1, t.2))
  { rangeStart := rangeStart, rangeEnd := rangeEnd
    dayIsos := weekDayIsosOf rangeStart rangeEnd
    targetDayIsos := weekTargetIsosOf rangeStart rangeEnd
    dayIndexByIso := weekDayIndexOf rangeStart rangeEnd
    shiftIntervals := build_shift_intervals (classRowsOf state)
    shiftRows := shiftRows, manual := weekManualOf state rangeStart rangeEnd
    settings := settings, onlyFill := onlyFill, varKeys := varKeys
    model :=
      { boolVars := varKeys.map xvar ++ cov.coveredVars ++
          (weekRestSectionOf state settings rangeStart rangeEnd).2
        intVars := cov.slackVars
        cons := weekCapConsOf state settings rangeStart rangeEnd ++
          weekOverlapConsOf state settings rangeStart rangeEnd ++
          cov.cons ++ (weekRestSectionOf state settings rangeStart rangeEnd).1
        objective := objective }
    slackTerms := cov.slackTerms
    restIds := weekRestIdsOf state settings
    restBefore := max 0 settings.onCallRestDaysBefore
    restAfter := max 0 settings.onCallRestDaysAfter
    restActive := weekRestActiveOf state settings }

/-- The model-building phase of `solve_week` (everything up to
`solver.Solve(model)`); errors mirror the raised `ValueError`s and a
non-validating `solverSettings`. -/
def solve_week_build (state : AppState) (payload : SolveWeekRequest) :
    Except String WeekBuilt :=
  match parseDateISO payload.startISO with
  | Option.none => Except.error "Invalid startISO"
  | some rangeStart =>
    match (match payload.endISO with
           | some e => parseDateISO e
           | Option.none => some (rangeStart + 6)) with
    | Option.none => Except.error "Invalid endISO"
    | some rangeEnd =>
      if rangeEnd < rangeStart then Except.error "Invalid endISO"
      else
        match parseSolverSettings state.solverSettings with
        | Option.none => Except.error "Invalid solverSettings"
        | some settings =>
            Except.ok
              (solve_week_core state payload.only_fill_required settings
                rangeStart rangeEnd)

/-- Result extraction of `solve_week`: one `Assignment` per variable valued 1,
in `var_map` insertion order. -/
def weekAssignments (B : WeekBuilt) (sol : Var → Int) : List Assignment :=
  B.varKeys.filterMap (fun k =>
    if sol (xvar k) = 1 then
      some { id := "as-" ++ k.2.1 ++ "-" ++ k.1 ++ "-" ++ k.2.2
             rowId := k.2.2, dateISO := k.2.1, clinicianId := k.1 }
    else Option.none)

/-- Value of `total_slack` in the solution (`sum(slack_terms)`, 0 when there
are none). -/
def weekSlackVal (B : WeekBuilt) (sol : Var → Int) : Int :=
  evalTerms sol B.slackTerms

/-- Whether the boundary-conflict scan of `solve_week` finds any conflict:
an on-call assignment (manual or extracted, on a target date) whose rest
window reaches a non-target context date carrying a manual assignment. -/
def weekBoundaryConflict (B : WeekBuilt) (sol : Var → Int) : Bool :=
  if !B.restActive then false
  else
    let onCallAssignments : List (String × String) :=
      B.manual.filterMap
        (fun e =>
          if B.targetDayIsos.contains e.1.2 &&
              e.2.any (fun rid => B.restIds.contains rid) then some e.1
          else Option.none) ++
      (weekAssignments B sol).filterMap
        (fun a =>
          if B.targetDayIsos.contains a.dateISO && B.restIds.contains a.rowId then
            some (a.clinicianId, a.dateISO)
          else Option.none)
    onCallAssignments.any (fun p =>
      match aget B.dayIndexByIso p.2 with
      | Option.none => false
      | some baseIndex =>
          let offsets :=
            ((List.range B.restBefore.toNat).map (fun o => (baseIndex : Int) - ((o : Int) + 1))) ++
            ((List.range B.restAfter.toNat).map (fun o => (baseIndex : Int) + ((o : Int) + 1)))
          offsets.any (fun tIdx =>
            if tIdx < 0 ∨ (B.dayIsos.length : Int) ≤ tIdx then false
            else
              let targetDate := B.dayIsos.getD tIdx.toNat ""
              if B.targetDayIsos.contains targetDate then false
              else !((aget B.manual (p.1, targetDate)).getD []).isEmpty))

/-- Notes of a feasible `solve_week` result. -/
def weekNotes (B : WeekBuilt) (sol : Var → Int) : List String :=
  (if weekBoundaryConflict B sol then
     ["Rest day conflicts outside the selected range; some boundary days are already assigned."]
   else []) ++
  (if 0 < weekSlackVal B sol then ["Could not fill all required slots."] else [])

/-- Outcome of the CP-SAT engine: a status outside {OPTIMAL, FEASIBLE}, or a
returned valuation. -/
inductive EngineOutcome where
  | noSolution
  | sol (s : Var → Int)

/-- Assignments and notes of a solve response. -/
structure SolveResult where
  assignments : List Assignment
  notes : List String
deriving DecidableEq, Repr

/-- The response of `solve_week` as a function of the engine outcome. -/
def solve_week_result (B : WeekBuilt) : EngineOutcome → SolveResult
  | .noSolution => ⟨[], ["No solution"]⟩
  | .sol s => ⟨weekAssignments B s, weekNotes B s⟩

/-- A day-solver variable key `(clinicianId, shiftRowId)`. -/
abbrev DVarKey := String × String

/-- The day-solver decision variable of a key. -/
def dxvar (k : DVarKey) : Var := Var.dx k.1 k.2

/-- Unit term of a day-solver decision variable. -/
def dxterm (k : DVarKey) : Int × Var := (1, dxvar k)

/-- Everything `solve_day` computes before invoking the engine. -/
structure DayBuilt where
  dateISO : String
  shiftRows : List ShiftRowEntry
  vacationIds : List String
  assignedIds : List String
  classAssignments : List Assignment
  freeClinicians : List Clinician
  varKeys : List DVarKey
  model : CpModel
  slackTerms : List (Int × Var)
  hasSlackVars : Bool
deriving Repr

/-- `vacation_ids` of `solve_day`: clinicians with a vacation covering the
date (ISO-string comparison). -/
def dayVacationIdsOf (state : AppState) (d : String) : List String :=
  state.clinicians.filterMap
    (fun c =>
      if c.vacations.any (fun v => strLe v.startISO d && strLe d v.endISO) then
        some c.id
      else Option.none)

/-- The `assigned_ids` / `class_assignments` fold of `solve_day`: same-day
assignments outside the ignored pools (`pool-not-allocated`, `pool-vacation`)
by non-vacationing clinicians. -/
def dayAssignedOf (state : AppState) (d : String) : List String × List Assignment :=
  let ignoredPoolRows : List String := ["pool-not-allocated", "pool-vacation"]
  let shiftRowIds := (weekShiftRows (classRowsOf state)).map (·.sid)
  let vacationIds := dayVacationIdsOf state d
  state.assignments.foldl
    (fun (acc : List String × List Assignment) a =>
      if a.dateISO != d then acc
      else if ignoredPoolRows.contains a.rowId then acc
      else if vacationIds.contains a.clinicianId then acc
      else
        (addKey acc.1 a.clinicianId,
         if shiftRowIds.contains a.rowId then acc.2 ++ [a] else acc.2))
    ([], [])

/-- `free_clinicians` of `solve_day`. -/
def dayFreeCliniciansOf (state : AppState) (d : String) : List Clinician :=
  state.clinicians.filter
    (fun c => !(dayAssignedOf state d).1.contains c.id &&
              !(dayVacationIdsOf state d).contains c.id)

/-- `var_map` keys of `solve_day`, in insertion order. -/
def dayVarKeysOf (state : AppState) (d : String) : List DVarKey :=
  (dayFreeCliniciansOf state d).foldl
    (fun acc c =>
      (weekShiftRows (classRowsOf state)).foldl
        (fun acc' t =>
          if c.qualifiedClassIds.contains t.row.id then addKey acc' (c.id, t.sid)
          else acc')
        acc)
    []

/-- Accumulator of the `solve_day` coverage loop. -/
structure DayCovOut where
  cons : List LinCon := []
  covTerms : List (Int × Var) := []
  slackTerms : List (Int × Var) := []
  coveredVars : List Var := []
  slackVars : List (Var × Int) := []
  classNeed : List (String × Int) := []
deriving Repr

/-- One slot iteration of the `solve_day` coverage loop. -/
def dayCovStep (state : AppState) (d : String) (onlyFill : Bool)
    (acc : DayCovOut) (t : ShiftRowEntry) : DayCovOut :=
  let classRows := classRowsOf state
  let classAssignments := (dayAssignedOf state d).2
  let freeClinicians := dayFreeCliniciansOf state d
  let varKeys := dayVarKeysOf state d
  let isWeekend := is_weekend_or_holiday (state.holidays.map (·.dateISO)) d
  (fun acc t =>
      let required := (aget state.minSlotsByRowId t.sid).getD ⟨0, 0⟩
      let base := if isWeekend then required.weekend else required.weekday
      let override := (aget state.slotOverridesByKey (t.sid ++ "__" ++ d)).getD 0
      let target := max 0 (base + override)
      let acc := { acc with classNeed := aset acc.classNeed t.sid target }
      let already := classAssignments.countP (fun a => a.rowId == t.sid)
      let missing := max 0 (target - (already : Int))
      let assignedVars : List DVarKey := freeClinicians.filterMap
        (fun c => if (c.id, t.sid) ∈ varKeys then some ((c.id, t.sid) : DVarKey) else Option.none)
      if missing = 0 then
        if onlyFill ∧ ¬assignedVars.isEmpty then
          { acc with cons := acc.cons ++ [⟨assignedVars.map dxterm, .eq, 0⟩] }
        else acc
      else
        let orderWeight : Int :=
          max 1 ((classRows.length : Int) - t.index) * 10 + (4 - t.shift.order)
        let acc₁ :=
          if !assignedVars.isEmpty then
            { acc with
              cons := acc.cons ++
                [⟨assignedVars.map dxterm ++ [(-1, Var.dcovered t.sid)], .ge, 0⟩] ++
                (if onlyFill then [⟨assignedVars.map dxterm, .le, missing⟩] else [])
              covTerms := acc.covTerms ++ [(orderWeight, Var.dcovered t.sid)]
              coveredVars := acc.coveredVars ++ [Var.dcovered t.sid] }
          else acc
        { acc₁ with
          cons := acc₁.cons ++
            [if !assignedVars.isEmpty then
               ⟨assignedVars.map dxterm ++ [(1, Var.dslack t.sid)], .ge, missing⟩
             else ⟨[(1, Var.dslack t.sid)], .ge, missing⟩]
          slackTerms := acc₁.slackTerms ++ [(orderWeight, Var.dslack t.sid)]
          slackVars := acc₁.slackVars ++ [(Var.dslack t.sid, missing)] }) acc t

/-- Coverage/slack loop of `solve_day`. -/
def dayCoverageOf (state : AppState) (d : String) (onlyFill : Bool) : DayCovOut :=
  (weekShiftRows (classRowsOf state)).foldl (dayCovStep state d onlyFill) {}

/-- The model construction of `solve_day` (`/v1/solve`).  The pool rows
ignored when collecting same-day assignments are `pool-not-allocated` and
`pool-vacation`. -/
def solve_day_core (state : AppState) (payload : SolveDayRequest) : DayBuilt :=
  let d := payload.dateISO
  let classRows := classRowsOf state
  let shiftRows := weekShiftRows classRows
  let vacationIds := dayVacationIdsOf state d
  let assignedIds := (dayAssignedOf state d).1
  let classAssignments := (dayAssignedOf state d).2
  let freeClinicians := dayFreeCliniciansOf state d
  let prefWeight := prefWeightOf freeClinicians
  let varKeys := dayVarKeysOf state d
  let capCons := freeClinicians.flatMap
    (fun c =>
      let varsForClinician := shiftRows.filterMap
        (fun t => if (c.id, t.sid) ∈ varKeys then some ((c.id, t.sid) : DVarKey) else Option.none)
      if !varsForClinician.isEmpty then [⟨varsForClinician.map dxterm, .le, 1⟩]
      else ([] : List LinCon))
  let cov := dayCoverageOf state d payload.only_fill_required
  let parentBySid := shiftRows.foldl (fun acc t => aset acc t.sid t.row.id) []
  let prioTerms := varKeys.map (fun k => ((aget cov.classNeed k.2).getD 0, dxvar k))
  let prefTerms := varKeys.map
    (fun k =>
      ((aget ((aget prefWeight k.1).getD []) ((aget parentBySid k.2).getD "")).getD 0,
       dxvar k))
  let objective :=
    cov.covTerms.map (fun t => (-10000 * t.1, t.2)) ++
    cov.slackTerms.map (fun t => (100 * t.1, t.2)) ++
    (if payload.only_fill_required then []
     else prioTerms.map (fun t => (-10 * t.1, t.2))) ++
    prefTerms.map (fun t => (-t.1, t.2))
  { dateISO := d, shiftRows := shiftRows, vacationIds := vacationIds
    assignedIds := assignedIds, classAssignments := classAssignments
    freeClinicians := freeClinicians, varKeys := varKeys
    model :=
      { boolVars := varKeys.map dxvar ++ cov.coveredVars
        intVars := cov.slackVars
        cons := capCons ++ cov.cons
        objective := objective }
    slackTerms := cov.slackTerms
    hasSlackVars := !cov.slackVars.isEmpty }

/-- The model-building phase of `solve_day`, with the implicit failure on a
malformed date (raised inside `_is_weekend_or_holiday`, reached only when at
least one shift row exists). -/
def solve_day_build (state : AppState) (payload : SolveDayRequest) :
    Except String DayBuilt :=
  if !(weekShiftRows (classRowsOf state)).isEmpty ∧
      parseDateISO payload.dateISO = Option.none then
    Except.error "Invalid dateISO"
  else Except.ok (solve_day_core state payload)

/-- Result extraction of `solve_day`. -/
def dayAssignments (B : DayBuilt) (sol : Var → Int) : List Assignment :=
  B.varKeys.filterMap (fun k =>
    if sol (dxvar k) = 1 then
      some { id := "as-" ++ B.dateISO ++ "-" ++ k.1 ++ "-" ++ k.2
             rowId := k.2, dateISO := B.dateISO, clinicianId := k.1 }
    else Option.none)

/-- Value of `total_slack` in a `solve_day` solution. -/
def daySlackVal (B : DayBuilt) (sol : Var → Int) : Int :=
  evalTerms sol B.slackTerms

/-- Notes of a feasible `solve_day` result (`if slack_vars and
solver.Value(total_slack) > 0`). -/
def dayNotes (B : DayBuilt) (sol : Var → Int) : List String :=
  if B.hasSlackVars && decide (0 < daySlackVal B sol) then
    ["Could not fill all required slots."]
  else []

/-- The response of `solve_day` as a function of the engine outcome. -/
def solve_day_result (B : DayBuilt) : EngineOutcome → SolveResult
  | .noSolution => ⟨[], ["No solution"]⟩
  | .sol s => ⟨dayAssignments B s, dayNotes B s⟩

/-! ### Continuity (spec-modelled)

The spec's continuity feature (`preferContinuousShifts`, §4.3.3 and the §3
invariant) belongs to the newer range solver `_solve_range_impl`, which is
not under `src/` — only its tests are (`tests/test_solver_continuity.py`);
`solve_week` in `src/backend/solver.py` has no continuity logic, and
`SolverSettings` in `src/backend/models.py` has no `preferContinuousShifts`
field.  Per the spec the setting lives in the solver-settings dict and the
encoding is the pairwise-gap formulation (a) of §4.3.3. -/

/-- Absolute-minutes interval of one returned assignment (slot interval
shifted by the date's day index), when both lookups resolve. -/
def asgnAbsInterval (B : WeekBuilt) (a : Assignment) : Option (Nat × Nat) :=
  match aget B.shiftIntervals a.rowId, aget B.dayIndexByIso a.dateISO with
  | some iv, some di => some (iv.1 + di * (24 * 60), iv.2.1 + di * (24 * 60))
  | _, _ => Option.none

/-- Absolute-minutes interval of one manual assignment row on a date. -/
def manualAbsInterval (B : WeekBuilt) (dateIso rid : String) : Option (Nat × Nat) :=
  match aget B.shiftIntervals rid, aget B.dayIndexByIso dateIso with
  | some iv, some di => some (iv.1 + di * (24 * 60), iv.2.1 + di * (24 * 60))
  | _, _ => Option.none

/-- Intervals of a clinician on one date in a solution: chosen variables of
that date plus the date's manual assignments, in absolute minutes. -/
def solDayIntervals (B : WeekBuilt) (sol : Var → Int) (cid d : String) :
    List (Nat × Nat) :=
  B.varKeys.filterMap (fun k =>
    if k.1 == cid && k.2.1 == d && sol (xvar k) == 1 then
      match aget B.shiftIntervals k.2.2, aget B.dayIndexByIso k.2.1 with
      | some iv, some di => some (iv.1 + di * (24 * 60), iv.2.1 + di * (24 * 60))
      | _, _ => Option.none
    else Option.none) ++
  ((aget B.manual (cid, d)).getD []).filterMap (fun rid => manualAbsInterval B d rid)

/-- A minute lies inside some interval of the set. -/
def minuteCovered (S : List (Nat × Nat)) (m : Nat) : Prop :=
  ∃ p ∈ S, p.1 ≤ m ∧ m < p.2

/-- Modelled from the spec: the pairwise-gap continuity encoding of §4.3.3
(formulation (a)) — for any two selected intervals, every minute of their
combined span is covered by some selected interval ("prohibit selecting two
variables whose combined span contains an uncovered minute"). -/
def pairGapCovered (S : List (Nat × Nat)) : Prop :=
  ∀ p ∈ S, ∀ q ∈ S, ∀ m, p.1 ≤ m → m < q.2 → minuteCovered S m

/-- Modelled from the spec: `preferContinuousShifts` is read from the
solver-settings dict (the src `SolverSettings` model has no such field). -/
def preferContinuousShiftsOf (state : AppState) : Bool :=
  truthy ((aget state.solverSettings "preferContinuousShifts").getD .null)

/-- Modelled from the spec: an accepted solution of the continuity-enabled
range solver — the src `solve_week` model plus, when the setting is on, the
pairwise-gap encoding per clinician × target date over the chosen and manual
intervals. -/
def SpecRangeFeasible (state : AppState) (B : WeekBuilt) (sol : Var → Int) : Prop :=
  Feasible B.model sol ∧
  (preferContinuousShiftsOf state = true →
    ∀ cid : String, ∀ d ∈ B.targetDayIsos, pairGapCovered (solDayIntervals B sol cid d))

/-- Union contiguity: no uncovered minute between two covered minutes
(touch-at-endpoint allowed, zero-length intervals cover nothing). -/
def contiguousSet (S : List (Nat × Nat)) : Prop :=
  ∀ m₁ m₂ m, minuteCovered S m₁ → minuteCovered S m₂ → m₁ ≤ m → m ≤ m₂ →
    minuteCovered S m

/-! ### Basic lemmas on models and valuations -/

theorem evalTerms_nil (sol : Var → Int) : evalTerms sol [] = 0 := rfl

theorem evalTerms_append (sol : Var → Int) (l₁ l₂ : List (Int × Var)) :
    evalTerms sol (l₁ ++ l₂) = evalTerms sol l₁ + evalTerms sol l₂ := by
  simp [evalTerms]

theorem feasible_con {M : CpModel} {sol : Var → Int} (h : Feasible M sol)
    {c : LinCon} (hc : c ∈ M.cons) : conHolds sol c = true :=
  List.all_eq_true.mp h.2 c hc

theorem feasible_dom_bool {M : CpModel} {sol : Var → Int} (h : Feasible M sol)
    {v : Var} (hv : v ∈ M.boolVars) : sol v = 0 ∨ sol v = 1 := by
  have h' := h.1
  rw [domHolds, Bool.and_eq_true] at h'
  simpa using List.all_eq_true.mp h'.1 v hv

theorem feasible_dom_int {M : CpModel} {sol : Var → Int} (h : Feasible M sol)
    {v : Var} {ub : Int} (hv : (v, ub) ∈ M.intVars) : 0 ≤ sol v ∧ sol v ≤ ub := by
  have h' := h.1
  rw [domHolds, Bool.and_eq_true] at h'
  simpa using List.all_eq_true.mp h'.2 (v, ub) hv

theorem con_le {sol : Var → Int} {t : List (Int × Var)} {b : Int}
    (h : conHolds sol ⟨t, .le, b⟩ = true) : evalTerms sol t ≤ b := by
  simpa [conHolds] using h

theorem con_ge {sol : Var → Int} {t : List (Int × Var)} {b : Int}
    (h : conHolds sol ⟨t, .ge, b⟩ = true) : b ≤ evalTerms sol t := by
  simpa [conHolds] using h

theorem con_eq {sol : Var → Int} {t : List (Int × Var)} {b : Int}
    (h : conHolds sol ⟨t, .eq, b⟩ = true) : evalTerms sol t = b := by
  simpa [conHolds] using h

theorem evalTerms_map_xterm (sol : Var → Int) (l : List VarKey) :
    evalTerms sol (l.map xterm) = (l.map (fun k => sol (xvar k))).sum := by
  induction l with
  | nil => rfl
  | cons a t ih => simp [evalTerms, xterm] at ih ⊢; omega

theorem sum_nonneg_of_nonneg {l : List Int} (h : ∀ x ∈ l, 0 ≤ x) : 0 ≤ l.sum := by
  induction l with
  | nil => simp
  | cons a t ih =>
      have ha := h a (by simp)
      have ht := ih (fun x hx => h x (by simp [hx]))
      simp only [List.sum_cons]
      omega

theorem sum_zero_of_le_zero {sol : Var → Int} {l : List VarKey}
    (h01 : ∀ k ∈ l, sol (xvar k) = 0 ∨ sol (xvar k) = 1)
    (hle : (l.map (fun k => sol (xvar k))).sum ≤ 0) :
    ∀ k ∈ l, sol (xvar k) = 0 := by
  induction l with
  | nil => simp
  | cons a t ih =>
      have ha := h01 a (by simp)
      have ht : 0 ≤ (t.map (fun k => sol (xvar k))).sum :=
        sum_nonneg_of_nonneg (by
          intro x hx
          obtain ⟨k, hk, rfl⟩ := List.mem_map.mp hx
          rcases h01 k (by simp [hk]) with h | h <;> omega)
      simp only [List.map_cons, List.sum_cons] at hle
      intro k hk
      rcases List.mem_cons.mp hk with rfl | hk'
      · rcases ha with h | h <;> omega
      · exact ih (fun k' hk' => h01 k' (by simp [hk'])) (by omega) k hk'

theorem sum_eq_countP (sol : Var → Int) (l : List VarKey)
    (h01 : ∀ k ∈ l, sol (xvar k) = 0 ∨ sol (xvar k) = 1) :
    (l.map (fun k => sol (xvar k))).sum =
      ((l.countP (fun k => sol (xvar k) == 1)) : Int) := by
  induction l with
  | nil => simp
  | cons a t ih =>
      have ih' := ih (fun k hk => h01 k (by simp [hk]))
      rcases h01 a (by simp) with h | h
      · simp [List.countP_cons, h, ih']
      · simp [List.countP_cons, h, ih']
        omega

/-- Positivity of a positively-weighted sum of nonnegative values is
equivalent to positivity of the unweighted sum. -/
theorem weighted_pos_iff (sol : Var → Int) (l : List (Int × Var))
    (hw : ∀ p ∈ l, 0 < p.1) (hx : ∀ p ∈ l, 0 ≤ sol p.2) :
    (0 < evalTerms sol l ↔ 0 < (l.map (fun p => sol p.2)).sum) := by
  induction l with
  | nil => simp [evalTerms]
  | cons a t ih =>
      have ihw := ih (fun p hp => hw p (by simp [hp])) (fun p hp => hx p (by simp [hp]))
      have hwa := hw a (by simp)
      have hxa := hx a (by simp)
      have htn : 0 ≤ (t.map (fun p => p.1 * sol p.2)).sum := by
        refine sum_nonneg_of_nonneg ?_
        intro x hxm
        obtain ⟨p, hp, rfl⟩ := List.mem_map.mp hxm
        have h1 := hw p (by simp [hp])
        have h2 := hx p (by simp [hp])
        positivity
      have hsn : 0 ≤ (t.map (fun p => sol p.2)).sum := by
        refine sum_nonneg_of_nonneg ?_
        intro x hxm
        obtain ⟨p, hp, rfl⟩ := List.mem_map.mp hxm
        exact hx p (by simp [hp])
      simp only [evalTerms, List.map_cons, List.sum_cons] at ihw ⊢
      rcases lt_or_eq_of_le hxa with hpos | hzero
      · have hma : 0 < a.1 * sol a.2 := mul_pos hwa hpos
        constructor
        · intro _; omega
        · intro _; omega
      · have hz : a.1 * sol a.2 = 0 := by rw [← hzero]; ring
        constructor
        · intro h
          have h2 := ihw.mp (by omega)
          omega
        · intro h
          have h2 := ihw.mpr (by omega)
          omega

/-! ### C1 — continuity invariant (spec-modelled) -/

/-- **C1** — For every solve of the (spec-modelled) continuity-enabled range
solver with `preferContinuousShifts` set, each clinician's chosen-plus-manual
intervals on every target date form a single contiguous span: the pairwise-gap
encoding leaves no uncovered minute between covered minutes. -/
theorem continuity_single_span (state : AppState) (req : SolveWeekRequest)
    (B : WeekBuilt) (_hb : solve_week_build state req = .ok B) (sol : Var → Int)
    (hfeas : SpecRangeFeasible state B sol)
    (hpref : preferContinuousShiftsOf state = true) :
    ∀ cid : String, ∀ d ∈ B.targetDayIsos, contiguousSet (solDayIntervals B sol cid d) := by
  intro cid d hd m₁ m₂ m hc₁ hc₂ hm₁ hm₂
  obtain ⟨p, hp, hps, hpe⟩ := hc₁
  obtain ⟨q, hq, _, hqe⟩ := hc₂
  exact hfeas.2 hpref cid d hd p hp q hq m (le_trans hps hm₁) (lt_of_le_of_lt hm₂ hqe)

/-! ### Build destructuring and field equations -/

theorem solve_week_build_ok {state : AppState} {payload : SolveWeekRequest}
    {B : WeekBuilt} (h : solve_week_build state payload = .ok B) :
    ∃ rangeStart rangeEnd settings,
      parseDateISO payload.startISO = some rangeStart ∧
      parseSolverSettings state.solverSettings = some settings ∧
      B = solve_week_core state payload.only_fill_required settings rangeStart rangeEnd := by
  unfold solve_week_build at h
  cases hrs : parseDateISO payload.startISO with
  | none => rw [hrs] at h; exact Except.noConfusion h
  | some rs =>
    rw [hrs] at h
    dsimp only at h
    cases hre : (match payload.endISO with
                 | some e => parseDateISO e
                 | Option.none => some (rs + 6)) with
    | none => rw [hre] at h; exact Except.noConfusion h
    | some re =>
      rw [hre] at h
      dsimp only at h
      by_cases hlt : re < rs
      · rw [if_pos hlt] at h; exact Except.noConfusion h
      · rw [if_neg hlt] at h
        cases hst : parseSolverSettings state.solverSettings with
        | none => rw [hst] at h; exact Except.noConfusion h
        | some st =>
            rw [hst] at h
            exact ⟨rs, re, st, rfl, rfl, (Except.ok.inj h).symm⟩

theorem solve_day_build_ok {state : AppState} {payload : SolveDayRequest}
    {B : DayBuilt} (h : solve_day_build state payload = .ok B) :
    B = solve_day_core state payload := by
  unfold solve_day_build at h
  split at h
  · exact Except.noConfusion h
  · exact (Except.ok.inj h).symm

theorem week_core_varKeys (s : AppState) (f : Bool) (st : SolverSettingsRec)
    (rs re : Nat) :
    (solve_week_core s f st rs re).varKeys = weekVarKeysOf s rs re := rfl

theorem week_core_manual (s : AppState) (f : Bool) (st : SolverSettingsRec)
    (rs re : Nat) :
    (solve_week_core s f st rs re).manual = weekManualOf s rs re := rfl

theorem week_core_targetDayIsos (s : AppState) (f : Bool) (st : SolverSettingsRec)
    (rs re : Nat) :
    (solve_week_core s f st rs re).targetDayIsos = weekTargetIsosOf rs re := rfl

theorem week_core_dayIsos (s : AppState) (f : Bool) (st : SolverSettingsRec)
    (rs re : Nat) :
    (solve_week_core s f st rs re).dayIsos = weekDayIsosOf rs re := rfl

theorem week_core_slackTerms (s : AppState) (f : Bool) (st : SolverSettingsRec)
    (rs re : Nat) :
    (solve_week_core s f st rs re).slackTerms = (weekCovOf s f rs re).slackTerms := rfl

theorem week_core_intVars (s : AppState) (f : Bool) (st : SolverSettingsRec)
    (rs re : Nat) :
    (solve_week_core s f st rs re).model.intVars = (weekCovOf s f rs re).slackVars := rfl

theorem week_core_boolVars (s : AppState) (f : Bool) (st : SolverSettingsRec)
    (rs re : Nat) :
    (solve_week_core s f st rs re).model.boolVars =
      (weekVarKeysOf s rs re).map xvar ++ (weekCovOf s f rs re).coveredVars ++
        (weekRestSectionOf s st rs re).2 := rfl

theorem week_core_cons (s : AppState) (f : Bool) (st : SolverSettingsRec)
    (rs re : Nat) :
    (solve_week_core s f st rs re).model.cons =
      weekCapConsOf s st rs re ++ weekOverlapConsOf s st rs re ++
        (weekCovOf s f rs re).cons ++ (weekRestSectionOf s st rs re).1 := rfl

theorem week_core_settings (s : AppState) (f : Bool) (st : SolverSettingsRec)
    (rs re : Nat) :
    (solve_week_core s f st rs re).settings = st := rfl

theorem day_core_varKeys (s : AppState) (p : SolveDayRequest) :
    (solve_day_core s p).varKeys = dayVarKeysOf s p.dateISO := rfl

theorem day_core_slackTerms (s : AppState) (p : SolveDayRequest) :
    (solve_day_core s p).slackTerms =
      (dayCoverageOf s p.dateISO p.only_fill_required).slackTerms := rfl

theorem day_core_intVars (s : AppState) (p : SolveDayRequest) :
    (solve_day_core s p).model.intVars =
      (dayCoverageOf s p.dateISO p.only_fill_required).slackVars := rfl

theorem day_core_hasSlackVars (s : AppState) (p : SolveDayRequest) :
    (solve_day_core s p).hasSlackVars =
      !(dayCoverageOf s p.dateISO p.only_fill_required).slackVars.isEmpty := rfl

/-! ### Fold invariants for the coverage sections -/

theorem foldl_preserve {α β : Type} (P : β → Prop) (f : β → α → β) :
    ∀ (l : List α) (b : β), P b → (∀ b' a, a ∈ l → P b' → P (f b' a)) →
      P (l.foldl f b)
  | [], _, hb, _ => hb
  | a :: t, b, hb, hstep =>
      foldl_preserve P f t (f b a) (hstep b a (by simp) hb)
        (fun b' a' ha' hb' => hstep b' a' (by simp [ha']) hb')

theorem snd_mem_of_mem_enumFrom {α : Type} :
    ∀ {l : List α} {n : Nat} {p : Nat × α}, p ∈ l.enumFrom n → p.2 ∈ l := by
  intro l
  induction l with
  | nil => intro n p hp; cases hp
  | cons a t ih =>
      intro n p hp
      rcases List.mem_cons.mp hp with rfl | hp'
      · simp
      · exact List.mem_cons_of_mem _ (ih hp')

theorem mem_weekShiftRows {classRows : List WorkplaceRow} {t : ShiftRowEntry}
    (h : t ∈ weekShiftRows classRows) :
    t.row ∈ classRows ∧ t.shift ∈ t.row.subShifts := by
  unfold weekShiftRows at h
  obtain ⟨p, hp, hmem⟩ := List.mem_flatMap.mp h
  obtain ⟨s, hs, rfl⟩ := List.mem_map.mp hmem
  exact ⟨snd_mem_of_mem_enumFrom hp, hs⟩

/-- The slack bookkeeping invariant of the coverage folds: every slack term
has weight at least 11 and its variable is registered as an integer
variable, and slack terms and slack variables appear in lockstep. -/
def SlackInv (slackTerms : List (Int × Var)) (slackVars : List (Var × Int)) : Prop :=
  (∀ p ∈ slackTerms, 11 ≤ p.1 ∧ p.2 ∈ slackVars.map (·.1)) ∧
  slackTerms.length = slackVars.length

theorem slackInv_append {ts : List (Int × Var)} {vs : List (Var × Int)}
    (h : SlackInv ts vs) (v : Var) (ub : Int) {w : Int} (hw : 11 ≤ w) :
    SlackInv (ts ++ [(w, v)]) (vs ++ [(v, ub)]) := by
  constructor
  · intro p hp
    rcases List.mem_append.mp hp with hp' | hp'
    · obtain ⟨h1, h2⟩ := h.1 p hp'
      exact ⟨h1, by simp [h2]⟩
    · rcases List.mem_singleton.mp hp' with rfl
      exact ⟨hw, by simp⟩
  · simp [h.2]

theorem weekCovStep_inv (ms : List (String × MinSlots)) (ov : List (String × Int))
    (hol : List String) (vk : List VarKey)
    (man : List ((String × String) × List String)) (f : Bool) (N : Nat)
    (t : ShiftRowEntry) (acc : CoverageOut) (d : String)
    (ho : t.shift.order ≤ 3) (h : SlackInv acc.slackTerms acc.slackVars) :
    SlackInv (weekCovStep ms ov hol vk man f N t acc d).slackTerms
      (weekCovStep ms ov hol vk man f N t acc d).slackVars := by
  have hw : (11 : Int) ≤ max 1 ((N : Int) - t.index) * 10 + (4 - t.shift.order) := by
    have h1 : (1 : Int) ≤ max 1 ((N : Int) - t.index) := le_max_left _ _
    omega
  unfold weekCovStep
  dsimp only
  split_ifs <;> first
    | exact h
    | exact slackInv_append h _ _ hw

theorem weekCoverage_inv (ms : List (String × MinSlots)) (ov : List (String × Int))
    (hol : List String) (sr : List ShiftRowEntry) (tgt : List String)
    (vk : List VarKey) (man : List ((String × String) × List String))
    (f : Bool) (N : Nat) (ho : ∀ t ∈ sr, t.shift.order ≤ 3) :
    SlackInv (weekCoverage ms ov hol sr tgt vk man f N).slackTerms
      (weekCoverage ms ov hol sr tgt vk man f N).slackVars := by
  unfold weekCoverage
  refine foldl_preserve (fun (acc : CoverageOut) => SlackInv acc.slackTerms acc.slackVars) _ sr {}
    ⟨fun p hp => absurd hp (List.not_mem_nil p), rfl⟩ ?_
  intro acc t ht hacc
  refine foldl_preserve (fun (acc : CoverageOut) => SlackInv acc.slackTerms acc.slackVars) _ tgt _ ?_ ?_
  · exact hacc
  · intro acc' d _ hinv
    exact weekCovStep_inv ms ov hol vk man f N t acc' d (ho t ht) hinv

theorem dayCovStep_inv (state : AppState) (d : String) (f : Bool)
    (acc : DayCovOut) (t : ShiftRowEntry) (ho : t.shift.order ≤ 3)
    (h : SlackInv acc.slackTerms acc.slackVars) :
    SlackInv (dayCovStep state d f acc t).slackTerms
      (dayCovStep state d f acc t).slackVars := by
  have hw : (11 : Int) ≤
      max 1 (((classRowsOf state).length : Int) - t.index) * 10 + (4 - t.shift.order) := by
    have h1 : (1 : Int) ≤ max 1 (((classRowsOf state).length : Int) - t.index) :=
      le_max_left _ _
    omega
  unfold dayCovStep
  dsimp only
  split_ifs <;> first
    | exact h
    | exact slackInv_append h _ _ hw

theorem dayCoverage_inv (state : AppState) (d : String) (f : Bool)
    (ho : ∀ t ∈ weekShiftRows (classRowsOf state), t.shift.order ≤ 3) :
    SlackInv (dayCoverageOf state d f).slackTerms (dayCoverageOf state d f).slackVars := by
  unfold dayCoverageOf
  refine foldl_preserve (fun (acc : DayCovOut) => SlackInv acc.slackTerms acc.slackVars) _ _ {}
    ⟨fun p hp => absurd hp (List.not_mem_nil p), rfl⟩ ?_
  intro acc t ht hacc
  exact dayCovStep_inv state d f acc t (ho t ht) hacc

/-- From the slack invariant and feasibility: positivity of the weighted
`total_slack` value coincides with positivity of the plain sum of the slack
variables, and an empty slack-variable list forces empty slack terms. -/
theorem slack_pos_equiv {sol : Var → Int} {slackTerms : List (Int × Var)}
    {slackVars : List (Var × Int)} (hinv : SlackInv slackTerms slackVars)
    (hdom : ∀ p ∈ slackVars, 0 ≤ sol p.1) :
    (0 < evalTerms sol slackTerms ↔ 0 < (slackTerms.map (fun p => sol p.2)).sum) := by
  refine weighted_pos_iff sol slackTerms ?_ ?_
  · intro p hp
    have := (hinv.1 p hp).1
    omega
  · intro p hp
    obtain ⟨_, hv⟩ := hinv.1 p hp
    obtain ⟨q, hq, hq2⟩ := List.mem_map.mp hv
    have h0 := hdom q hq
    rw [hq2] at h0
    exact h0

/-! ### C9 — infeasible responses and the partial-coverage note -/

/-- **C9** — For every solve (day or range): a CP-SAT status outside
{OPTIMAL, FEASIBLE} yields an empty assignment list with the single note
"No solution"; otherwise "Could not fill all required slots." is in the
response's notes exactly when the total slack of the returned solution is
positive. -/
theorem no_solution_and_slack_note (state : AppState)
    (dayReq : SolveDayRequest) (weekReq : SolveWeekRequest)
    (Bd : DayBuilt) (Bw : WeekBuilt)
    (hbd : solve_day_build state dayReq = .ok Bd)
    (hbw : solve_week_build state weekReq = .ok Bw)
    (horder : ∀ r ∈ state.rows, ∀ sh ∈ r.subShifts, sh.order ≤ 3)
    (sold solw : Var → Int)
    (hfd : Feasible Bd.model sold) (hfw : Feasible Bw.model solw) :
    solve_day_result Bd .noSolution = ⟨[], ["No solution"]⟩ ∧
    solve_week_result Bw .noSolution = ⟨[], ["No solution"]⟩ ∧
    ("Could not fill all required slots." ∈ (solve_day_result Bd (.sol sold)).notes ↔
      0 < (Bd.slackTerms.map (fun p => sold p.2)).sum) ∧
    ("Could not fill all required slots." ∈ (solve_week_result Bw (.sol solw)).notes ↔
      0 < (Bw.slackTerms.map (fun p => solw p.2)).sum) := by
  have hsr : ∀ t ∈ weekShiftRows (classRowsOf state), t.shift.order ≤ 3 := by
    intro t ht
    obtain ⟨hr, hs⟩ := mem_weekShiftRows ht
    exact horder t.row (List.mem_of_mem_filter hr) t.shift hs
  refine ⟨rfl, rfl, ?_, ?_⟩
  · rcases solve_day_build_ok hbd with rfl
    have hinv := dayCoverage_inv state dayReq.dateISO dayReq.only_fill_required hsr
    have hdom : ∀ p ∈ (dayCoverageOf state dayReq.dateISO dayReq.only_fill_required).slackVars,
        0 ≤ sold p.1 := by
      intro p hp
      have h1 := feasible_dom_int hfd
        (show (p.1, p.2) ∈ (solve_day_core state dayReq).model.intVars by
          rw [day_core_intVars]; simpa using hp)
      exact h1.1
    have hiff := slack_pos_equiv hinv hdom
    rw [day_core_slackTerms] at *
    simp only [solve_day_result, dayNotes, daySlackVal, day_core_slackTerms,
      day_core_hasSlackVars]
    by_cases hempty :
        (dayCoverageOf state dayReq.dateISO dayReq.only_fill_required).slackVars = []
    · have hts : (dayCoverageOf state dayReq.dateISO dayReq.only_fill_required).slackTerms = [] := by
        have := hinv.2
        rw [hempty] at this
        exact List.eq_nil_of_length_eq_zero this
      simp [hempty, hts, evalTerms]
    · have hne : ((dayCoverageOf state dayReq.dateISO dayReq.only_fill_required).slackVars.isEmpty) = false := by
        simpa [List.isEmpty_iff] using hempty
      by_cases hpos :
          0 < evalTerms sold (dayCoverageOf state dayReq.dateISO dayReq.only_fill_required).slackTerms
      · simp [hne, hpos, hiff.mp hpos]
      · simp only [hne, hpos, Bool.not_false, Bool.true_and, decide_eq_true_eq]
        simp [hpos, (not_iff_not.mpr hiff).mp hpos]
  · obtain ⟨rs, re, st, hrs, hst, rfl⟩ := solve_week_build_ok hbw
    have hinv := weekCoverage_inv state.minSlotsByRowId state.slotOverridesByKey
      (state.holidays.map (·.dateISO)) (weekShiftRows (classRowsOf state))
      (weekTargetIsosOf rs re) (weekVarKeysOf state rs re) (weekManualOf state rs re)
      weekReq.only_fill_required (classRowsOf state).length hsr
    have hdom : ∀ p ∈ (weekCovOf state weekReq.only_fill_required rs re).slackVars,
        0 ≤ solw p.1 := by
      intro p hp
      have h1 := feasible_dom_int hfw
        (show (p.1, p.2) ∈
            (solve_week_core state weekReq.only_fill_required st rs re).model.intVars by
          rw [week_core_intVars]; simpa using hp)
      exact h1.1
    have hiff := @slack_pos_equiv solw
      (weekCovOf state weekReq.only_fill_required rs re).slackTerms
      (weekCovOf state weekReq.only_fill_required rs re).slackVars
      hinv hdom
    simp only [solve_week_result, weekNotes, weekSlackVal, week_core_slackTerms]
    have hno : ("Could not fill all required slots." ∈
        (if weekBoundaryConflict (solve_week_core state weekReq.only_fill_required st rs re) solw then
          ["Rest day conflicts outside the selected range; some boundary days are already assigned."]
        else [])) ↔ False := by
      constructor
      · intro hmem
        split at hmem
        · rcases List.mem_singleton.mp hmem with h
          exact absurd h (by decide)
        · cases hmem
      · intro h
        cases h
    by_cases hpos :
        0 < evalTerms solw (weekCovOf state weekReq.only_fill_required rs re).slackTerms
    · simp [List.mem_append, hno, hpos, hiff.mp hpos]
    · simp [List.mem_append, hno, hpos, (not_iff_not.mpr hiff).mp hpos]

/-! ### Structure of the variable keys and manual assignments -/

theorem addKey_mem {α : Type} [DecidableEq α] {l : List α} {k x : α}
    (h : x ∈ addKey l k) : x ∈ l ∨ x = k := by
  unfold addKey at h
  split at h
  · exact Or.inl h
  · rcases List.mem_append.mp h with h' | h'
    · exact Or.inl h'
    · exact Or.inr (List.mem_singleton.mp h')

theorem mem_addKey_self {α : Type} [DecidableEq α] (l : List α) (k : α) :
    k ∈ addKey l k := by
  unfold addKey
  split
  · assumption
  · simp

theorem mem_addKey_of_mem {α : Type} [DecidableEq α] {l : List α} {x : α} (k : α)
    (h : x ∈ l) : x ∈ addKey l k := by
  unfold addKey
  split
  · exact h
  · exact List.mem_append_left _ h

theorem addKey_nodup {α : Type} [DecidableEq α] {l : List α} (k : α)
    (h : l.Nodup) : (addKey l k).Nodup := by
  unfold addKey
  split
  · exact h
  · simpa [List.nodup_append] using ⟨h, by assumption⟩

/-- The property each `var_map` key of `solve_week` satisfies: it names a
clinician record, a non-vacation target date, and a qualified slot. -/
def WeekKeySpec (clinicians : List Clinician) (target : List String)
    (shiftRows : List ShiftRowEntry) (vacBy : List (String × List (String × String)))
    (k : VarKey) : Prop :=
  ∃ c ∈ clinicians, ∃ d ∈ target, ∃ t ∈ shiftRows,
    k = (c.id, d, t.sid) ∧ is_on_vac vacBy c.id d = false ∧
    c.qualifiedClassIds.contains t.row.id = true

theorem weekVarKeys_spec (clinicians : List Clinician) (target : List String)
    (shiftRows : List ShiftRowEntry) (vacBy : List (String × List (String × String))) :
    ∀ k ∈ weekVarKeys clinicians target shiftRows vacBy,
      WeekKeySpec clinicians target shiftRows vacBy k := by
  unfold weekVarKeys
  refine foldl_preserve
    (fun (acc : List VarKey) => ∀ k ∈ acc, WeekKeySpec clinicians target shiftRows vacBy k)
    _ _ [] (fun k hk => absurd hk (List.not_mem_nil k)) ?_
  intro acc c hc hacc
  refine foldl_preserve
    (fun (acc : List VarKey) => ∀ k ∈ acc, WeekKeySpec clinicians target shiftRows vacBy k)
    _ target acc hacc ?_
  intro acc' d hd hacc'
  split
  · exact hacc'
  · next hvac =>
      refine foldl_preserve
        (fun (acc : List VarKey) => ∀ k ∈ acc, WeekKeySpec clinicians target shiftRows vacBy k)
        _ shiftRows acc' hacc' ?_
      intro acc'' t ht hacc''
      split
      · next hqual =>
          intro k hk
          rcases addKey_mem hk with hk' | rfl
          · exact hacc'' k hk'
          · exact ⟨c, hc, d, hd, t, ht, rfl, by simpa using hvac, hqual⟩
      · exact hacc''

theorem weekVarKeys_nodup (clinicians : List Clinician) (target : List String)
    (shiftRows : List ShiftRowEntry) (vacBy : List (String × List (String × String))) :
    (weekVarKeys clinicians target shiftRows vacBy).Nodup := by
  unfold weekVarKeys
  refine foldl_preserve (fun (acc : List VarKey) => acc.Nodup) _ _ []
    List.nodup_nil ?_
  intro acc c _ hacc
  refine foldl_preserve (fun (acc : List VarKey) => acc.Nodup) _ target acc hacc ?_
  intro acc' d _ hacc'
  split
  · exact hacc'
  · refine foldl_preserve (fun (acc : List VarKey) => acc.Nodup) _ shiftRows acc' hacc' ?_
    intro acc'' t _ hacc''
    split
    · exact addKey_nodup _ hacc''
    · exact hacc''

theorem aget_aappend_self {κ β : Type} [DecidableEq κ] (l : List (κ × List β))
    (k : κ) (x : β) :
    aget (aappend l k x) k = some (((aget l k).getD []) ++ [x]) := by
  induction l with
  | nil => simp [aappend, aget]
  | cons p t ih =>
      rcases p with ⟨pk, pv⟩
      by_cases hk : pk = k
      · simp [aappend, aget, hk]
      · simp [aappend, aget, hk, ih]

theorem aget_aappend_other {κ β : Type} [DecidableEq κ] {l : List (κ × List β)}
    {k k' : κ} (x : β) (h : k' ≠ k) :
    aget (aappend l k x) k' = aget l k' := by
  have hne : ¬ k = k' := fun hh => h hh.symm
  induction l with
  | nil => simp [aappend, aget, hne]
  | cons p t ih =>
      rcases p with ⟨pk, pv⟩
      by_cases hk : pk = k
      · subst hk
        simp [aappend, aget, hne]
      · by_cases hk' : pk = k'
        · simp [aappend, aget, hk, hk', h]
        · simp [aappend, aget, hk, hk', ih]

/-- A live-slot assignment in the context range by a non-vacationing
clinician always appears in `manual_assignments`. -/
theorem weekManual_mem (assignments : List Assignment) (dayIsos shiftRowIds : List String)
    (vacBy : List (String × List (String × String))) (a : Assignment)
    (ha : a ∈ assignments) (h1 : shiftRowIds.contains a.rowId = true)
    (h2 : dayIsos.contains a.dateISO = true)
    (h3 : is_on_vac vacBy a.clinicianId a.dateISO = false) :
    1 ≤ ((aget (weekManualAssignments assignments dayIsos shiftRowIds vacBy)
          (a.clinicianId, a.dateISO)).getD []).length := by
  unfold weekManualAssignments
  have step_mono : ∀ (acc : List ((String × String) × List String)) (b : Assignment),
      1 ≤ ((aget acc (a.clinicianId, a.dateISO)).getD []).length →
      1 ≤ ((aget ((fun acc b =>
            if !shiftRowIds.contains b.rowId then acc
            else if !dayIsos.contains b.dateISO then acc
            else if is_on_vac vacBy b.clinicianId b.dateISO then acc
            else aappend acc (b.clinicianId, b.dateISO) b.rowId) acc b)
          (a.clinicianId, a.dateISO)).getD []).length := by
    intro acc b hlen
    dsimp only
    split
    · exact hlen
    · split
      · exact hlen
      · split
        · exact hlen
        · by_cases hkey : (a.clinicianId, a.dateISO) = (b.clinicianId, b.dateISO)
          · rw [← hkey, aget_aappend_self]
            simp only [Option.getD_some, List.length_append]
            omega
          · rw [aget_aappend_other _ hkey]
            exact hlen
  have main : ∀ (l : List Assignment) (acc : List ((String × String) × List String)),
      (a ∈ l ∨ 1 ≤ ((aget acc (a.clinicianId, a.dateISO)).getD []).length) →
      1 ≤ ((aget (l.foldl (fun acc b =>
            if !shiftRowIds.contains b.rowId then acc
            else if !dayIsos.contains b.dateISO then acc
            else if is_on_vac vacBy b.clinicianId b.dateISO then acc
            else aappend acc (b.clinicianId, b.dateISO) b.rowId) acc)
          (a.clinicianId, a.dateISO)).getD []).length := by
    intro l
    induction l with
    | nil =>
        intro acc h
        rcases h with h | h
        · cases h
        · exact h
    | cons b t ih =>
        intro acc h
        rcases h with h | h
        · rcases List.mem_cons.mp h with rfl | hat
          · refine ih _ (Or.inr ?_)
            have h1' : a.rowId ∈ shiftRowIds := by simpa using h1
            have h2' : a.dateISO ∈ dayIsos := by simpa using h2
            dsimp only
            rw [if_neg (by simp [h1']), if_neg (by simp [h2']), if_neg (by simp [h3]),
              aget_aappend_self]
            simp
          · exact ih _ (Or.inl hat)
        · exact ih _ (Or.inr (step_mono acc b h))
  exact main assignments [] (Or.inl ha)

/-- Every query to `parseDateISO` that succeeds returns a positive ordinal. -/
theorem parseDateISO_pos {s : String} {z : Nat} (h : parseDateISO s = some z) :
    1 ≤ z := by
  unfold parseDateISO at h
  split at h
  · split at h
    · dsimp only at h
      split at h
      · next hrange =>
          rcases Option.some.inj h with rfl
          simp only [Bool.and_eq_true, decide_eq_true_eq] at hrange
          unfold ordinalOfYMD
          dsimp only
          split_ifs <;> omega
      · exact Option.noConfusion h
    · exact Option.noConfusion h
  · exact Option.noConfusion h

/-- The target range is contained in the context range. -/
theorem target_mem_dayIsos {rs re : Nat} (hrs : 1 ≤ rs) {x : String}
    (hx : x ∈ weekTargetIsosOf rs re) : x ∈ weekDayIsosOf rs re := by
  unfold weekTargetIsosOf at hx
  unfold weekDayIsosOf
  obtain ⟨o, ho, rfl⟩ := List.mem_map.mp hx
  obtain ⟨i, hi, rfl⟩ := List.mem_map.mp ho
  have hi' := List.mem_range.mp hi
  refine List.mem_map.mpr ⟨(rs - 1) + (i + 1), List.mem_map.mpr ⟨i + 1,
    List.mem_range.mpr (by omega), rfl⟩, ?_⟩
  congr 1
  omega

/-! ### Counting returned assignments per clinician and day -/

/-- The returned assignments of a clinician on a date are exactly the
variables of that clinician and date valued 1. -/
theorem weekAssignments_count (B : WeekBuilt) (sol : Var → Int) (cid d : String) :
    ((weekAssignments B sol).filter
        (fun a => a.clinicianId == cid && a.dateISO == d)).length =
      (B.varKeys.filter (fun k => k.1 == cid && k.2.1 == d)).countP
        (fun k => sol (xvar k) == 1) := by
  unfold weekAssignments
  generalize B.varKeys = l
  induction l with
  | nil => rfl
  | cons k t ih =>
      by_cases h1 : sol (xvar k) = 1 <;>
        by_cases h2 : (k.1 == cid && k.2.1 == d) = true <;>
        simp [List.filterMap_cons, List.filter_cons, List.countP_cons, h1, h2, ih]

/-- The per-day cap constraint generated for a clinician record and a target
date with at least one decision variable is in the cap-constraint list. -/
theorem weekCapCons_mem (clinicians : List Clinician) (target : List String)
    (varKeys : List VarKey) (manual : List ((String × String) × List String))
    {c : Clinician} (hc : c ∈ clinicians) {d : String} (hd : d ∈ target)
    (hne : varKeys.filter (fun k => k.1 == c.id && k.2.1 == d) ≠ []) :
    (if 1 ≤ ((aget manual (c.id, d)).getD []).length then
       (⟨(varKeys.filter (fun k => k.1 == c.id && k.2.1 == d)).map xterm,
         Rel.eq, 0⟩ : LinCon)
     else ⟨(varKeys.filter (fun k => k.1 == c.id && k.2.1 == d)).map xterm,
         Rel.le, 1⟩)
      ∈ weekCapCons clinicians target varKeys manual := by
  have hne' : (varKeys.filter (fun k => k.1 == c.id && k.2.1 == d)).isEmpty = false := by
    simpa [List.isEmpty_iff] using hne
  unfold weekCapCons
  refine List.mem_flatMap.mpr ⟨c, hc, List.mem_flatMap.mpr ⟨d, hd, ?_⟩⟩
  dsimp only
  by_cases hman : 1 ≤ ((aget manual (c.id, d)).getD []).length
  · rw [if_pos hman, if_pos hman, if_pos (by simp [hne'])]
    simp
  · rw [if_neg hman, if_neg hman, if_pos (by simp [hne'])]
    simp

/-! ### C10 — the undocumented per-day cap -/

/-- **C10** — With `allowMultipleShiftsPerDay` false (its default after
normalisation), every feasible solution of the range solver carries at most
one returned assignment per clinician per date, and zero returned
assignments for a clinician on a date on which the clinician already holds a
live-slot manual assignment while not on vacation (a nonempty
`manual_assignments` entry); the setting itself appears nowhere in the
specification. -/
theorem per_day_cap_and_manual_day_exclusion (state : AppState)
    (payload : SolveWeekRequest) (B : WeekBuilt)
    (hb : solve_week_build state payload = .ok B)
    (hmult : B.settings.allowMultipleShiftsPerDay = false)
    (sol : Var → Int) (hfeas : Feasible B.model sol) (cid d : String) :
    ((weekAssignments B sol).filter
        (fun a => a.clinicianId == cid && a.dateISO == d)).length ≤ 1 ∧
    (((aget B.manual (cid, d)).getD []) ≠ [] →
      (weekAssignments B sol).filter
        (fun a => a.clinicianId == cid && a.dateISO == d) = []) := by
  obtain ⟨rs, re, st, hrs, hst, rfl⟩ := solve_week_build_ok hb
  rw [week_core_settings] at hmult
  rw [week_core_manual]
  have hcount := weekAssignments_count
    (solve_week_core state payload.only_fill_required st rs re) sol cid d
  rw [week_core_varKeys] at hcount
  have h01 : ∀ k ∈ weekVarKeysOf state rs re, sol (xvar k) = 0 ∨ sol (xvar k) = 1 := by
    intro k hk
    refine feasible_dom_bool hfeas ?_
    rw [week_core_boolVars]
    exact List.mem_append_left _ (List.mem_append_left _ (List.mem_map_of_mem xvar hk))
  by_cases hFe :
      (weekVarKeysOf state rs re).filter (fun k => k.1 == cid && k.2.1 == d) = []
  · rw [hFe] at hcount
    simp only [List.countP_nil] at hcount
    have hnil := List.length_eq_zero.mp hcount
    exact ⟨by rw [hnil]; simp, fun _ => hnil⟩
  · obtain ⟨k₀, hk₀⟩ := List.exists_mem_of_ne_nil _ hFe
    have hk₀L : k₀ ∈ weekVarKeysOf state rs re := List.mem_of_mem_filter hk₀
    have hk₀p := List.of_mem_filter hk₀
    rw [Bool.and_eq_true] at hk₀p
    obtain ⟨hp1, hp2⟩ := hk₀p
    have hc1 : k₀.1 = cid := by simpa using hp1
    have hd1 : k₀.2.1 = d := by simpa using hp2
    obtain ⟨c, hc, d', hd', t, ht, hkeq, hvac, hqual⟩ :=
      weekVarKeys_spec state.clinicians (weekTargetIsosOf rs re)
        (weekShiftRows (classRowsOf state)) (vacByClinician state.clinicians) k₀ hk₀L
    have hcid : c.id = cid := by rw [hkeq] at hc1; exact hc1
    have hdd : d' = d := by rw [hkeq] at hd1; exact hd1
    subst hdd
    subst hcid
    have hmem := weekCapCons_mem state.clinicians (weekTargetIsosOf rs re)
      (weekVarKeysOf state rs re) (weekManualOf state rs re) hc hd' hFe
    have hconsub : ∀ con ∈ weekCapCons state.clinicians (weekTargetIsosOf rs re)
        (weekVarKeysOf state rs re) (weekManualOf state rs re),
        con ∈ (solve_week_core state payload.only_fill_required st rs re).model.cons := by
      intro con hcon
      rw [week_core_cons]
      refine List.mem_append_left _ (List.mem_append_left _ (List.mem_append_left _ ?_))
      rw [weekCapConsOf, if_neg (by simp [hmult])]
      exact hcon
    have hsum := sum_eq_countP sol
      ((weekVarKeysOf state rs re).filter (fun k => k.1 == c.id && k.2.1 == d'))
      (fun k hk => h01 k (List.mem_of_mem_filter hk))
    by_cases hman : 1 ≤ ((aget (weekManualOf state rs re) (c.id, d')).getD []).length
    · rw [if_pos hman] at hmem
      have hcon := con_eq (feasible_con hfeas (hconsub _ hmem))
      rw [evalTerms_map_xterm, hsum] at hcon
      have hcnt : ((weekVarKeysOf state rs re).filter
          (fun k => k.1 == c.id && k.2.1 == d')).countP (fun k => sol (xvar k) == 1) = 0 := by
        exact_mod_cast hcon
      rw [hcnt] at hcount
      have hnil := List.length_eq_zero.mp hcount
      exact ⟨by rw [hnil]; simp, fun _ => hnil⟩
    · rw [if_neg hman] at hmem
      have hcon := con_le (feasible_con hfeas (hconsub _ hmem))
      rw [evalTerms_map_xterm, hsum] at hcon
      have hcnt : ((weekVarKeysOf state rs re).filter
          (fun k => k.1 == c.id && k.2.1 == d')).countP (fun k => sol (xvar k) == 1) ≤ 1 := by
        exact_mod_cast hcon
      refine ⟨by rw [hcount]; exact hcnt, ?_⟩
      intro hne
      exact absurd (List.length_pos.mpr hne) (by omega)

/-! ### Concrete fixtures -/

/-- An empty application state used to instantiate the solver theorems. -/
def emptyState : AppState :=
  { locations := [], locationsEnabled := false, rows := [], clinicians := []
    assignments := [], minSlotsByRowId := [], slotOverridesByKey := []
    holidays := [], solverSettings := [], solverRules := [] }

/-- The all-zero valuation. -/
def zeroSol : Var → Int := fun _ => 0

/-- A one-day range request (2026-01-05 has ordinal 739926). -/
def emptyWeekReq : SolveWeekRequest := ⟨"2026-01-05", some "2026-01-05", false⟩

/-- A day request on the same date. -/
def emptyDayReq : SolveDayRequest := ⟨"2026-01-05", false⟩

/-- The settings record parsed from an empty settings dict. -/
def emptySettingsRec : SolverSettingsRec := ⟨false, false, false, Option.none, 1, 1⟩

/-- The range-solver build on the empty state. -/
def emptyWeekBuilt : WeekBuilt :=
  solve_week_core emptyState false emptySettingsRec 739926 739926

/-- The day-solver build on the empty state. -/
def emptyDayBuilt : DayBuilt := solve_day_core emptyState emptyDayReq

/-- Witness for the C10 theorem at a concrete build and the zero valuation. -/
theorem per_day_cap_and_manual_day_exclusion_witness :
    ((weekAssignments emptyWeekBuilt zeroSol).filter
        (fun a => a.clinicianId == "c1" && a.dateISO == "2026-01-05")).length ≤ 1 ∧
    (((aget emptyWeekBuilt.manual ("c1", "2026-01-05")).getD []) ≠ [] →
      (weekAssignments emptyWeekBuilt zeroSol).filter
        (fun a => a.clinicianId == "c1" && a.dateISO == "2026-01-05") = []) :=
  per_day_cap_and_manual_day_exclusion emptyState emptyWeekReq emptyWeekBuilt rfl rfl
    zeroSol ⟨rfl, rfl⟩ "c1" "2026-01-05"

/-- Witness for the C9 theorem: both solvers on a concrete state. -/
theorem no_solution_and_slack_note_witness :
    solve_day_result emptyDayBuilt .noSolution = ⟨[], ["No solution"]⟩ ∧
    solve_week_result emptyWeekBuilt .noSolution = ⟨[], ["No solution"]⟩ ∧
    ("Could not fill all required slots." ∈
        (solve_day_result emptyDayBuilt (.sol zeroSol)).notes ↔
      0 < (emptyDayBuilt.slackTerms.map (fun p => zeroSol p.2)).sum) ∧
    ("Could not fill all required slots." ∈
        (solve_week_result emptyWeekBuilt (.sol zeroSol)).notes ↔
      0 < (emptyWeekBuilt.slackTerms.map (fun p => zeroSol p.2)).sum) :=
  no_solution_and_slack_note emptyState emptyDayReq emptyWeekReq emptyDayBuilt
    emptyWeekBuilt rfl rfl (fun r hr => absurd hr (List.not_mem_nil r)) zeroSol zeroSol
    ⟨rfl, rfl⟩ ⟨rfl, rfl⟩

/-- A state whose settings dict switches `preferContinuousShifts` on. -/
def contState : AppState :=
  { locations := [], locationsEnabled := false, rows := [], clinicians := []
    assignments := [], minSlotsByRowId := [], slotOverridesByKey := []
    holidays := [], solverSettings := [("preferContinuousShifts", SettingVal.b true)]
    solverRules := [] }

/-- The range-solver build on the continuity-enabled state. -/
def contWeekBuilt : WeekBuilt :=
  solve_week_core contState false emptySettingsRec 739926 739926

/-- Witness for the C1 theorem at a concrete continuity-enabled build. -/
theorem continuity_single_span_witness :
    contiguousSet (solDayIntervals contWeekBuilt zeroSol "c1" "2026-01-05") :=
  continuity_single_span contState emptyWeekReq contWeekBuilt rfl zeroSol
    ⟨⟨rfl, rfl⟩, fun _ cid d _ p hp => absurd hp (List.not_mem_nil p)⟩ rfl
    "c1" "2026-01-05" (by decide)

/-! ### C6 / C7 — normaliser behaviour on deprecated pools and idempotence -/

/-- A state carrying both deprecated pool rows and an assignment to one. -/
def c6state : AppState :=
  { locations := [], locationsEnabled := false
    rows := [{ id := "pool-not-allocated", name := "Distribution Pool", kind := "pool" },
             { id := "pool-manual", name := "Reserve Pool", kind := "pool" }]
    clinicians := []
    assignments := [{ id := "a1", rowId := "pool-not-allocated",
                      dateISO := "2026-01-05", clinicianId := "c1" }]
    minSlotsByRowId := [], slotOverridesByKey := [], holidays := []
    solverSettings := defaultSolverSettings, solverRules := [] }

/-- **C6** — Contrary to the claim (and the repository's own normalisation
tests), `_normalize_state` retains the deprecated pool rows
`pool-not-allocated` and `pool-manual` and keeps assignments to them: on a
state holding both pool rows and a `pool-not-allocated` assignment, both
rows and the assignment survive normalisation unchanged. -/
theorem deprecated_pools_retained :
    ((normalize_state c6state).1.rows.map (fun r => r.id)) =
        ["pool-not-allocated", "pool-manual"] ∧
    ((normalize_state c6state).1.assignments.map (fun a => a.rowId)) =
        ["pool-not-allocated"] :=
  ⟨rfl, rfl⟩

/-- A state whose class `c` has the single sub-shift `night` and a bare
override key `c__2026-01-05`. -/
def c7state : AppState :=
  { locations := [], locationsEnabled := false
    rows := [{ id := "c", name := "C", kind := "class"
               locationId := some DEFAULT_LOCATION_ID
               subShifts := [{ id := "night", name := "Night", order := 1 }] }]
    clinicians := [], assignments := [], minSlotsByRowId := []
    slotOverridesByKey := [("c__2026-01-05", 3)], holidays := []
    solverSettings := defaultSolverSettings, solverRules := [] }

/-- **C7** — Normalisation is not idempotent: the override remap of a bare
class key hard-codes the sub-shift `s1` even when the class's first sub-shift
has a different id, so the first pass rewrites `c__2026-01-05` to
`c::s1__2026-01-05` and the second pass rewrites it again to
`c::night__2026-01-05`, reporting `changed = true` on the second run. -/
theorem normalize_state_not_idempotent :
    (normalize_state (normalize_state c7state).1).1 ≠ (normalize_state c7state).1 ∧
    (normalize_state (normalize_state c7state).1).2 = true := by
  exact ⟨by decide, rfl⟩

/-! ### C8 — override aggregation by summation -/

theorem aget_aset_self {κ α : Type} [DecidableEq κ] (l : List (κ × α)) (k : κ) (v : α) :
    aget (aset l k v) k = some v := by
  induction l with
  | nil => simp [aset, aget]
  | cons p t ih =>
      rcases p with ⟨pk, pv⟩
      by_cases hk : pk = k
      · simp [aset, aget, hk]
      · simp [aset, aget, hk, ih]

theorem aget_aset_other {κ α : Type} [DecidableEq κ] {l : List (κ × α)} {k k' : κ}
    (v : α) (h : k' ≠ k) :
    aget (aset l k v) k' = aget l k' := by
  have hne : ¬ k = k' := fun hh => h hh.symm
  induction l with
  | nil => simp [aset, aget, hne]
  | cons p t ih =>
      rcases p with ⟨pk, pv⟩
      by_cases hk : pk = k
      · subst hk
        simp [aset, aget, hne]
      · by_cases hk' : pk = k'
        · simp [aset, aget, hk, hk', h]
        · simp [aset, aget, hk, hk', ih]

/-- The override-rebuild fold, generalised over the accumulator: the value
stored under a key is the accumulator's value plus the sum of the entries
remapping onto that key. -/
theorem normalizeOverrides_fold (classRowIds : List String)
    (subShiftIdsByClass : List (String × List String)) (K : String) :
    ∀ (overrides : List (String × Int)) (acc : List (String × Int) × Bool),
      (aget (overrides.foldl
          (fun (acc : List (String × Int) × Bool) entry =>
            match remapOverrideKey classRowIds subShiftIdsByClass entry.1 with
            | (none, c) => (acc.1, acc.2 || c)
            | (some nextKey, c) =>
                (aset acc.1 nextKey ((aget acc.1 nextKey).getD 0 + entry.2), acc.2 || c))
          acc).1 K).getD 0 =
        (aget acc.1 K).getD 0 +
          ((overrides.filter
              (fun e =>
                (remapOverrideKey classRowIds subShiftIdsByClass e.1).1 = some K)).map
            (fun e => e.2)).sum
  | [], acc => by simp
  | e :: t, acc => by
      have ih := normalizeOverrides_fold classRowIds subShiftIdsByClass K t
      rcases hr : remapOverrideKey classRowIds subShiftIdsByClass e.1 with ⟨nk, c⟩
      rcases nk with _ | nk
      · simp only [List.foldl_cons, List.filter_cons, hr]
        rw [ih]
        simp [hr]
      · by_cases hK : nk = K
        · subst hK
          simp only [List.foldl_cons, List.filter_cons, hr]
          rw [ih]
          simp only [hr, aget_aset_self, Option.getD_some, List.map_cons, List.sum_cons]
          have hd : (decide ((some nk : Option String) = some nk)) = true := by simp
          simp [hd]
          ring
        · have hne : K ≠ nk := fun hh => hK hh.symm
          simp only [List.foldl_cons, List.filter_cons, hr]
          rw [ih, aget_aset_other _ hne]
          simp [hr, hK]

/-- **C8** — The normalised override value stored under any key equals the
sum of the input override values of all entries whose key remaps onto it: in
particular, when two or more pre-normalisation keys collapse to one key the
stored value is the sum of their inputs. -/
theorem override_aggregation (classRowIds : List String)
    (subShiftIdsByClass : List (String × List String))
    (overrides : List (String × Int)) (K : String) :
    (aget (normalizeOverrides classRowIds subShiftIdsByClass overrides).1 K).getD 0 =
      ((overrides.filter
          (fun e =>
            (remapOverrideKey classRowIds subShiftIdsByClass e.1).1 = some K)).map
        (fun e => e.2)).sum := by
  have h := normalizeOverrides_fold classRowIds subShiftIdsByClass K overrides ([], false)
  unfold normalizeOverrides
  simpa [aget] using h

/-! ### C5 — vacations -/

/-- Modelled from the spec: no returned assignment dated inside any vacation
range (inclusive both ends) of any clinician record bearing its clinician
id. -/
def VacationRespected (clinicians : List Clinician) (asgns : List Assignment) : Prop :=
  ∀ a ∈ asgns, ∀ c ∈ clinicians, c.id = a.clinicianId →
    ∀ v ∈ c.vacations,
      ¬(strLe v.startISO a.dateISO = true ∧ strLe a.dateISO v.endISO = true)

/-- A returned range-solver assignment comes from a decision variable
valued 1. -/
theorem mem_weekAssignments {B : WeekBuilt} {sol : Var → Int} {a : Assignment}
    (ha : a ∈ weekAssignments B sol) :
    ∃ k ∈ B.varKeys, sol (xvar k) = 1 ∧ a.clinicianId = k.1 ∧ a.dateISO = k.2.1 ∧
      a.rowId = k.2.2 := by
  unfold weekAssignments at ha
  obtain ⟨k, hk, hf⟩ := List.mem_filterMap.mp ha
  by_cases h1 : sol (xvar k) = 1
  · rw [if_pos h1] at hf
    rcases Option.some.inj hf with rfl
    exact ⟨k, hk, h1, rfl, rfl, rfl⟩
  · rw [if_neg h1] at hf
    exact Option.noConfusion hf

/-- A returned day-solver assignment comes from a decision variable
valued 1. -/
theorem mem_dayAssignments {B : DayBuilt} {sol : Var → Int} {a : Assignment}
    (ha : a ∈ dayAssignments B sol) :
    ∃ k ∈ B.varKeys, sol (dxvar k) = 1 ∧ a.clinicianId = k.1 ∧ a.dateISO = B.dateISO ∧
      a.rowId = k.2 := by
  unfold dayAssignments at ha
  obtain ⟨k, hk, hf⟩ := List.mem_filterMap.mp ha
  by_cases h1 : sol (dxvar k) = 1
  · rw [if_pos h1] at hf
    rcases Option.some.inj hf with rfl
    exact ⟨k, hk, h1, rfl, rfl, rfl⟩
  · rw [if_neg h1] at hf
    exact Option.noConfusion hf

/-- Every day-solver variable key names a free clinician record. -/
theorem dayVarKeys_spec (state : AppState) (d : String) :
    ∀ k ∈ dayVarKeysOf state d, ∃ c ∈ dayFreeCliniciansOf state d, k.1 = c.id := by
  unfold dayVarKeysOf
  refine foldl_preserve
    (fun (acc : List DVarKey) => ∀ k ∈ acc, ∃ c ∈ dayFreeCliniciansOf state d, k.1 = c.id)
    _ _ [] (fun k hk => absurd hk (List.not_mem_nil k)) ?_
  intro acc c hc hacc
  refine foldl_preserve
    (fun (acc : List DVarKey) => ∀ k ∈ acc, ∃ c ∈ dayFreeCliniciansOf state d, k.1 = c.id)
    _ _ acc hacc ?_
  intro acc' t ht hacc'
  split
  · intro k hk
    rcases addKey_mem hk with hk' | rfl
    · exact hacc' k hk'
    · exact ⟨c, hc, rfl⟩
  · exact hacc'

/-- **C5** — Amended: returned assignments never violate the vacation
calendar as each solver consults it — the range solver's `vac_by_clinician`
dict (where the last clinician record with a given id wins) and the day
solver's per-record `vacation_ids`.  Under duplicate clinician ids the range
solver can still violate an earlier record's vacations (see the
counterexample), so the per-record reading of the original claim is false. -/
theorem no_vacation_violation_amended (state : AppState)
    (wReq : SolveWeekRequest) (dReq : SolveDayRequest)
    (Bw : WeekBuilt) (Bd : DayBuilt)
    (hbw : solve_week_build state wReq = .ok Bw)
    (hbd : solve_day_build state dReq = .ok Bd)
    (solw sold : Var → Int) :
    (∀ a ∈ weekAssignments Bw solw,
       is_on_vac (vacByClinician state.clinicians) a.clinicianId a.dateISO = false) ∧
    (∀ a ∈ dayAssignments Bd sold,
       (dayVacationIdsOf state a.dateISO).contains a.clinicianId = false) := by
  obtain ⟨rs, re, st, hrs, hst, rfl⟩ := solve_week_build_ok hbw
  rcases solve_day_build_ok hbd with rfl
  constructor
  · intro a ha
    obtain ⟨k, hk, hsol, hc, hd, hr⟩ := mem_weekAssignments ha
    rw [week_core_varKeys] at hk
    obtain ⟨c, _, d', _, t, _, hkeq, hvac, _⟩ :=
      weekVarKeys_spec state.clinicians (weekTargetIsosOf rs re)
        (weekShiftRows (classRowsOf state)) (vacByClinician state.clinicians) k hk
    rw [hc, hd, hkeq]
    exact hvac
  · intro a ha
    obtain ⟨k, hk, hsol, hc, hd, hr⟩ := mem_dayAssignments ha
    rw [day_core_varKeys] at hk
    obtain ⟨c, hcf, hk1⟩ := dayVarKeys_spec state dReq.dateISO k hk
    have hp := List.of_mem_filter hcf
    rw [Bool.and_eq_true] at hp
    have hdd : (solve_day_core state dReq).dateISO = dReq.dateISO := rfl
    rw [hc, hk1, hd, hdd]
    simpa using hp.2

/-- Shorthand for the sub-shifts of the counterexample states. -/
def mkShift (i : String) (o : Int) (st en : String) : SubShift :=
  { id := i, name := i, order := o, startTime := some st, endTime := some en
    endDayOffset := some 0, hours := none }

/-- The default location record of the counterexample states. -/
def defLoc : Location := { id := "loc-default", name := "Default" }

/-- Counterexample state for C5: two clinician records share the id `c`; the
first is on vacation on 2026-01-05, the last is not. -/
def s5state : AppState :=
  { locations := [defLoc], locationsEnabled := true
    rows := [{ id := "secA", name := "A", kind := "class"
               locationId := some "loc-default"
               subShifts := [mkShift "s1" 1 "08:00" "12:00"] }]
    clinicians := [{ id := "c", name := "C1", qualifiedClassIds := ["secA"]
                     preferredClassIds := []
                     vacations := [{ id := "v1", startISO := "2026-01-05"
                                     endISO := "2026-01-05" }] },
                   { id := "c", name := "C2", qualifiedClassIds := ["secA"]
                     preferredClassIds := [], vacations := [] }]
    assignments := [], minSlotsByRowId := [], slotOverridesByKey := []
    holidays := [], solverSettings := defaultSolverSettings, solverRules := [] }

/-- The range-solver build on `s5state` for 2026-01-05. -/
def s5Built : WeekBuilt := solve_week_core s5state false emptySettingsRec 739926 739926

/-- The all-one valuation (selects the single decision variable). -/
def s5Sol : Var → Int := fun _ => 1

/-- The day-solver build on `s5state` for 2026-01-05. -/
def s5DayBuilt : DayBuilt := solve_day_core s5state ⟨"2026-01-05", false⟩

/-- C5 counterexample: the build succeeds, the all-one valuation is optimal,
and the one returned assignment falls on the first `c` record's vacation
day — the per-record no-vacation property of the claim fails. -/
theorem vacation_violation_counterexample :
    solve_week_build s5state ⟨"2026-01-05", some "2026-01-05", false⟩ = .ok s5Built ∧
    Optimal s5Built.model s5Sol ∧
    ¬ VacationRespected s5state.clinicians (weekAssignments s5Built s5Sol) := by
  refine ⟨rfl, ⟨⟨rfl, rfl⟩, ?_⟩, ?_⟩
  · intro sol' hf
    have hb := feasible_dom_bool hf
      (show Var.x "c" "2026-01-05" "secA::s1" ∈ s5Built.model.boolVars by decide)
    have hobj : s5Built.model.objective =
        [(-130, Var.x "c" "2026-01-05" "secA::s1"),
         (0, Var.x "c" "2026-01-05" "secA::s1")] := rfl
    simp only [objVal, hobj, evalTerms, List.map_cons, List.map_nil, List.sum_cons,
      List.sum_nil, s5Sol]
    rcases hb with h | h <;> rw [h] <;> norm_num
  · intro h
    exact (h { id := "as-2026-01-05-c-secA::s1", rowId := "secA::s1"
               dateISO := "2026-01-05", clinicianId := "c" } (by decide)
        { id := "c", name := "C1", qualifiedClassIds := ["secA"]
          preferredClassIds := []
          vacations := [{ id := "v1", startISO := "2026-01-05"
                          endISO := "2026-01-05" }] } (by decide) rfl
        { id := "v1", startISO := "2026-01-05", endISO := "2026-01-05" } (by decide))
      ⟨by decide, by decide⟩

/-- Witness for the C5 amended theorem on the counterexample state itself. -/
theorem no_vacation_violation_amended_witness :
    (∀ a ∈ weekAssignments s5Built s5Sol,
       is_on_vac (vacByClinician s5state.clinicians) a.clinicianId a.dateISO = false) ∧
    (∀ a ∈ dayAssignments s5DayBuilt s5Sol,
       (dayVacationIdsOf s5state a.dateISO).contains a.clinicianId = false) :=
  no_vacation_violation_amended s5state ⟨"2026-01-05", some "2026-01-05", false⟩
    ⟨"2026-01-05", false⟩ s5Built s5DayBuilt rfl rfl s5Sol s5Sol

/-! ### C3 — pairwise non-overlap -/

/-- Intervals of one clinician in a range-solver solution: the absolute
intervals of the returned assignments plus every manual live-slot interval
of the context range. -/
def clinicianIntervals (B : WeekBuilt) (sol : Var → Int) (cid : String) :
    List (Nat × Nat) :=
  ((weekAssignments B sol).filter (fun a => a.clinicianId == cid)).filterMap
    (fun a => asgnAbsInterval B a) ++
  B.manual.flatMap (fun e =>
    if e.1.1 == cid then e.2.filterMap (fun rid => manualAbsInterval B e.1.2 rid)
    else [])

/-- Modelled from the spec: for each clinician the assigned intervals
(returned ∪ manual) are pairwise non-overlapping, where `[s1,e1)` and
`[s2,e2)` overlap iff `e1 > s2 ∧ e2 > s1`. -/
def NoOverlap (B : WeekBuilt) (sol : Var → Int) : Prop :=
  ∀ cid : String, (clinicianIntervals B sol cid).Pairwise
    (fun p q => ¬(q.1 < p.2 ∧ p.1 < q.2))

theorem week_core_shiftIntervals (s : AppState) (f : Bool) (st : SolverSettingsRec)
    (rs re : Nat) :
    (solve_week_core s f st rs re).shiftIntervals =
      build_shift_intervals (classRowsOf s) := rfl

theorem week_core_dayIndexByIso (s : AppState) (f : Bool) (st : SolverSettingsRec)
    (rs re : Nat) :
    (solve_week_core s f st rs re).dayIndexByIso = weekDayIndexOf rs re := rfl

/-- A returned assignment is fully determined by its decision variable. -/
theorem mem_weekAssignments_eq {B : WeekBuilt} {sol : Var → Int} {a : Assignment}
    (ha : a ∈ weekAssignments B sol) :
    ∃ k ∈ B.varKeys, sol (xvar k) = 1 ∧
      a = { id := "as-" ++ k.2.1 ++ "-" ++ k.1 ++ "-" ++ k.2.2
            rowId := k.2.2, dateISO := k.2.1, clinicianId := k.1 } := by
  unfold weekAssignments at ha
  obtain ⟨k, hk, hf⟩ := List.mem_filterMap.mp ha
  by_cases h1 : sol (xvar k) = 1
  · rw [if_pos h1] at hf
    exact ⟨k, hk, h1, (Option.some.inj hf).symm⟩
  · rw [if_neg h1] at hf
    exact Option.noConfusion hf

theorem xvar_inj {k₁ k₂ : VarKey} (h : xvar k₁ = xvar k₂) : k₁ = k₂ := by
  rcases k₁ with ⟨a, b, c⟩
  rcases k₂ with ⟨a', b', c'⟩
  unfold xvar at h
  injection h with h1 h2 h3
  subst h1
  subst h2
  subst h3
  rfl

theorem asgnAbsInterval_eq {B : WeekBuilt} {a : Assignment} {p : Nat × Nat}
    (h : asgnAbsInterval B a = some p) :
    ∃ iv di, aget B.shiftIntervals a.rowId = some iv ∧
      aget B.dayIndexByIso a.dateISO = some di ∧
      p = (iv.1 + di * (24 * 60), iv.2.1 + di * (24 * 60)) := by
  unfold asgnAbsInterval at h
  cases hiv : aget B.shiftIntervals a.rowId with
  | none => rw [hiv] at h; exact Option.noConfusion h
  | some iv =>
      rw [hiv] at h
      cases hdi : aget B.dayIndexByIso a.dateISO with
      | none => rw [hdi] at h; exact Option.noConfusion h
      | some di => rw [hdi] at h; exact ⟨iv, di, rfl, rfl, (Option.some.inj h).symm⟩

theorem manualAbsInterval_eq {B : WeekBuilt} {dIso rid : String} {p : Nat × Nat}
    (h : manualAbsInterval B dIso rid = some p) :
    ∃ iv di, aget B.shiftIntervals rid = some iv ∧
      aget B.dayIndexByIso dIso = some di ∧
      p = (iv.1 + di * (24 * 60), iv.2.1 + di * (24 * 60)) := by
  unfold manualAbsInterval at h
  cases hiv : aget B.shiftIntervals rid with
  | none => rw [hiv] at h; exact Option.noConfusion h
  | some iv =>
      rw [hiv] at h
      cases hdi : aget B.dayIndexByIso dIso with
      | none => rw [hdi] at h; exact Option.noConfusion h
      | some di => rw [hdi] at h; exact ⟨iv, di, rfl, rfl, (Option.some.inj h).symm⟩

theorem pairsUpper_mem {α : Type} {x y : α} :
    ∀ {l : List α}, x ∈ l → y ∈ l → x ≠ y →
      (x, y) ∈ pairsUpper l ∨ (y, x) ∈ pairsUpper l := by
  intro l
  induction l with
  | nil => intro hx; cases hx
  | cons a t ih =>
      intro hx hy hne
      rcases List.mem_cons.mp hx with rfl | hx'
      · rcases List.mem_cons.mp hy with rfl | hy'
        · exact absurd rfl hne
        · exact Or.inl (List.mem_append_left _ (List.mem_map_of_mem _ hy'))
      · rcases List.mem_cons.mp hy with rfl | hy'
        · exact Or.inr (List.mem_append_left _ (List.mem_map_of_mem _ hx'))
        · rcases ih hx' hy' hne with h | h
          · exact Or.inl (List.mem_append_right _ h)
          · exact Or.inr (List.mem_append_right _ h)

theorem overlapB_true {s₁ e₁ s₂ e₂ : Nat} (h₁ : s₂ < e₁) (h₂ : s₁ < e₂) :
    overlapB s₁ e₁ s₂ e₂ = true := by
  simp only [overlapB, Bool.not_eq_true', Bool.or_eq_false_iff,
    decide_eq_false_iff_not, not_le]
  exact ⟨h₁, h₂⟩

/-- The `vars_for_clinician` entry of a resolving decision variable. -/
theorem weekCVars_mem {varKeys : List VarKey}
    {si : List (String × (Nat × Nat × String))} {dib : List (String × Nat)}
    {cid : String} {k : VarKey} (hk : k ∈ varKeys) (hcid : k.1 = cid)
    {iv : Nat × Nat × String} (hiv : aget si k.2.2 = some iv)
    {di : Nat} (hdi : aget dib k.2.1 = some di) :
    (⟨k.2.1, k.2.2, xvar k, iv.1 + di * (24 * 60), iv.2.1 + di * (24 * 60),
       iv.2.2⟩ : CVar) ∈ weekCVars varKeys si dib cid := by
  unfold weekCVars
  refine List.mem_filterMap.mpr ⟨k, hk, ?_⟩
  rw [if_pos (by simp [hcid]), hiv, hdi]

/-- The `manual_entries` entry of a resolving manual assignment. -/
theorem weekMEntries_mem {manual : List ((String × String) × List String)}
    {dib : List (String × Nat)} {si : List (String × (Nat × Nat × String))}
    {cid : String} {e : (String × String) × List String} (he : e ∈ manual)
    (hcid : e.1.1 = cid) {rid : String} (hr : rid ∈ e.2)
    {di : Nat} (hdi : aget dib e.1.2 = some di)
    {iv : Nat × Nat × String} (hiv : aget si rid = some iv) :
    (⟨e.1.2, iv.1 + di * (24 * 60), iv.2.1 + di * (24 * 60), iv.2.2⟩ : MEntry)
      ∈ weekMEntries manual dib si cid := by
  unfold weekMEntries
  refine List.mem_flatMap.mpr ⟨e, he, ?_⟩
  rw [if_pos (by simp [hcid]), hdi]
  refine List.mem_filterMap.mpr ⟨rid, hr, ?_⟩
  rw [hiv]
  rfl

/-- The overlap constraint of an overlapping ordered pair of clinician
variables. -/
theorem overlapCons_pair_mem (el : Bool) {cvars : List CVar} (ments : List MEntry)
    {p q : CVar} (hpq : (p, q) ∈ pairsUpper cvars)
    (hov : overlapB p.absStart p.absEnd q.absStart q.absEnd = true) :
    (⟨[(1, p.v), (1, q.v)], Rel.le, 1⟩ : LinCon) ∈ weekOverlapCons el cvars ments := by
  unfold weekOverlapCons
  refine List.mem_append_left _ (List.mem_flatMap.mpr ⟨(p, q), hpq, ?_⟩)
  rw [if_pos hov]
  exact List.mem_append_left _ (by simp)

/-- The zero-forcing constraint of a variable overlapping a manual entry. -/
theorem overlapCons_manual_mem (el : Bool) {cvars : List CVar} {ments : List MEntry}
    {p : CVar} {m : MEntry} (hp : p ∈ cvars) (hm : m ∈ ments)
    (hov : overlapB p.absStart p.absEnd m.absStart m.absEnd = true) :
    (⟨[(1, p.v)], Rel.le, 0⟩ : LinCon) ∈ weekOverlapCons el cvars ments := by
  unfold weekOverlapCons
  refine List.mem_append_right _
    (List.mem_flatMap.mpr ⟨p, hp, List.mem_flatMap.mpr ⟨m, hm, ?_⟩⟩)
  rw [if_pos hov]
  exact List.mem_append_left _ (by simp)

/-- An overlap-section constraint of any clinician record is in the model. -/
theorem overlap_con_in_model {state : AppState} {f : Bool} {st : SolverSettingsRec}
    {rs re : Nat} {c : Clinician} (hc : c ∈ state.clinicians) {con : LinCon}
    (hcon : con ∈ weekOverlapCons st.enforceSameLocationPerDay
        (weekCVars (weekVarKeysOf state rs re) (build_shift_intervals (classRowsOf state))
          (weekDayIndexOf rs re) c.id)
        (weekMEntries (weekManualOf state rs re) (weekDayIndexOf rs re)
          (build_shift_intervals (classRowsOf state)) c.id)) :
    con ∈ (solve_week_core state f st rs re).model.cons := by
  rw [week_core_cons]
  exact List.mem_append_left _ (List.mem_append_left _ (List.mem_append_right _
    (List.mem_flatMap.mpr ⟨c, hc, hcon⟩)))

/-- **C3** — Amended: for every feasible range-solver solution, each
clinician's returned intervals are pairwise non-overlapping and no returned
interval overlaps a manual interval; overlaps between two manual
assignments are not prevented (see the counterexample). -/
theorem no_overlap_amended (state : AppState) (payload : SolveWeekRequest)
    (B : WeekBuilt) (hb : solve_week_build state payload = .ok B)
    (sol : Var → Int) (hfeas : Feasible B.model sol) :
    (∀ a₁ ∈ weekAssignments B sol, ∀ a₂ ∈ weekAssignments B sol,
       a₁ ≠ a₂ → a₁.clinicianId = a₂.clinicianId →
       ∀ p q, asgnAbsInterval B a₁ = some p → asgnAbsInterval B a₂ = some q →
         ¬(q.1 < p.2 ∧ p.1 < q.2)) ∧
    (∀ a ∈ weekAssignments B sol, ∀ e ∈ B.manual, e.1.1 = a.clinicianId →
       ∀ rid ∈ e.2, ∀ p q, asgnAbsInterval B a = some p →
         manualAbsInterval B e.1.2 rid = some q → ¬(q.1 < p.2 ∧ p.1 < q.2)) := by
  obtain ⟨rs, re, st, hrs, hst, rfl⟩ := solve_week_build_ok hb
  constructor
  · intro a₁ ha₁ a₂ ha₂ hne hcid p q hp hq hov
    obtain ⟨k₁, hk₁, hs₁, he₁⟩ := mem_weekAssignments_eq ha₁
    obtain ⟨k₂, hk₂, hs₂, he₂⟩ := mem_weekAssignments_eq ha₂
    have hkne : k₁ ≠ k₂ := fun h => hne (by rw [he₁, he₂, h])
    obtain ⟨iv₁, di₁, hiv₁, hdi₁, hpe⟩ := asgnAbsInterval_eq hp
    obtain ⟨iv₂, di₂, hiv₂, hdi₂, hqe⟩ := asgnAbsInterval_eq hq
    rw [week_core_varKeys] at hk₁ hk₂
    rw [week_core_shiftIntervals, he₁] at hiv₁
    rw [week_core_shiftIntervals, he₂] at hiv₂
    rw [week_core_dayIndexByIso, he₁] at hdi₁
    rw [week_core_dayIndexByIso, he₂] at hdi₂
    obtain ⟨c, hcmem, d', hd', t, ht, hkeq, _, _⟩ :=
      weekVarKeys_spec state.clinicians (weekTargetIsosOf rs re)
        (weekShiftRows (classRowsOf state)) (vacByClinician state.clinicians) k₁ hk₁
    have hc₁ : k₁.1 = c.id := by rw [hkeq]
    have hc₂ : k₂.1 = c.id := by
      have h1 : a₁.clinicianId = k₁.1 := by rw [he₁]
      have h2 : a₂.clinicianId = k₂.1 := by rw [he₂]
      rw [← h2, ← hcid, h1, hc₁]
    have hcv₁ := weekCVars_mem hk₁ hc₁ hiv₁ hdi₁
    have hcv₂ := weekCVars_mem hk₂ hc₂ hiv₂ hdi₂
    have hcvne : (⟨k₁.2.1, k₁.2.2, xvar k₁, iv₁.1 + di₁ * (24 * 60),
        iv₁.2.1 + di₁ * (24 * 60), iv₁.2.2⟩ : CVar) ≠
        ⟨k₂.2.1, k₂.2.2, xvar k₂, iv₂.1 + di₂ * (24 * 60),
          iv₂.2.1 + di₂ * (24 * 60), iv₂.2.2⟩ := by
      intro h
      exact hkne (xvar_inj (congrArg CVar.v h))
    subst hpe
    subst hqe
    rcases pairsUpper_mem hcv₁ hcv₂ hcvne with hpair | hpair
    · have hcon := overlapCons_pair_mem st.enforceSameLocationPerDay
        (weekMEntries (weekManualOf state rs re) (weekDayIndexOf rs re)
          (build_shift_intervals (classRowsOf state)) c.id)
        hpair (overlapB_true (by dsimp only; omega) (by dsimp only; omega))
      have hle := con_le (feasible_con hfeas (overlap_con_in_model hcmem hcon))
      simp only [evalTerms, List.map_cons, List.map_nil, List.sum_cons,
        List.sum_nil] at hle
      rw [hs₁, hs₂] at hle
      omega
    · have hcon := overlapCons_pair_mem st.enforceSameLocationPerDay
        (weekMEntries (weekManualOf state rs re) (weekDayIndexOf rs re)
          (build_shift_intervals (classRowsOf state)) c.id)
        hpair (overlapB_true (by dsimp only; omega) (by dsimp only; omega))
      have hle := con_le (feasible_con hfeas (overlap_con_in_model hcmem hcon))
      simp only [evalTerms, List.map_cons, List.map_nil, List.sum_cons,
        List.sum_nil] at hle
      rw [hs₁, hs₂] at hle
      omega
  · intro a ha e he hecid rid hr p q hp hq hov
    obtain ⟨k, hk, hs, hae⟩ := mem_weekAssignments_eq ha
    obtain ⟨iv, di, hiv, hdi, hpe⟩ := asgnAbsInterval_eq hp
    obtain ⟨ivm, dim, hivm, hdim, hqe⟩ := manualAbsInterval_eq hq
    rw [week_core_varKeys] at hk
    rw [week_core_shiftIntervals, hae] at hiv
    rw [week_core_dayIndexByIso, hae] at hdi
    rw [week_core_shiftIntervals] at hivm
    rw [week_core_dayIndexByIso] at hdim
    rw [week_core_manual] at he
    obtain ⟨c, hcmem, d', hd', t, ht, hkeq, _, _⟩ :=
      weekVarKeys_spec state.clinicians (weekTargetIsosOf rs re)
        (weekShiftRows (classRowsOf state)) (vacByClinician state.clinicians) k hk
    have hc₁ : k.1 = c.id := by rw [hkeq]
    have hecid' : e.1.1 = c.id := by
      have h1 : a.clinicianId = k.1 := by rw [hae]
      rw [hecid, h1, hc₁]
    have hcv := weekCVars_mem hk hc₁ hiv hdi
    have hme := weekMEntries_mem he hecid' hr hdim hivm
    subst hpe
    subst hqe
    have hcon := overlapCons_manual_mem st.enforceSameLocationPerDay
      hcv hme (overlapB_true (by dsimp only; omega) (by dsimp only; omega))
    have hle := con_le (feasible_con hfeas (overlap_con_in_model hcmem hcon))
    simp only [evalTerms, List.map_cons, List.map_nil, List.sum_cons,
      List.sum_nil] at hle
    rw [hs] at hle
    omega

/-- Counterexample state for C3: two manual assignments of clinician `c` on
2026-01-05 to the overlapping slots `secA::s1` (08:00-12:00) and `secA::s2`
(10:00-14:00). -/
def s3state : AppState :=
  { locations := [defLoc], locationsEnabled := true
    rows := [{ id := "secA", name := "A", kind := "class"
               locationId := some "loc-default"
               subShifts := [mkShift "s1" 1 "08:00" "12:00",
                             mkShift "s2" 2 "10:00" "14:00"] }]
    clinicians := [{ id := "c", name := "C", qualifiedClassIds := []
                     preferredClassIds := [], vacations := [] }]
    assignments := [{ id := "m1", rowId := "secA::s1", dateISO := "2026-01-05"
                      clinicianId := "c" },
                    { id := "m2", rowId := "secA::s2", dateISO := "2026-01-05"
                      clinicianId := "c" }]
    minSlotsByRowId := [], slotOverridesByKey := [], holidays := []
    solverSettings := defaultSolverSettings, solverRules := [] }

/-- The range-solver build on `s3state` for 2026-01-05. -/
def s3Built : WeekBuilt := solve_week_core s3state true emptySettingsRec 739926 739926

/-- C3 counterexample: the build succeeds, the all-zero valuation is optimal
(the model has no variables and no constraints), yet clinician `c`'s
combined interval set keeps the two overlapping manual intervals — the
pairwise no-overlap property of the claim fails. -/
theorem no_overlap_counterexample :
    solve_week_build s3state ⟨"2026-01-05", some "2026-01-05", true⟩ = .ok s3Built ∧
    Optimal s3Built.model zeroSol ∧ ¬ NoOverlap s3Built zeroSol := by
  refine ⟨rfl, ⟨⟨rfl, rfl⟩, ?_⟩, ?_⟩
  · intro sol' _
    have hobj : s3Built.model.objective = [] := rfl
    simp [objVal, hobj, evalTerms]
  · intro h
    have h2 := h "c"
    have he : clinicianIntervals s3Built zeroSol "c" =
        [(1920, 2160), (2040, 2280)] := by decide
    rw [he] at h2
    rcases List.pairwise_cons.mp h2 with ⟨hhead, _⟩
    exact hhead (2040, 2280) (by simp) ⟨by norm_num, by norm_num⟩

/-- Witness for the C3 amended theorem on the counterexample state. -/
theorem no_overlap_amended_witness :
    (∀ a₁ ∈ weekAssignments s3Built zeroSol, ∀ a₂ ∈ weekAssignments s3Built zeroSol,
       a₁ ≠ a₂ → a₁.clinicianId = a₂.clinicianId →
       ∀ p q, asgnAbsInterval s3Built a₁ = some p →
         asgnAbsInterval s3Built a₂ = some q → ¬(q.1 < p.2 ∧ p.1 < q.2)) ∧
    (∀ a ∈ weekAssignments s3Built zeroSol, ∀ e ∈ s3Built.manual,
       e.1.1 = a.clinicianId → ∀ rid ∈ e.2, ∀ p q,
         asgnAbsInterval s3Built a = some p →
         manualAbsInterval s3Built e.1.2 rid = some q → ¬(q.1 < p.2 ∧ p.1 < q.2)) :=
  no_overlap_amended s3state ⟨"2026-01-05", some "2026-01-05", true⟩ s3Built rfl
    zeroSol ⟨rfl, rfl⟩

/-! ### C2 — day solver versus one-day range solver -/

theorem aget_mem {κ α : Type} [DecidableEq κ] :
    ∀ {l : List (κ × α)} {k : κ} {v : α}, aget l k = some v → (k, v) ∈ l
  | [], _, _, h => Option.noConfusion h
  | (k', v') :: t, k, v, h => by
      unfold aget at h
      by_cases hk : k' = k
      · rw [if_pos hk] at h
        rcases Option.some.inj h with rfl
        subst hk
        exact List.mem_cons_self _ _
      · rw [if_neg hk] at h
        exact List.mem_cons_of_mem _ (aget_mem h)

theorem mem_aset {κ α : Type} [DecidableEq κ] :
    ∀ {l : List (κ × α)} {k : κ} {v : α} {p : κ × α},
      p ∈ aset l k v → p ∈ l ∨ p = (k, v)
  | [], k, v, p, h => by
      unfold aset at h
      rcases List.mem_singleton.mp h with rfl
      exact Or.inr rfl
  | (k', v') :: t, k, v, p, h => by
      unfold aset at h
      by_cases hk : k' = k
      · rw [if_pos hk] at h
        rcases List.mem_cons.mp h with rfl | h'
        · exact Or.inr (by rw [hk])
        · exact Or.inl (List.mem_cons_of_mem _ h')
      · rw [if_neg hk] at h
        rcases List.mem_cons.mp h with rfl | h'
        · exact Or.inl (List.mem_cons_self _ _)
        · rcases mem_aset h' with h'' | h''
          · exact Or.inl (List.mem_cons_of_mem _ h'')
          · exact Or.inr h''

/-- With every clinician's vacation list empty, `is_on_vac` is false
everywhere. -/
theorem is_on_vac_all_empty {clinicians : List Clinician}
    (hvac : ∀ c ∈ clinicians, c.vacations = []) (cid d : String) :
    is_on_vac (vacByClinician clinicians) cid d = false := by
  have hinv : ∀ p ∈ vacByClinician clinicians, p.2 = ([] : List (String × String)) := by
    unfold vacByClinician
    refine foldl_preserve
      (fun (acc : List (String × List (String × String))) => ∀ p ∈ acc, p.2 = [])
      _ _ [] (fun p hp => absurd hp (List.not_mem_nil p)) ?_
    intro acc c hc hacc p hp
    rcases mem_aset hp with h | rfl
    · exact hacc p h
    · dsimp only
      rw [hvac c hc]
      rfl
  unfold is_on_vac
  cases hg : aget (vacByClinician clinicians) cid with
  | none => rfl
  | some l =>
      have hl : l = [] := hinv (cid, l) (aget_mem hg)
      rw [hl]
      rfl

/-- With no assignments and no vacations, every clinician is free. -/
theorem free_all (state : AppState) (d : String)
    (hassign : state.assignments = [])
    (hvac : ∀ c ∈ state.clinicians, c.vacations = []) :
    dayFreeCliniciansOf state d = state.clinicians := by
  have hvacids : dayVacationIdsOf state d = [] := by
    unfold dayVacationIdsOf
    refine List.filterMap_eq_nil_iff.mpr ?_
    intro c hc
    rw [hvac c hc]
    rfl
  have hassigned : (dayAssignedOf state d).1 = [] := by
    unfold dayAssignedOf
    rw [hassign]
    rfl
  unfold dayFreeCliniciansOf
  rw [hassigned, hvacids]
  refine List.filter_eq_self.mpr ?_
  intro a _
  rfl

theorem addKey_map_pair {l : List DVarKey} {cid sid d : String} :
    addKey (l.map (fun k : DVarKey => ((k.1, d, k.2) : VarKey))) (cid, d, sid) =
      (addKey l (cid, sid)).map (fun k : DVarKey => ((k.1, d, k.2) : VarKey)) := by
  unfold addKey
  by_cases hk : ((cid, sid) : DVarKey) ∈ l
  · rw [if_pos hk, if_pos (List.mem_map_of_mem _ hk)]
  · have hnm : ((cid, d, sid) : VarKey) ∉
        l.map (fun k : DVarKey => ((k.1, d, k.2) : VarKey)) := by
      intro hm
      obtain ⟨a, ha, hfa⟩ := List.mem_map.mp hm
      rcases a with ⟨a1, a2⟩
      simp only [Prod.mk.injEq] at hfa
      obtain ⟨h1, _, h2⟩ := hfa
      subst h1
      subst h2
      exact hk ha
    rw [if_neg hnm, if_neg hk, List.map_append]
    rfl

/-- Inner slot fold of the two solvers, related by tagging the date. -/
theorem inner_fold_map (d cid : String) (qual : List String) :
    ∀ (rows : List ShiftRowEntry) (acc : List DVarKey),
      rows.foldl
          (fun acc'' t => if qual.contains t.row.id then
              addKey acc'' ((cid, d, t.sid) : VarKey) else acc'')
          (acc.map (fun k : DVarKey => ((k.1, d, k.2) : VarKey))) =
        (rows.foldl
          (fun acc' t => if qual.contains t.row.id then
              addKey acc' ((cid, t.sid) : DVarKey) else acc') acc).map
          (fun k : DVarKey => ((k.1, d, k.2) : VarKey))
  | [], acc => rfl
  | t :: ts, acc => by
      dsimp only [List.foldl_cons]
      by_cases hq : qual.contains t.row.id = true
      · rw [if_pos hq, if_pos hq, addKey_map_pair]
        exact inner_fold_map d cid qual ts (addKey acc (cid, t.sid))
      · rw [if_neg hq, if_neg hq]
        exact inner_fold_map d cid qual ts acc

/-- **C2** — Amended: the range solver restricted to one day is the day
solver with each variable key tagged by the date, but only on states with no
stored assignments and no vacations; in general the two solvers treat
same-day assignments differently (the day solver drops every clinician with
any same-day assignment, pool rows included, and subtracts existing live
assignments from the required counts, while the range solver keeps the
variables and constrains them against manual live-slot assignments), and
their responses can differ on the same state (see the counterexample). -/
theorem day_week_restriction_amended (state : AppState) (rs : Nat)
    (hassign : state.assignments = [])
    (hvac : ∀ c ∈ state.clinicians, c.vacations = []) :
    weekVarKeysOf state rs rs =
      (dayVarKeysOf state (toISO rs)).map
        (fun k : DVarKey => ((k.1, toISO rs, k.2) : VarKey)) := by
  have htarget : weekTargetIsosOf rs rs = [toISO rs] := by
    simp [weekTargetIsosOf, Nat.sub_self, List.range_succ]
  unfold weekVarKeysOf dayVarKeysOf
  rw [htarget, free_all state (toISO rs) hassign hvac]
  unfold weekVarKeys
  have main : ∀ (cl : List Clinician) (acc : List DVarKey),
      cl.foldl
          (fun acc c =>
            ([toISO rs] : List String).foldl
              (fun acc' d =>
                if is_on_vac (vacByClinician state.clinicians) c.id d then acc'
                else
                  (weekShiftRows (classRowsOf state)).foldl
                    (fun acc'' t =>
                      if c.qualifiedClassIds.contains t.row.id then
                        addKey acc'' ((c.id, d, t.sid) : VarKey)
                      else acc'')
                    acc')
              acc)
          (acc.map (fun k : DVarKey => ((k.1, toISO rs, k.2) : VarKey))) =
        (cl.foldl
          (fun acc c =>
            (weekShiftRows (classRowsOf state)).foldl
              (fun acc' t =>
                if c.qualifiedClassIds.contains t.row.id then
                  addKey acc' ((c.id, t.sid) : DVarKey)
                else acc')
              acc)
          acc).map (fun k : DVarKey => ((k.1, toISO rs, k.2) : VarKey)) := by
    intro cl
    induction cl with
    | nil => intro acc; rfl
    | cons c ct ih =>
        intro acc
        dsimp only [List.foldl_cons, List.foldl_nil]
        rw [if_neg (by simp [is_on_vac_all_empty hvac]),
          inner_fold_map (toISO rs) c.id c.qualifiedClassIds]
        exact ih ((weekShiftRows (classRowsOf state)).foldl
          (fun acc' t => if c.qualifiedClassIds.contains t.row.id then
              addKey acc' ((c.id, t.sid) : DVarKey) else acc') acc)
  exact main state.clinicians []

/-- Counterexample state for C2: class `secA` needs one `secA::s1` slot on
2026-01-05; clinician `c` is qualified but holds a same-day `pool-rest-day`
assignment. -/
def s2state : AppState :=
  { locations := [defLoc], locationsEnabled := true
    rows := [{ id := "secA", name := "A", kind := "class"
               locationId := some "loc-default"
               subShifts := [mkShift "s1" 1 "08:00" "12:00"] },
             { id := "pool-rest-day", name := "Rest", kind := "pool" }]
    clinicians := [{ id := "c", name := "C", qualifiedClassIds := ["secA"]
                     preferredClassIds := [], vacations := [] }]
    assignments := [{ id := "m1", rowId := "pool-rest-day", dateISO := "2026-01-05"
                      clinicianId := "c" }]
    minSlotsByRowId := [("secA::s1", ⟨1, 1⟩)], slotOverridesByKey := []
    holidays := [], solverSettings := defaultSolverSettings, solverRules := [] }

/-- The day-solver build on `s2state` for 2026-01-05 (fill-required mode). -/
def s2Day : DayBuilt := solve_day_core s2state ⟨"2026-01-05", true⟩

/-- The range-solver build on `s2state` for the one-day range 2026-01-05. -/
def s2Week : WeekBuilt := solve_week_core s2state true emptySettingsRec 739926 739926

/-- Optimal day valuation: the slack variable forced to 1. -/
def s2DaySol : Var → Int := fun v => if v = Var.dslack "secA::s1" then 1 else 0

/-- Optimal range valuation: assign `c`, cover the slot, zero slack. -/
def s2WeekSol : Var → Int :=
  fun v => if v = Var.slack "secA::s1" "2026-01-05" then 0 else 1

/-- C2 counterexample: on `s2state` both engines reach optimal solutions,
yet the day response is `([], ["Could not fill all required slots."])` (the
pool assignment removes `c` from consideration) while the one-day range
response carries one assignment and no note — the claimed equivalence
fails. -/
theorem day_week_divergence :
    solve_day_build s2state ⟨"2026-01-05", true⟩ = .ok s2Day ∧
    solve_week_build s2state ⟨"2026-01-05", some "2026-01-05", true⟩ = .ok s2Week ∧
    Optimal s2Day.model s2DaySol ∧ Optimal s2Week.model s2WeekSol ∧
    solve_day_result s2Day (.sol s2DaySol) ≠
      solve_week_result s2Week (.sol s2WeekSol) := by
  refine ⟨rfl, rfl, ⟨⟨rfl, rfl⟩, ?_⟩, ⟨⟨rfl, rfl⟩, ?_⟩, by decide⟩
  · intro sol' hf
    have hge := con_ge (feasible_con hf
      (show (⟨[(1, Var.dslack "secA::s1")], Rel.ge, 1⟩ : LinCon) ∈ s2Day.model.cons by
        decide))
    simp only [evalTerms, List.map_cons, List.map_nil, List.sum_cons,
      List.sum_nil] at hge
    have hobj : s2Day.model.objective = [(1300, Var.dslack "secA::s1")] := rfl
    have hval : s2DaySol (Var.dslack "secA::s1") = 1 := rfl
    simp only [objVal, hobj, evalTerms, List.map_cons, List.map_nil, List.sum_cons,
      List.sum_nil, hval]
    omega
  · intro sol' hf
    have hcov := feasible_dom_bool hf
      (show Var.covered "secA::s1" "2026-01-05" ∈ s2Week.model.boolVars by decide)
    have hsl := feasible_dom_int hf
      (show (Var.slack "secA::s1" "2026-01-05", (1 : Int)) ∈ s2Week.model.intVars by
        decide)
    have hobj : s2Week.model.objective =
        [(-130000, Var.covered "secA::s1" "2026-01-05"),
         (1300, Var.slack "secA::s1" "2026-01-05"),
         (0, Var.x "c" "2026-01-05" "secA::s1")] := rfl
    have hv1 : s2WeekSol (Var.covered "secA::s1" "2026-01-05") = 1 := rfl
    have hv2 : s2WeekSol (Var.slack "secA::s1" "2026-01-05") = 0 := rfl
    have hv3 : s2WeekSol (Var.x "c" "2026-01-05" "secA::s1") = 1 := rfl
    simp only [objVal, hobj, evalTerms, List.map_cons, List.map_nil, List.sum_cons,
      List.sum_nil, hv1, hv2, hv3]
    rcases hcov with h | h <;> rw [h] <;> rcases hsl with ⟨h1, h2⟩ <;> omega

/-- A state with one qualified clinician and no assignments or vacations. -/
def c2wstate : AppState :=
  { locations := [defLoc], locationsEnabled := true
    rows := [{ id := "secA", name := "A", kind := "class"
               locationId := some "loc-default"
               subShifts := [mkShift "s1" 1 "08:00" "12:00"] }]
    clinicians := [{ id := "c", name := "C", qualifiedClassIds := ["secA"]
                     preferredClassIds := [], vacations := [] }]
    assignments := [], minSlotsByRowId := [], slotOverridesByKey := []
    holidays := [], solverSettings := defaultSolverSettings, solverRules := [] }

/-- Witness for the C2 amended theorem at a concrete state. -/
theorem day_week_restriction_witness :
    weekVarKeysOf c2wstate 739926 739926 =
      (dayVarKeysOf c2wstate (toISO 739926)).map
        (fun k : DVarKey => ((k.1, toISO 739926, k.2) : VarKey)) :=
  day_week_restriction_amended c2wstate 739926 rfl (by decide)

/-! ### C4 — on-call rest windows -/

theorem foldl_mem_of_step {α β : Type} (f : β → α → β) (Q : β → Prop)
    (hmono : ∀ b a, Q b → Q (f b a)) {p : α} {l : List α} (hp : p ∈ l)
    (hstep : ∀ b, Q (f b p)) (b₀ : β) : Q (l.foldl f b₀) := by
  obtain ⟨l₁, l₂, rfl⟩ := List.append_of_mem hp
  rw [List.foldl_append]
  dsimp only [List.foldl_cons]
  refine foldl_preserve Q f l₂ _ (hstep _) ?_
  intro b' a _ hb
  exact hmono b' a hb

theorem weekRestStep_mono (dayIsos targetDayIsos : List String) (varKeys : List VarKey)
    (manual : List ((String × String) × List String)) (restIds : List String)
    (restBefore restAfter : Int) (c : Clinician)
    (acc' : List LinCon × List Var) (p : Nat × String) {con : LinCon}
    (h : con ∈ acc'.1) :
    con ∈ (weekRestStep dayIsos targetDayIsos varKeys manual restIds restBefore
      restAfter c acc' p).1 := by
  unfold weekRestStep
  dsimp only
  split
  · exact h
  · exact List.mem_append_left _ (List.mem_append_left _ (List.mem_append_left _ h))

/-- A constraint added by the rest step of one (clinician, day) pair is in
the rest section. -/
theorem weekRestCons_mem {clinicians : List Clinician}
    {dayIsos targetDayIsos : List String} {varKeys : List VarKey}
    {manual : List ((String × String) × List String)} {restIds : List String}
    {restBefore restAfter : Int} {c : Clinician} (hc : c ∈ clinicians)
    {p : Nat × String} (hp : p ∈ dayIsos.enum) {con : LinCon}
    (hstep : ∀ acc', con ∈ (weekRestStep dayIsos targetDayIsos varKeys manual restIds
      restBefore restAfter c acc' p).1) :
    con ∈ (weekRestCons clinicians dayIsos targetDayIsos varKeys manual restIds
      restBefore restAfter).1 := by
  unfold weekRestCons
  refine foldl_mem_of_step _ (fun (acc : List LinCon × List Var) => con ∈ acc.1) ?_ hc ?_
    ([], [])
  · intro b a hb
    refine foldl_preserve (fun (acc : List LinCon × List Var) => con ∈ acc.1) _
      dayIsos.enum b hb ?_
    intro b' q _ hb'
    exact weekRestStep_mono _ _ _ _ _ _ _ _ _ _ hb'
  · intro b
    refine foldl_mem_of_step _ (fun (acc : List LinCon × List Var) => con ∈ acc.1) ?_ hp
      hstep b
    intro b' q hb'
    exact weekRestStep_mono _ _ _ _ _ _ _ _ _ _ hb'

/-- The offsets list contains every integer of `[1, bnd]`. -/
theorem mem_offsets {off bnd : Int} (h1 : 1 ≤ off) (h2 : off ≤ bnd) :
    off ∈ (List.range bnd.toNat).map (fun n => (n : Int) + 1) := by
  have h3 : off = ((off - 1).toNat : Int) + 1 := by omega
  rw [h3]
  apply List.mem_map_of_mem
  simp only [bind_pure_comp, List.map_eq_map, List.mem_map, List.mem_range]
  have hlt : (off - 1).toNat < bnd.toNat := by omega
  exact ⟨(off - 1).toNat, hlt, rfl⟩

/-- A window constraint reached through the before- or after-offsets is in
the step output, provided the step's guard does not short-circuit. -/
theorem weekRestStep_window_mem (dayIsos targetDayIsos : List String)
    (varKeys : List VarKey) (manual : List ((String × String) × List String))
    (restIds : List String) (restBefore restAfter : Int) (c : Clinician)
    (acc' : List LinCon × List Var) (i : Nat) (D : String)
    (hguard : (!(((aget manual (c.id, D)).getD []).any (fun rid => restIds.contains rid)) &&
        (varKeys.filter
          (fun k => k.1 == c.id && k.2.1 == D && restIds.contains k.2.2)).isEmpty) = false)
    {off : Int} {con : LinCon}
    (hcase : (1 ≤ off ∧ off ≤ restBefore ∧
        con ∈ weekApplyRest dayIsos targetDayIsos varKeys manual c D
          (((aget manual (c.id, D)).getD []).any (fun rid => restIds.contains rid))
          ((i : Int) - off)) ∨
      (1 ≤ off ∧ off ≤ restAfter ∧
        con ∈ weekApplyRest dayIsos targetDayIsos varKeys manual c D
          (((aget manual (c.id, D)).getD []).any (fun rid => restIds.contains rid))
          ((i : Int) + off))) :
    con ∈ (weekRestStep dayIsos targetDayIsos varKeys manual restIds restBefore
      restAfter c acc' (i, D)).1 := by
  unfold weekRestStep
  dsimp only
  rw [if_neg (by simp only [hguard]; exact Bool.false_ne_true)]
  rcases hcase with ⟨h1, h2, hcon⟩ | ⟨h1, h2, hcon⟩
  · exact List.mem_append_left _ (List.mem_append_right _
      (List.mem_flatMap.mpr ⟨off, mem_offsets h1 h2, hcon⟩))
  · exact List.mem_append_right _
      (List.mem_flatMap.mpr ⟨off, mem_offsets h1 h2, hcon⟩)

/-- The aggregation constraint `x ≤ on_call` of one on-call variable. -/
theorem weekRestStep_agg_mem (dayIsos targetDayIsos : List String)
    (varKeys : List VarKey) (manual : List ((String × String) × List String))
    (restIds : List String) (restBefore restAfter : Int) (c : Clinician)
    (acc' : List LinCon × List Var) (i : Nat) (D : String)
    (hmoc : (((aget manual (c.id, D)).getD []).any (fun rid => restIds.contains rid)) = false)
    {k : VarKey}
    (hk : k ∈ varKeys.filter
      (fun k => k.1 == c.id && k.2.1 == D && restIds.contains k.2.2)) :
    (⟨[(1, xvar k), (-1, Var.onCall c.id D)], Rel.le, 0⟩ : LinCon) ∈
      (weekRestStep dayIsos targetDayIsos varKeys manual restIds restBefore
        restAfter c acc' (i, D)).1 := by
  have hvne : (varKeys.filter
      (fun k => k.1 == c.id && k.2.1 == D && restIds.contains k.2.2)).isEmpty = false := by
    cases h : (varKeys.filter
        (fun k => k.1 == c.id && k.2.1 == D && restIds.contains k.2.2)).isEmpty with
    | false => rfl
    | true =>
        rw [List.isEmpty_iff] at h
        rw [h] at hk
        exact absurd hk (List.not_mem_nil k)
  unfold weekRestStep
  dsimp only
  rw [if_neg (by simp only [hmoc, hvne, Bool.not_false, Bool.true_and]; exact Bool.false_ne_true)]
  rw [if_neg (by simp only [hmoc]; exact Bool.false_ne_true)]
  refine List.mem_append_left _ (List.mem_append_left _ (List.mem_append_right _ ?_))
  exact List.mem_append_right _ (List.mem_map_of_mem _ hk)

/-- The `apply_rest` constraint of a manual on-call day against a clean
window date: all of the clinician's variables there are forced to zero. -/
theorem weekApplyRest_eq0_mem {dayIsos targetDayIsos : List String}
    {varKeys : List VarKey} {manual : List ((String × String) × List String)}
    {c : Clinician} {D : String} {tIdx : Int} {T : String}
    (hbound : ¬(tIdx < 0 ∨ (dayIsos.length : Int) ≤ tIdx))
    (hT : dayIsos.getD tIdx.toNat "" = T)
    (hTt : targetDayIsos.contains T = true)
    (hman0 : (aget manual (c.id, T)).getD [] = [])
    (hvne : (varKeys.filter (fun k => k.1 == c.id && k.2.1 == T)).isEmpty = false) :
    (⟨(varKeys.filter (fun k => k.1 == c.id && k.2.1 == T)).map xterm,
       Rel.eq, 0⟩ : LinCon) ∈
      weekApplyRest dayIsos targetDayIsos varKeys manual c D true tIdx := by
  unfold weekApplyRest
  rw [if_neg hbound]
  dsimp only
  rw [hT]
  rw [if_neg (by simp only [hTt]; exact Bool.false_ne_true)]
  rw [if_pos rfl]
  rw [hman0]
  rw [if_neg (by simp)]
  rw [if_pos (by simp only [hvne]; rfl)]
  exact List.mem_singleton.mpr rfl

/-- The `apply_rest` constraint of a solver on-call day against a manual
window date: the `on_call` aggregate is forced to zero. -/
theorem weekApplyRest_onCall0_mem {dayIsos targetDayIsos : List String}
    {varKeys : List VarKey} {manual : List ((String × String) × List String)}
    {c : Clinician} {D : String} {tIdx : Int} {T : String}
    (hbound : ¬(tIdx < 0 ∨ (dayIsos.length : Int) ≤ tIdx))
    (hT : dayIsos.getD tIdx.toNat "" = T)
    (hTt : targetDayIsos.contains T = true)
    (hman1 : (aget manual (c.id, T)).getD [] ≠ []) :
    (⟨[(1, Var.onCall c.id D)], Rel.eq, 0⟩ : LinCon) ∈
      weekApplyRest dayIsos targetDayIsos varKeys manual c D false tIdx := by
  unfold weekApplyRest
  rw [if_neg hbound]
  dsimp only
  rw [hT]
  rw [if_neg (by simp only [hTt]; exact Bool.false_ne_true)]
  rw [if_neg (by simp : ¬((false : Bool) = true))]
  rw [if_pos (by have := List.length_pos.mpr hman1; omega)]
  exact List.mem_singleton.mpr rfl

/-- The `apply_rest` constraint of a non-manual on-call day against a clean
window date: the window date's variables are bounded by `BIG·(1 − on_call)`. -/
theorem weekApplyRest_big_mem {dayIsos targetDayIsos : List String}
    {varKeys : List VarKey} {manual : List ((String × String) × List String)}
    {c : Clinician} {D : String} {tIdx : Int} {T : String}
    (hbound : ¬(tIdx < 0 ∨ (dayIsos.length : Int) ≤ tIdx))
    (hT : dayIsos.getD tIdx.toNat "" = T)
    (hTt : targetDayIsos.contains T = true)
    (hman0 : (aget manual (c.id, T)).getD [] = [])
    (hvne : (varKeys.filter (fun k => k.1 == c.id && k.2.1 == T)).isEmpty = false) :
    (⟨((varKeys.filter (fun k => k.1 == c.id && k.2.1 == T)).map xterm) ++
        [(BIG, Var.onCall c.id D)], Rel.le, BIG⟩ : LinCon) ∈
      weekApplyRest dayIsos targetDayIsos varKeys manual c D false tIdx := by
  unfold weekApplyRest
  rw [if_neg hbound]
  dsimp only
  rw [hT]
  rw [if_neg (by simp only [hTt]; exact Bool.false_ne_true)]
  rw [if_neg (by simp : ¬((false : Bool) = true))]
  rw [hman0]
  rw [if_neg (by simp)]
  rw [if_pos (by simp only [hvne]; rfl)]
  exact List.mem_singleton.mpr rfl

theorem week_core_restIds (s : AppState) (f : Bool) (st : SolverSettingsRec)
    (rs re : Nat) :
    (solve_week_core s f st rs re).restIds = weekRestIdsOf s st := rfl

theorem week_core_restBefore (s : AppState) (f : Bool) (st : SolverSettingsRec)
    (rs re : Nat) :
    (solve_week_core s f st rs re).restBefore = max 0 st.onCallRestDaysBefore := rfl

theorem week_core_restAfter (s : AppState) (f : Bool) (st : SolverSettingsRec)
    (rs re : Nat) :
    (solve_week_core s f st rs re).restAfter = max 0 st.onCallRestDaysAfter := rfl

theorem week_core_restActive (s : AppState) (f : Bool) (st : SolverSettingsRec)
    (rs re : Nat) :
    (solve_week_core s f st rs re).restActive = weekRestActiveOf s st := rfl

/-- A rest-section constraint is in the model when the section is active. -/
theorem rest_con_in_model {state : AppState} {f : Bool} {st : SolverSettingsRec}
    {rs re : Nat} {con : LinCon} (hact : weekRestActiveOf state st = true)
    (hcon : con ∈ (weekRestCons state.clinicians (weekDayIsosOf rs re)
      (weekTargetIsosOf rs re) (weekVarKeysOf state rs re) (weekManualOf state rs re)
      (weekRestIdsOf state st) (max 0 st.onCallRestDaysBefore)
      (max 0 st.onCallRestDaysAfter)).1) :
    con ∈ (solve_week_core state f st rs re).model.cons := by
  rw [week_core_cons]
  refine List.mem_append_right _ ?_
  unfold weekRestSectionOf
  rw [if_pos hact]
  exact hcon

/-- Generalised count of filtered returned assignments against the matching
variable-key filter. -/
theorem weekAssignments_count_gen (B : WeekBuilt) (sol : Var → Int)
    (pk : VarKey → Bool) (pa : Assignment → Bool)
    (hcomp : ∀ k : VarKey,
      pa { id := "as-" ++ k.2.1 ++ "-" ++ k.1 ++ "-" ++ k.2.2
           rowId := k.2.2, dateISO := k.2.1, clinicianId := k.1 } = pk k) :
    ((weekAssignments B sol).filter pa).length =
      (B.varKeys.filter pk).countP (fun k => sol (xvar k) == 1) := by
  unfold weekAssignments
  generalize B.varKeys = l
  induction l with
  | nil => rfl
  | cons k t ih =>
      dsimp only [List.filterMap_cons]
      by_cases h1 : sol (xvar k) = 1
      · rw [if_pos h1, List.filter_cons, List.filter_cons, hcomp k]
        by_cases h2 : pk k = true
        · rw [if_pos h2, if_pos h2]
          simp only [List.length_cons, List.countP_cons, ih]
          simp [h1]
        · rw [if_neg h2, if_neg h2]
          exact ih
      · rw [if_neg h1, List.filter_cons]
        by_cases h2 : pk k = true
        · rw [if_pos h2]
          simp only [List.countP_cons, ih]
          simp [h1]
        · rw [if_neg h2]
          exact ih

/-- Counting rest-class returned assignments of a clinician on a date. -/
theorem weekAssignments_count_rest (B : WeekBuilt) (sol : Var → Int)
    (cid d : String) (rids : List String) :
    ((weekAssignments B sol).filter
        (fun a => a.clinicianId == cid && a.dateISO == d &&
          rids.contains a.rowId)).length =
      (B.varKeys.filter (fun k => k.1 == cid && k.2.1 == d &&
        rids.contains k.2.2)).countP (fun k => sol (xvar k) == 1) :=
  weekAssignments_count_gen B sol
    (fun k => k.1 == cid && k.2.1 == d && rids.contains k.2.2)
    (fun a => a.clinicianId == cid && a.dateISO == d && rids.contains a.rowId)
    (fun k => rfl)

/-- Modelled from the spec: `T` lies in the rest window around `D` (up to
`restBefore` days before or `restAfter` days after, by context-day index). -/
def inRestWindow (B : WeekBuilt) (D T : String) : Prop :=
  ∃ i j : Nat, aget B.dayIndexByIso D = some i ∧ aget B.dayIndexByIso T = some j ∧
    (((j : Int) < i ∧ (i : Int) - j ≤ B.restBefore) ∨
     ((i : Int) < j ∧ (j : Int) - i ≤ B.restAfter))

/-- Modelled from the spec: the clinician is assigned (manually or by the
solver) to a rest-class slot on the date. -/
def onCallOn (B : WeekBuilt) (sol : Var → Int) (cid D : String) : Prop :=
  (∃ rid ∈ (aget B.manual (cid, D)).getD [], rid ∈ B.restIds) ∨
  (∃ a ∈ weekAssignments B sol, a.clinicianId = cid ∧ a.dateISO = D ∧
    a.rowId ∈ B.restIds)

/-- Modelled from the spec: the claimed rest-window property — an on-call
assignment on `D` forces zero solver assignments on every window date `T` in
the target range, and when `T` already carries a manual assignment the
solver instead avoids the rest-class slot on `D`. -/
def RestClaim (B : WeekBuilt) (sol : Var → Int) : Prop :=
  B.restActive = true →
  ∀ cid : String, ∀ D ∈ B.targetDayIsos, onCallOn B sol cid D →
    ∀ T ∈ B.targetDayIsos, T ≠ D → inRestWindow B D T →
      (((aget B.manual (cid, T)).getD []).isEmpty = true →
        (weekAssignments B sol).filter
          (fun a => a.clinicianId == cid && a.dateISO == T) = []) ∧
      (((aget B.manual (cid, T)).getD []).isEmpty = false →
        (weekAssignments B sol).filter
          (fun a => a.clinicianId == cid && a.dateISO == D &&
            B.restIds.contains a.rowId) = [])

/-- **C4** — Amended: the rest machinery enforces these three clauses per
clinician record, context day `D` and window target date `T`.  (a) A
*manual* rest-class assignment on `D` gives zero solver assignments on a
`T` without manual assignments.  (b) Without a manual rest-class assignment
on `D`, a manual assignment on `T` forbids every solver rest-class
assignment on `D`.  (c) Without a manual rest-class assignment on `D`, a
*solver-chosen* rest-class assignment on `D` gives zero solver assignments
on a `T` without manual assignments (`sum(vars_target) ≤ BIG·(1 − on_call)`
with `var ≤ on_call`).  When both `D` and `T` carry manual assignments the
code adds no constraint at all, so the original claim's guarantee fails
there (see the counterexample). -/
theorem rest_windows_amended (state : AppState) (payload : SolveWeekRequest)
    (B : WeekBuilt) (hb : solve_week_build state payload = .ok B)
    (sol : Var → Int) (hfeas : Feasible B.model sol)
    (hact : B.restActive = true)
    {c : Clinician} (hc : c ∈ state.clinicians)
    {i : Nat} {D : String} (hiD : (i, D) ∈ B.dayIsos.enum)
    {off : Int} {T : String}
    (hwin : (1 ≤ off ∧ off ≤ B.restBefore ∧
        ¬((i : Int) - off < 0 ∨ (B.dayIsos.length : Int) ≤ (i : Int) - off) ∧
        B.dayIsos.getD ((i : Int) - off).toNat "" = T) ∨
      (1 ≤ off ∧ off ≤ B.restAfter ∧
        ¬((i : Int) + off < 0 ∨ (B.dayIsos.length : Int) ≤ (i : Int) + off) ∧
        B.dayIsos.getD ((i : Int) + off).toNat "" = T))
    (hTt : B.targetDayIsos.contains T = true) :
    (((aget B.manual (c.id, D)).getD []).any (fun rid => B.restIds.contains rid) = true →
      (aget B.manual (c.id, T)).getD [] = [] →
      (weekAssignments B sol).filter
        (fun a => a.clinicianId == c.id && a.dateISO == T) = []) ∧
    (((aget B.manual (c.id, D)).getD []).any (fun rid => B.restIds.contains rid) = false →
      (aget B.manual (c.id, T)).getD [] ≠ [] →
      (weekAssignments B sol).filter
        (fun a => a.clinicianId == c.id && a.dateISO == D &&
          B.restIds.contains a.rowId) = []) ∧
    (((aget B.manual (c.id, D)).getD []).any (fun rid => B.restIds.contains rid) = false →
      (aget B.manual (c.id, T)).getD [] = [] →
      (weekAssignments B sol).filter
        (fun a => a.clinicianId == c.id && a.dateISO == D &&
          B.restIds.contains a.rowId) ≠ [] →
      (weekAssignments B sol).filter
        (fun a => a.clinicianId == c.id && a.dateISO == T) = []) := by
  obtain ⟨rs, re, st, hrs, hst, rfl⟩ := solve_week_build_ok hb
  rw [week_core_restActive] at hact
  rw [week_core_dayIsos] at hiD
  rw [week_core_dayIsos, week_core_restBefore, week_core_restAfter] at hwin
  rw [week_core_targetDayIsos] at hTt
  rw [week_core_manual, week_core_restIds]
  have h01 : ∀ k ∈ weekVarKeysOf state rs re, sol (xvar k) = 0 ∨ sol (xvar k) = 1 := by
    intro k hk
    refine feasible_dom_bool hfeas ?_
    rw [week_core_boolVars]
    exact List.mem_append_left _ (List.mem_append_left _ (List.mem_map_of_mem xvar hk))
  refine ⟨?_, ?_, ?_⟩
  · intro hmoc hman0
    have hcount := weekAssignments_count
      (solve_week_core state payload.only_fill_required st rs re) sol c.id T
    rw [week_core_varKeys] at hcount
    cases hvt : ((weekVarKeysOf state rs re).filter
        (fun k => k.1 == c.id && k.2.1 == T)).isEmpty with
    | true =>
        rw [List.isEmpty_iff] at hvt
        rw [hvt] at hcount
        simp only [List.countP_nil] at hcount
        exact List.length_eq_zero.mp hcount
    | false =>
        have hguard : (!(((aget (weekManualOf state rs re) (c.id, D)).getD []).any
            (fun rid => (weekRestIdsOf state st).contains rid)) &&
            ((weekVarKeysOf state rs re).filter
              (fun k => k.1 == c.id && k.2.1 == D &&
                (weekRestIdsOf state st).contains k.2.2)).isEmpty) = false := by
          rw [hmoc]
          rfl
        have hcon : (⟨((weekVarKeysOf state rs re).filter
            (fun k => k.1 == c.id && k.2.1 == T)).map xterm, Rel.eq, 0⟩ : LinCon) ∈
            (weekRestCons state.clinicians (weekDayIsosOf rs re) (weekTargetIsosOf rs re)
              (weekVarKeysOf state rs re) (weekManualOf state rs re)
              (weekRestIdsOf state st) (max 0 st.onCallRestDaysBefore)
              (max 0 st.onCallRestDaysAfter)).1 := by
          rcases hwin with ⟨h1, h2, hb1, hT1⟩ | ⟨h1, h2, hb1, hT1⟩
          · refine weekRestCons_mem hc hiD (fun acc' =>
              weekRestStep_window_mem _ _ _ _ _ _ _ c acc' i D hguard
                (Or.inl ⟨h1, h2, ?_⟩))
            rw [hmoc]
            exact weekApplyRest_eq0_mem hb1 hT1 hTt hman0 hvt
          · refine weekRestCons_mem hc hiD (fun acc' =>
              weekRestStep_window_mem _ _ _ _ _ _ _ c acc' i D hguard
                (Or.inr ⟨h1, h2, ?_⟩))
            rw [hmoc]
            exact weekApplyRest_eq0_mem hb1 hT1 hTt hman0 hvt
        have heq := con_eq (feasible_con hfeas (rest_con_in_model hact hcon))
        rw [evalTerms_map_xterm] at heq
        rw [sum_eq_countP sol _ (fun k hk => h01 k (List.mem_of_mem_filter hk))] at heq
        have hcnt : ((weekVarKeysOf state rs re).filter
            (fun k => k.1 == c.id && k.2.1 == T)).countP
              (fun k => sol (xvar k) == 1) = 0 := by exact_mod_cast heq
        rw [hcnt] at hcount
        exact List.length_eq_zero.mp hcount
  · intro hmoc hman1
    have hcount := weekAssignments_count_rest
      (solve_week_core state payload.only_fill_required st rs re) sol c.id D
      (weekRestIdsOf state st)
    rw [week_core_varKeys] at hcount
    cases hvt : ((weekVarKeysOf state rs re).filter
        (fun k => k.1 == c.id && k.2.1 == D &&
          (weekRestIdsOf state st).contains k.2.2)).isEmpty with
    | true =>
        rw [List.isEmpty_iff] at hvt
        rw [hvt] at hcount
        simp only [List.countP_nil] at hcount
        exact List.length_eq_zero.mp hcount
    | false =>
        have hguard : (!(((aget (weekManualOf state rs re) (c.id, D)).getD []).any
            (fun rid => (weekRestIdsOf state st).contains rid)) &&
            ((weekVarKeysOf state rs re).filter
              (fun k => k.1 == c.id && k.2.1 == D &&
                (weekRestIdsOf state st).contains k.2.2)).isEmpty) = false := by
          rw [hmoc, hvt]
          rfl
        have hcon0 : (⟨[(1, Var.onCall c.id D)], Rel.eq, 0⟩ : LinCon) ∈
            (weekRestCons state.clinicians (weekDayIsosOf rs re) (weekTargetIsosOf rs re)
              (weekVarKeysOf state rs re) (weekManualOf state rs re)
              (weekRestIdsOf state st) (max 0 st.onCallRestDaysBefore)
              (max 0 st.onCallRestDaysAfter)).1 := by
          rcases hwin with ⟨h1, h2, hb1, hT1⟩ | ⟨h1, h2, hb1, hT1⟩
          · refine weekRestCons_mem hc hiD (fun acc' =>
              weekRestStep_window_mem _ _ _ _ _ _ _ c acc' i D hguard
                (Or.inl ⟨h1, h2, ?_⟩))
            rw [hmoc]
            exact weekApplyRest_onCall0_mem hb1 hT1 hTt hman1
          · refine weekRestCons_mem hc hiD (fun acc' =>
              weekRestStep_window_mem _ _ _ _ _ _ _ c acc' i D hguard
                (Or.inr ⟨h1, h2, ?_⟩))
            rw [hmoc]
            exact weekApplyRest_onCall0_mem hb1 hT1 hTt hman1
        have hoc0 : sol (Var.onCall c.id D) = 0 := by
          have h := con_eq (feasible_con hfeas (rest_con_in_model hact hcon0))
          simp only [evalTerms, List.map_cons, List.map_nil, List.sum_cons,
            List.sum_nil] at h
          omega
        have hall : ∀ k ∈ (weekVarKeysOf state rs re).filter
            (fun k => k.1 == c.id && k.2.1 == D &&
              (weekRestIdsOf state st).contains k.2.2),
            ¬((sol (xvar k) == 1) = true) := by
          intro k hk
          have hconk := weekRestCons_mem hc hiD
            (fun acc' => weekRestStep_agg_mem (weekDayIsosOf rs re)
              (weekTargetIsosOf rs re) (weekVarKeysOf state rs re)
              (weekManualOf state rs re) (weekRestIdsOf state st)
              (max 0 st.onCallRestDaysBefore) (max 0 st.onCallRestDaysAfter) c acc' i D
              hmoc hk)
          have hle := con_le (feasible_con hfeas (rest_con_in_model hact hconk))
          have hdom := h01 k (List.mem_of_mem_filter hk)
          simp only [evalTerms, List.map_cons, List.map_nil, List.sum_cons,
            List.sum_nil] at hle
          rw [hoc0] at hle
          simp only [beq_iff_eq]
          omega
        rw [List.countP_eq_zero.mpr hall] at hcount
        exact List.length_eq_zero.mp hcount
  · intro hmoc hmanT hsolD
    obtain ⟨a, ha⟩ := List.exists_mem_of_ne_nil _ hsolD
    have haW := List.mem_of_mem_filter ha
    have hap := List.of_mem_filter ha
    obtain ⟨k₀, hk₀, hs₀, hae⟩ := mem_weekAssignments_eq haW
    rw [week_core_varKeys] at hk₀
    have hk₀p : (k₀.1 == c.id && k₀.2.1 == D &&
        (weekRestIdsOf state st).contains k₀.2.2) = true := by
      rw [hae] at hap
      exact hap
    have hk₀f : k₀ ∈ (weekVarKeysOf state rs re).filter
        (fun k => k.1 == c.id && k.2.1 == D &&
          (weekRestIdsOf state st).contains k.2.2) :=
      List.mem_filter.mpr ⟨hk₀, hk₀p⟩
    have hconk := weekRestCons_mem hc hiD
      (fun acc' => weekRestStep_agg_mem (weekDayIsosOf rs re)
        (weekTargetIsosOf rs re) (weekVarKeysOf state rs re)
        (weekManualOf state rs re) (weekRestIdsOf state st)
        (max 0 st.onCallRestDaysBefore) (max 0 st.onCallRestDaysAfter) c acc' i D
        hmoc hk₀f)
    have hle := con_le (feasible_con hfeas (rest_con_in_model hact hconk))
    simp only [evalTerms, List.map_cons, List.map_nil, List.sum_cons,
      List.sum_nil] at hle
    rw [hs₀] at hle
    have hoc1 : 1 ≤ sol (Var.onCall c.id D) := by omega
    have hcount := weekAssignments_count
      (solve_week_core state payload.only_fill_required st rs re) sol c.id T
    rw [week_core_varKeys] at hcount
    cases hvt : ((weekVarKeysOf state rs re).filter
        (fun k => k.1 == c.id && k.2.1 == T)).isEmpty with
    | true =>
        rw [List.isEmpty_iff] at hvt
        rw [hvt] at hcount
        simp only [List.countP_nil] at hcount
        exact List.length_eq_zero.mp hcount
    | false =>
        have hvneD : ((weekVarKeysOf state rs re).filter
            (fun k => k.1 == c.id && k.2.1 == D &&
              (weekRestIdsOf state st).contains k.2.2)).isEmpty = false := by
          cases h : ((weekVarKeysOf state rs re).filter
              (fun k => k.1 == c.id && k.2.1 == D &&
                (weekRestIdsOf state st).contains k.2.2)).isEmpty with
          | false => rfl
          | true =>
              rw [List.isEmpty_iff] at h
              rw [h] at hk₀f
              exact absurd hk₀f (List.not_mem_nil k₀)
        have hguard : (!(((aget (weekManualOf state rs re) (c.id, D)).getD []).any
            (fun rid => (weekRestIdsOf state st).contains rid)) &&
            ((weekVarKeysOf state rs re).filter
              (fun k => k.1 == c.id && k.2.1 == D &&
                (weekRestIdsOf state st).contains k.2.2)).isEmpty) = false := by
          rw [hmoc, hvneD]
          rfl
        have hconB : (⟨((weekVarKeysOf state rs re).filter
            (fun k => k.1 == c.id && k.2.1 == T)).map xterm ++
            [(BIG, Var.onCall c.id D)], Rel.le, BIG⟩ : LinCon) ∈
            (weekRestCons state.clinicians (weekDayIsosOf rs re) (weekTargetIsosOf rs re)
              (weekVarKeysOf state rs re) (weekManualOf state rs re)
              (weekRestIdsOf state st) (max 0 st.onCallRestDaysBefore)
              (max 0 st.onCallRestDaysAfter)).1 := by
          rcases hwin with ⟨h1, h2, hb1, hT1⟩ | ⟨h1, h2, hb1, hT1⟩
          · refine weekRestCons_mem hc hiD (fun acc' =>
              weekRestStep_window_mem _ _ _ _ _ _ _ c acc' i D hguard
                (Or.inl ⟨h1, h2, ?_⟩))
            rw [hmoc]
            exact weekApplyRest_big_mem hb1 hT1 hTt hmanT hvt
          · refine weekRestCons_mem hc hiD (fun acc' =>
              weekRestStep_window_mem _ _ _ _ _ _ _ c acc' i D hguard
                (Or.inr ⟨h1, h2, ?_⟩))
            rw [hmoc]
            exact weekApplyRest_big_mem hb1 hT1 hTt hmanT hvt
        have hleB := con_le (feasible_con hfeas (rest_con_in_model hact hconB))
        rw [evalTerms_append, evalTerms_map_xterm] at hleB
        rw [sum_eq_countP sol _ (fun k hk => h01 k (List.mem_of_mem_filter hk))] at hleB
        simp only [evalTerms, List.map_cons, List.map_nil, List.sum_cons,
          List.sum_nil, BIG] at hleB
        have hcnt : ((weekVarKeysOf state rs re).filter
            (fun k => k.1 == c.id && k.2.1 == T)).countP
              (fun k => sol (xvar k) == 1) = 0 := by omega
        rw [hcnt] at hcount
        exact List.length_eq_zero.mp hcount

/-- The rest-enabled solver settings of the C4 counterexample. -/
def c4settings : List (String × SettingVal) :=
  [("allowMultipleShiftsPerDay", .b true), ("enforceSameLocationPerDay", .b false),
   ("onCallRestEnabled", .b true), ("onCallRestClassId", .str "R"),
   ("onCallRestDaysBefore", .i 0), ("onCallRestDaysAfter", .i 1)]

/-- The parsed form of `c4settings`. -/
def s4SettingsRec : SolverSettingsRec := ⟨true, false, true, some "R", 0, 1⟩

/-- Counterexample state for C4: rest class `R` with slots `R::s1`
(08:00-12:00) and `R::s2` (14:00-18:00); clinician `c` holds manual `R::s1`
assignments on both 2026-01-05 and 2026-01-06. -/
def s4clin : Clinician :=
  { id := "c", name := "C", qualifiedClassIds := ["R"]
    preferredClassIds := [], vacations := [] }

def s4state : AppState :=
  { locations := [defLoc], locationsEnabled := true
    rows := [{ id := "R", name := "R", kind := "class"
               locationId := some "loc-default"
               subShifts := [mkShift "s1" 1 "08:00" "12:00",
                             mkShift "s2" 2 "14:00" "18:00"] }]
    clinicians := [s4clin]
    assignments := [{ id := "m1", rowId := "R::s1", dateISO := "2026-01-05"
                      clinicianId := "c" },
                    { id := "m2", rowId := "R::s1", dateISO := "2026-01-06"
                      clinicianId := "c" }]
    minSlotsByRowId := [], slotOverridesByKey := [], holidays := []
    solverSettings := c4settings, solverRules := [] }

/-- The range-solver build on `s4state` for 2026-01-05..06. -/
def s4Built : WeekBuilt := solve_week_core s4state false s4SettingsRec 739926 739927

/-- Optimal valuation on `s4state`: both `R::s2` variables selected. -/
def s4Sol : Var → Int := fun v =>
  if v = Var.x "c" "2026-01-05" "R::s1" ∨ v = Var.x "c" "2026-01-06" "R::s1" then 0
  else 1

/-- C4 counterexample: `c` is manually on-call on 2026-01-05, the window
date 2026-01-06 also carries a manual assignment, and the optimal solution
assigns `c` the rest slot `R::s2` on both days — neither the zero-assignment
clause nor its manual-neighbour inversion holds. -/
theorem rest_window_counterexample :
    solve_week_build s4state ⟨"2026-01-05", some "2026-01-06", false⟩ = .ok s4Built ∧
    Optimal s4Built.model s4Sol ∧ ¬ RestClaim s4Built s4Sol := by
  refine ⟨rfl, ⟨⟨rfl, rfl⟩, ?_⟩, ?_⟩
  · intro sol' hf
    have h1 := feasible_dom_bool hf
      (show Var.x "c" "2026-01-05" "R::s2" ∈ s4Built.model.boolVars by decide)
    have h2 := feasible_dom_bool hf
      (show Var.x "c" "2026-01-06" "R::s2" ∈ s4Built.model.boolVars by decide)
    have h3 := con_le (feasible_con hf
      (show (⟨[(1, Var.x "c" "2026-01-05" "R::s1")], Rel.le, 0⟩ : LinCon) ∈
        s4Built.model.cons by decide))
    have h4 := con_le (feasible_con hf
      (show (⟨[(1, Var.x "c" "2026-01-06" "R::s1")], Rel.le, 0⟩ : LinCon) ∈
        s4Built.model.cons by decide))
    have h5 := feasible_dom_bool hf
      (show Var.x "c" "2026-01-05" "R::s1" ∈ s4Built.model.boolVars by decide)
    have h6 := feasible_dom_bool hf
      (show Var.x "c" "2026-01-06" "R::s1" ∈ s4Built.model.boolVars by decide)
    have hobj : s4Built.model.objective =
        [(-130, Var.x "c" "2026-01-05" "R::s1"), (-120, Var.x "c" "2026-01-05" "R::s2"),
         (-130, Var.x "c" "2026-01-06" "R::s1"), (-120, Var.x "c" "2026-01-06" "R::s2"),
         (0, Var.x "c" "2026-01-05" "R::s1"), (0, Var.x "c" "2026-01-05" "R::s2"),
         (0, Var.x "c" "2026-01-06" "R::s1"), (0, Var.x "c" "2026-01-06" "R::s2")] := rfl
    have hv1 : s4Sol (Var.x "c" "2026-01-05" "R::s1") = 0 := rfl
    have hv2 : s4Sol (Var.x "c" "2026-01-05" "R::s2") = 1 := rfl
    have hv3 : s4Sol (Var.x "c" "2026-01-06" "R::s1") = 0 := rfl
    have hv4 : s4Sol (Var.x "c" "2026-01-06" "R::s2") = 1 := rfl
    simp only [objVal, hobj, evalTerms, List.map_cons, List.map_nil, List.sum_cons,
      List.sum_nil, hv1, hv2, hv3, hv4]
    simp only [evalTerms, List.map_cons, List.map_nil, List.sum_cons,
      List.sum_nil] at h3 h4
    rcases h1 with h1 | h1 <;> rcases h2 with h2 | h2 <;> rw [h1, h2] <;> omega
  · intro h
    have h2 := h rfl "c" "2026-01-05" (by decide)
      (Or.inl (by decide)) "2026-01-06" (by decide) (by decide)
      ⟨1, 2, rfl, rfl, Or.inr (by decide)⟩
    exact absurd (h2.2 (by decide)) (by decide)

/-- Witness for the C4 amended theorem on `s4state` with `D` = 2026-01-06
(no manual rest on a window date forbids nothing here; the instantiation
exercises both implications at `D` = 2026-01-05, `T` = 2026-01-06). -/
theorem rest_windows_amended_witness :
    ((((aget s4Built.manual ("c", "2026-01-05")).getD []).any
        (fun rid => s4Built.restIds.contains rid) = true →
      (aget s4Built.manual ("c", "2026-01-06")).getD [] = [] →
      (weekAssignments s4Built s4Sol).filter
        (fun a => a.clinicianId == "c" && a.dateISO == "2026-01-06") = []) ∧
     (((aget s4Built.manual ("c", "2026-01-05")).getD []).any
        (fun rid => s4Built.restIds.contains rid) = false →
      (aget s4Built.manual ("c", "2026-01-06")).getD [] ≠ [] →
      (weekAssignments s4Built s4Sol).filter
        (fun a => a.clinicianId == "c" && a.dateISO == "2026-01-05" &&
          s4Built.restIds.contains a.rowId) = []) ∧
     (((aget s4Built.manual ("c", "2026-01-05")).getD []).any
        (fun rid => s4Built.restIds.contains rid) = false →
      (aget s4Built.manual ("c", "2026-01-06")).getD [] = [] →
      (weekAssignments s4Built s4Sol).filter
        (fun a => a.clinicianId == "c" && a.dateISO == "2026-01-05" &&
          s4Built.restIds.contains a.rowId) ≠ [] →
      (weekAssignments s4Built s4Sol).filter
        (fun a => a.clinicianId == "c" && a.dateISO == "2026-01-06") = [])) :=
  @rest_windows_amended s4state ⟨"2026-01-05", some "2026-01-06", false⟩ s4Built rfl
    s4Sol ⟨rfl, rfl⟩ rfl s4clin (by decide) 1 "2026-01-05" (by decide) 1 "2026-01-06"
    (Or.inr ⟨by decide, by decide, by decide, by decide⟩) (by decide)

end ShiftSched
